import Mathlib

/-! Si5351 driver of the NJAD VFO (`NJAD_VFO_V1.1/si5351.cpp`).

A shallow embedding of the clock generator driver: the frequency decomposition
`DoTheMath`, the register programming routines `Set_Carrier_Freq`,
`Set_VFO_Freq`, `Si5351_Init`, and the two remembered multipliers `oMf`, `oMc`.

Conventions of the embedding.

* `uint32_t` values are natural numbers; every 32-bit operation of the source is
  followed by an explicit reduction modulo `2^32` (`u32add`, `u32sub`, `u32mul`,
  `u32shl`).  Signed values are integers, narrowed with `toInt32`, `toInt64`.
* The single-precision expression that computes `b` is modelled exactly: a
  `binary32` value is kept as a fraction whose denominator is a power of two and
  every operation rounds the exact result to 24 significant bits, ties to even
  (`f32Round`).
* `cmd_si5351` is modelled at the level of the register write it transmits: it
  appends the pair (register, data byte) to the log `bus` of the state.
-/

namespace Si5351

/-! ## Machine arithmetic -/

/-- Two's complement narrowing of an integer to `int64_t`. -/
def toInt64 (x : Int) : Int := (x + 2 ^ 63) % 2 ^ 64 - 2 ^ 63

/-- Two's complement narrowing of an integer to `int32_t`. -/
def toInt32 (x : Int) : Int := (x + 2 ^ 31) % 2 ^ 32 - 2 ^ 31

/-- Addition of two `uint32_t`. -/
def u32add (x y : Nat) : Nat := (x + y) % 2 ^ 32

/-- Subtraction of two `uint32_t` (wraps below zero). -/
def u32sub (x y : Nat) : Nat := (x + 2 ^ 32 - y % 2 ^ 32) % 2 ^ 32

/-- Multiplication of two `uint32_t`. -/
def u32mul (x y : Nat) : Nat := (x * y) % 2 ^ 32

/-- Left shift of a `uint32_t`. -/
def u32shl (x k : Nat) : Nat := (x <<< k) % 2 ^ 32

/-! ## Single precision arithmetic -/

/-- Number of binary digits of `n` with the given recursion budget. -/
def bitLengthAux : Nat → Nat → Nat
  | 0, _ => 0
  | fuel + 1, n => if n = 0 then 0 else bitLengthAux fuel (n / 2) + 1

/-- Number of binary digits of `n` (`0` for `0`). -/
def bitLength (n : Nat) : Nat := bitLengthAux n n

/-- Nearest integer to the fraction `n / d`, ties to the even neighbour. -/
def rne (n d : Nat) : Nat :=
  let q := n / d
  let r := n % d
  if 2 * r < d then q
  else if d < 2 * r then q + 1
  else if q % 2 = 0 then q else q + 1

/-- A finite non-negative `binary32` value, kept as the exact fraction
`num / den`; `den` is a power of two. -/
structure F32 where
  num : Nat
  den : Nat
  deriving DecidableEq, Repr

/-- Rounding of the exact non-negative fraction `n / d` (`d ≠ 0`) to `binary32`:
the fraction is scaled by a power of two so that its quotient has 24
significant bits, rounded to the nearest integer (ties to even) and scaled
back.  Exponent range limits (subnormals, overflow) are not represented; the
values of `DoTheMath` stay far inside the normal range. -/
def f32Round (n d : Nat) : F32 :=
  if n = 0 then ⟨0, 1⟩
  else
    let b := bitLength n
    let a0 := 24 + bitLength d
    let a := if n * 2 ^ (a0 - b) < d * 2 ^ (b - a0) * 2 ^ 24 then a0 else a0 - 1
    ⟨rne (n * 2 ^ (a - b)) (d * 2 ^ (b - a)) * 2 ^ (b - a), 2 ^ (a - b)⟩

/-- Exact rational value of a `binary32`. -/
def F32.val (x : F32) : ℚ := (x.num : ℚ) / (x.den : ℚ)

/-- Conversion `(float) x` of a `uint32_t`. -/
def F32.ofNat (x : Nat) : F32 := f32Round x 1

/-- Single precision product. -/
def F32.mul (x y : F32) : F32 := f32Round (x.num * y.num) (x.den * y.den)

/-- Single precision quotient. -/
def F32.div (x y : F32) : F32 := f32Round (x.num * y.den) (x.den * y.num)

/-- Conversion `(long) x`: truncation toward zero. -/
def F32.toLong (x : F32) : Nat := x.num / x.den

/-! ## Driver state -/

/-- The structure `SI_math` of `si5351.h`. -/
structure SI_math where
  M : Nat
  R : Nat
  a : Nat
  b : Nat
  c : Nat
  dd : Nat
  P1 : Nat
  P2 : Nat
  P3 : Nat
  deriving DecidableEq, Repr

/-- The enumeration `clk_drive` of `si5351.h`. -/
inductive clk_drive where
  | CLK_DRIVE_2MA
  | CLK_DRIVE_4MA
  | CLK_DRIVE_6MA
  | CLK_DRIVE_8MA
  deriving DecidableEq, Repr

/-- Numeric value of a `clk_drive` enumerator. -/
def clk_drive.toNat : clk_drive → Nat
  | .CLK_DRIVE_2MA => 0
  | .CLK_DRIVE_4MA => 1
  | .CLK_DRIVE_6MA => 2
  | .CLK_DRIVE_8MA => 3

/-- Crystal frequency `SI_XTAL` of `config.h`. -/
def SI_XTAL : Nat := 25000000

/-- Carrier oscillator modes of `VFO_defs.h`. -/
def C_OSC_OFF : Nat := 0
/-- Carrier on CLK0 only. -/
def C_OSC_CLK0 : Nat := 1
/-- Carrier on CLK1 only. -/
def C_OSC_CLK1 : Nat := 2
/-- Quadrature mode. -/
def C_OSC_QUAD : Nat := 3
/-- Quadrature mode with CLK1 inverted. -/
def C_OSC_QUAD_R : Nat := 4

/-- File scope variables of `si5351.cpp` together with the log of register
writes sent to the chip (oldest first). -/
structure SiState where
  oMf : Nat
  oMc : Nat
  xFreq : Nat
  xtalCorr : Int
  bus : List (Nat × Nat)
  deriving DecidableEq, Repr

/-- State after static initialisation: `oMf = oMc = 0`, `xFreq = SI_XTAL`,
`xtalCorr = 0`, nothing written yet. -/
def SiState.boot : SiState := ⟨0, 0, SI_XTAL, 0, []⟩

/-- Register write `cmd_si5351 (reg_No, d)`; both arguments are `uint8_t`. -/
def cmd_si5351 (reg_No d : Nat) (st : SiState) : SiState :=
  { st with bus := st.bus ++ [(reg_No % 256, d % 256)] }

/-- Function `SetCorrection`: stores the `int32_t` correction factor. -/
def SetCorrection (corr : Int) (st : SiState) : SiState :=
  { st with xtalCorr := corr }

/-- Function `SetXtalFreq`: stores the crystal frequency. -/
def SetXtalFreq (freq : Nat) (st : SiState) : SiState :=
  { st with xFreq := freq }

/-! ## `DoTheMath` -/

/-- Line 414 of `si5351.cpp`:
`freq + (int32_t) ((((int64_t) xtalCorr << 31) / 1000000000LL * freq) >> 31)`.
The 64-bit division truncates toward zero, the 64-bit product is narrowed to
`int64_t`, the shift is arithmetic, the cast narrows to `int32_t` and the sum
is a `uint32_t`. -/
def applyCorrection (xtalCorr : Int) (freq : Nat) : Nat :=
  let k : Int := Int.tdiv (xtalCorr * 2 ^ 31) 1000000000
  let prod : Int := toInt64 (k * (freq : Int))
  let adj : Int := toInt32 (prod >>> (31 : Nat))
  (((freq : Int) + adj) % 2 ^ 32).toNat

/-- Lines 419 to 423: clamp into `[1500, 280000000]`. -/
def clampFreq (freq : Nat) : Nat :=
  if freq < 1500 then 1500
  else if freq > 280000000 then 280000000
  else freq

/-- Lines 432 to 447: the chain of comparisons selecting `(M, R)`. -/
def selectMR (freq : Nat) : Nat × Nat :=
  if freq > 150000000 then (4, 0)
  else if freq ≥ 63000000 then (6, 0)
  else if freq ≥ 27500000 then (14, 0)
  else if freq ≥ 13000000 then (30, 0)
  else if freq ≥ 6500000 then (62, 0)
  else if freq ≥ 3000000 then (126, 0)
  else if freq ≥ 1500000 then (280, 0)
  else if freq ≥ 700000 then (600, 0)
  else if freq ≥ 330000 then (1280, 0)
  else if freq ≥ 150000 then (1300, 1)
  else if freq ≥ 67000 then (1500, 2)
  else if freq ≥ 30300 then (1600, 3)
  else if freq ≥ 14000 then (1800, 4)
  else if freq ≥ 7000 then (1800, 5)
  else if freq ≥ 3500 then (1800, 6)
  else (1800, 7)

/-- Line 464:
`(long) ((float) (freq - a * xFreq) * (float) c / (float) xFreq)` stored in
the `uint32_t` field `b`. -/
def computeB (freq a c xFreq : Nat) : Nat :=
  let rem := u32sub freq (u32mul a xFreq)
  (F32.toLong (F32.div (F32.mul (F32.ofNat rem) (F32.ofNat c)) (F32.ofNat xFreq))) % 2 ^ 32

/-- Lines 465 to 468: the fields `dd`, `P1`, `P2`, `P3` computed from `a`, `b`,
`c` in 32-bit unsigned arithmetic. -/
def packRegs (a b c : Nat) : Nat × Nat × Nat × Nat :=
  let dd := u32mul 128 b / c
  let P1 := u32sub (u32add (u32mul 128 a) dd) 512
  let P2 := u32sub (u32mul 128 b) (u32mul c dd)
  (dd, P1, P2, c)

/-- Function `DoTheMath (freq, params)`: returns the adjusted frequency and the filled
structure.  The crystal frequency and the correction factor are read from the
state.  A crystal frequency of `0` makes the source divide by zero; the
embedding then yields the value of Lean's total division. -/
def DoTheMath (st : SiState) (freq : Nat) : Nat × SI_math :=
  let freq := applyCorrection st.xtalCorr freq
  let freq := clampFreq freq
  let M := (selectMR freq).1
  let R := (selectMR freq).2
  let freq := u32mul freq M
  let freq := u32shl freq R
  let c := 0xFFFFF
  let a := freq / st.xFreq
  let b := computeB freq a c st.xFreq
  let p := packRegs a b c
  (freq, { M := M, R := R, a := a, b := b, c := c,
           dd := p.1, P1 := p.2.1, P2 := p.2.2.1, P3 := p.2.2.2 })

/-! ## Register programming -/

/-- A run of consecutive `cmd_si5351` calls, given as (register, data) pairs in
program order. -/
def cmds (ws : List (Nat × Nat)) (st : SiState) : SiState :=
  ws.foldl (fun s w => cmd_si5351 w.1 w.2 s) st

/-- Function `Set_Carrier_Freq (freq, MODE, dr, RST)`: programs PLL-A and the outputs
CLK0 and CLK1.  `MODE` and `RST` are `uint8_t` values. -/
def Set_Carrier_Freq (freq MODE : Nat) (dr : clk_drive) (RST : Nat) (st : SiState) :
    SiState :=
  let st1 :=
    if MODE ≠ 0 then
      let s1 := cmds [(16, 0x4C ||| dr.toNat), (17, 0x4C ||| dr.toNat)] st
      let s2 := if MODE = C_OSC_QUAD_R then cmd_si5351 17 (0x5C ||| dr.toNat) s1 else s1
      let SI := (DoTheMath s2 freq).2
      let s3 := cmds
        [ (26, (SI.P3 >>> 8) &&& 0xFF),
          (27, SI.P3 &&& 0xFF),
          (28, (SI.P1 >>> 16) &&& 0x03),
          (29, (SI.P1 >>> 8) &&& 0xFF),
          (30, SI.P1 &&& 0xFF),
          (31, ((SI.P3 >>> 12) &&& 0xF0) ||| ((SI.P2 >>> 16) &&& 0x0F)),
          (32, (SI.P2 >>> 8) &&& 0xFF),
          (33, SI.P2 &&& 0xFF) ] s2
      let s4 :=
        if SI.M = 4 then
          cmds
            [ (42, 0), (43, 1), (44, 0b00001100), (45, 0), (46, 0), (47, 0), (48, 0), (49, 0),
              (50, 0), (51, 1), (52, 0b00001100), (53, 0), (54, 0), (55, 0), (56, 0), (57, 0) ] s3
        else
          let P1 := u32sub (u32mul 128 SI.M) 512
          cmds
            [ (42, 0), (43, 1),
              (44, ((u32shl SI.R 4) &&& 0x70) ||| ((P1 >>> 16) &&& 0x03)),
              (45, (P1 >>> 8) &&& 0xFF),
              (46, P1 &&& 0xFF),
              (47, 0), (48, 0), (49, 0),
              (50, 0), (51, 1),
              (52, ((u32shl SI.R 4) &&& 0x70) ||| ((P1 >>> 16) &&& 0x03)),
              (53, (P1 >>> 8) &&& 0xFF),
              (54, P1 &&& 0xFF),
              (55, 0), (56, 0), (57, 0) ] s3
      let s5 := cmds [(165, 0), (166, SI.M)] s4
      let s6 := if s5.oMc ≠ SI.M ∨ RST = 1 then cmd_si5351 177 0x20 s5 else s5
      { s6 with oMc := SI.M }
    else st
  let st2 := cmd_si5351 3 0x00 st1
  let st3 := if MODE = C_OSC_CLK0 then cmd_si5351 3 0x02 st2 else st2
  if MODE = C_OSC_CLK1 then cmd_si5351 3 0x01 st3 else st3

/-- Function `Set_VFO_Freq (freq, dr)`: programs PLL-B and the output CLK2.  The drive
level parameter is unnamed in the source and not used. -/
def Set_VFO_Freq (freq : Nat) (_dr : clk_drive) (st : SiState) : SiState :=
  let SI := (DoTheMath st freq).2
  let s1 := cmds
    [ (34, (SI.P3 >>> 8) &&& 0xFF),
      (35, SI.P3 &&& 0xFF),
      (36, (SI.P1 >>> 16) &&& 0x03),
      (37, (SI.P1 >>> 8) &&& 0xFF),
      (38, SI.P1 &&& 0xFF),
      (39, ((SI.P3 >>> 12) &&& 0xF0) ||| ((SI.P2 >>> 16) &&& 0x0F)),
      (40, (SI.P2 >>> 8) &&& 0xFF),
      (41, SI.P2 &&& 0xFF) ] st
  let s2 :=
    if SI.M = 4 then
      cmds [ (58, 0), (59, 1), (60, 0b00001100), (61, 0), (62, 0), (63, 0), (64, 0), (65, 0) ] s1
    else
      let P1 := u32sub (u32mul 128 SI.M) 512
      cmds
        [ (58, 0), (59, 1),
          (60, ((u32shl SI.R 4) &&& 0x70) ||| ((P1 >>> 16) &&& 0x03)),
          (61, (P1 >>> 8) &&& 0xFF),
          (62, P1 &&& 0xFF),
          (63, 0), (64, 0), (65, 0) ] s1
  let s3 := if s2.oMf ≠ SI.M then cmd_si5351 177 0x80 s2 else s2
  { s3 with oMf := SI.M }

/-- Function `Si5351_Init (dr)`: the register writes of the initializer (the pin setup
before them writes no register). -/
def Si5351_Init (dr : clk_drive) (st : SiState) : SiState :=
  cmds
    [ (183, 0b10010010), (16, 0x80), (17, 0x80), (18, 0x80),
      (177, 0xA0), (16, 0x80), (17, 0x80), (18, 0x6C ||| dr.toNat) ] st

/-! ## Observations on the register log -/

/-- Register writes issued between two states of the same run. -/
def writesSince (before after : SiState) : List (Nat × Nat) :=
  after.bus.drop before.bus.length

/-- Data byte of the most recent write to register `r` in a log (oldest
first), if there is one. -/
def lastWrite (r : Nat) : List (Nat × Nat) → Option Nat
  | [] => none
  | w :: rest =>
    match lastWrite r rest with
    | some v => some v
    | none => if w.1 = r then some w.2 else none

/-- Content of register `r` as far as the driver has determined it. -/
def regValue (st : SiState) (r : Nat) : Option Nat := lastWrite r st.bus

/-- Whether register `r` is known to hold a value with a bit of `mask` set. -/
def regBitSet (st : SiState) (r mask : Nat) : Bool :=
  match regValue st r with
  | some v => v &&& mask != 0
  | none => false

/-- Output CLK0 is off: powered down in register 16 or disabled in register 3. -/
def clk0Off (st : SiState) : Bool := regBitSet st 16 0x80 || regBitSet st 3 0x01

/-- Output CLK1 is off: powered down in register 17 or disabled in register 3. -/
def clk1Off (st : SiState) : Bool := regBitSet st 17 0x80 || regBitSet st 3 0x02

/-- A call of one of the programming entry points. -/
inductive Call where
  | init (dr : clk_drive)
  | carrier (freq MODE : Nat) (dr : clk_drive) (RST : Nat)
  | vfo (freq : Nat) (dr : clk_drive)
  deriving DecidableEq, Repr

/-- Effect of one call. -/
def Call.exec : Call → SiState → SiState
  | .init dr => Si5351_Init dr
  | .carrier freq MODE dr RST => Set_Carrier_Freq freq MODE dr RST
  | .vfo freq dr => Set_VFO_Freq freq dr

/-- Effect of a sequence of calls, first call first. -/
def runCalls (st : SiState) : List Call → SiState
  | [] => st
  | c :: cs => runCalls (c.exec st) cs

/-- Reset flags of a run of `Set_VFO_Freq` calls: for each requested frequency,
whether that call wrote `0x80` to register 177. -/
def vfoResets (st : SiState) : List Nat → List Bool
  | [] => []
  | f :: fs =>
    let st1 := Set_VFO_Freq f clk_drive.CLK_DRIVE_8MA st
    decide ((177, 0x80) ∈ writesSince st st1) :: vfoResets st1 fs

/-! ## Reference formulas -/

/-- The packing formulas of the header comments of `Set_Carrier_Freq` and
`Set_VFO_Freq` over the integers:
`P1 = 128 a + floor (128 b / c) - 512`, `P2 = 128 b - c floor (128 b / c)`,
`P3 = c`. -/
def packFormula (a b c : Int) : Int × Int × Int :=
  (128 * a + (128 * b) / c - 512, 128 * b - c * ((128 * b) / c), c)

/-- Inverse algebra of the packing formulas: recovers `(a, b)` from
`(P1, P2, P3)`. -/
def unpackFormula (P : Int × Int × Int) : Int × Int :=
  ((P.1 + 512) / 128, (P.2.2 * ((P.1 + 512) % 128) + P.2.1) / 128)

/-- The corrected frequency in the words of the specification:
`requested + round (requested × correction × 10⁻⁹)`. -/
def specCorrected (xtalCorr : Int) (freq : Nat) : Int :=
  (freq : Int) + round (((freq : ℚ) * (xtalCorr : ℚ)) / 1000000000)

/-- Multipliers remembered along a run: the reset flags the specification
expects for a list of multipliers, starting from the remembered value `prev`. -/
def expectedResets (prev : Nat) : List Nat → List Bool
  | [] => []
  | m :: ms => decide (prev ≠ m) :: expectedResets m ms

end Si5351

namespace Si5351

/-! ## Pin level protocol -/

/-- Data pin `SI_SDA` of `config.h`. -/
def SI_SDA : Nat := 26

/-- Clock pin `SI_SCL` of `config.h`. -/
def SI_SCL : Nat := 27

/-- Bus address `SI_I2C_ADDR` of `config.h`. -/
def SI_I2C_ADDR : Nat := 0x60

/-- Pin operations of the Arduino core; `true` is `HIGH`. -/
inductive PinEvent where
  | digitalWrite (pin : Nat) (level : Bool)
  | delayMicroseconds (us : Nat)
  | digitalRead (pin : Nat)
  deriving DecidableEq, Repr

/-- The `for` loop of `wr_I2C` with `n` iterations left and current byte `d`. -/
def wr_I2C_loop : Nat → Nat → List PinEvent
  | 0, _ => []
  | n + 1, d =>
    [ PinEvent.digitalWrite SI_SDA (d &&& 0x80 != 0),
      PinEvent.delayMicroseconds 1,
      PinEvent.digitalWrite SI_SCL true,
      PinEvent.delayMicroseconds 1,
      PinEvent.digitalWrite SI_SCL false,
      PinEvent.delayMicroseconds 1,
      PinEvent.digitalWrite SI_SDA false ] ++ wr_I2C_loop n ((d <<< 1) % 256)

/-- Pin operations of `wr_I2C (d)`; the argument is a `uint8_t`. -/
def wr_I2C (d : Nat) : List PinEvent :=
  wr_I2C_loop 8 (d % 256) ++
    [ PinEvent.digitalWrite SI_SCL true,
      PinEvent.delayMicroseconds 1,
      PinEvent.digitalWrite SI_SCL false ]

/-- Pin operations of `cmd_si5351 (reg_No, d)`. -/
def cmd_si5351_pins (reg_No d : Nat) : List PinEvent :=
  [ PinEvent.digitalWrite SI_SDA false,
    PinEvent.delayMicroseconds 1,
    PinEvent.digitalWrite SI_SCL false,
    PinEvent.delayMicroseconds 1 ] ++
  wr_I2C (SI_I2C_ADDR <<< 1) ++ wr_I2C reg_No ++ wr_I2C d ++
  [ PinEvent.delayMicroseconds 1,
    PinEvent.digitalWrite SI_SCL true,
    PinEvent.delayMicroseconds 1,
    PinEvent.digitalWrite SI_SDA true,
    PinEvent.delayMicroseconds 10 ]

/-- Level of the data line during each completed clock pulse of a trace (clock
driven high, later driven low), in order.  `sda` is the current data level and
`held` the data level latched when the clock went high, if it is high. -/
def clockPulses (sda : Bool) (held : Option Bool) : List PinEvent → List Bool
  | [] => []
  | PinEvent.digitalWrite pin level :: rest =>
    if pin = SI_SDA then clockPulses level held rest
    else if pin = SI_SCL then
      if level then clockPulses sda (some sda) rest
      else
        match held with
        | some b => b :: clockPulses sda none rest
        | none => clockPulses sda none rest
    else clockPulses sda held rest
  | _ :: rest => clockPulses sda held rest

/-- Data level and latched level after a trace, for the same scan as
`clockPulses`. -/
def pinState (sda : Bool) (held : Option Bool) : List PinEvent → Bool × Option Bool
  | [] => (sda, held)
  | PinEvent.digitalWrite pin level :: rest =>
    if pin = SI_SDA then pinState level held rest
    else if pin = SI_SCL then
      if level then pinState sda (some sda) rest
      else pinState sda none rest
    else pinState sda held rest
  | _ :: rest => pinState sda held rest

/-- The eight bits of a byte, most significant first. -/
def bitsMSB (b : Nat) : List Bool :=
  (List.range 8).map fun k => b.testBit (7 - k)

/-- Pin writes of a trace, in order. -/
def pinWrites : List PinEvent → List (Nat × Bool)
  | [] => []
  | PinEvent.digitalWrite pin level :: rest => (pin, level) :: pinWrites rest
  | _ :: rest => pinWrites rest

/-- Whether a trace reads a pin. -/
def readsPin : List PinEvent → Bool
  | [] => false
  | PinEvent.digitalRead _ :: _ => true
  | _ :: rest => readsPin rest

end Si5351

/-! Dial image of the NJAD VFO (`NJAD_VFO_V1.1/dial.cpp`).

The boundary table `yry` of `InitDial` and the anti-aliased plot `dot`.
Floating-point values are kept exactly as dyadic fractions; every
single-precision operation of `dot` rounds to 24 significant bits and every
double-precision operation to 53, ties to even. -/

namespace Dial

/-! ## Configuration -/

/-- The constants of `config.h` and `display.h` used by the dial geometry and
by `dot`.  `Nx` is `DISP_W` and `Ny` is `DISP_H`. -/
structure Config where
  Nx : Nat
  Ny : Nat
  D_HEIGHT : Int
  D_R : Int
  DIAL_SPACE : Int
  F_MAIN_OUTSIDE : Nat
  TICK_WIDTH : Nat
  TICK_MAIN10 : Int
  TICK_SUB10 : Int
  deriving DecidableEq, Repr

/-- Display configuration `FT7_DISP`. -/
def FT7_DISP : Config :=
  { Nx := 160, Ny := 128, D_HEIGHT := 120 + 4, D_R := 200, DIAL_SPACE := 35,
    F_MAIN_OUTSIDE := 1, TICK_WIDTH := 1, TICK_MAIN10 := 12, TICK_SUB10 := 15 }

/-- Display configuration `SMALL_DISP`. -/
def SMALL_DISP : Config :=
  { Nx := 160, Ny := 128, D_HEIGHT := 75, D_R := 200, DIAL_SPACE := 35,
    F_MAIN_OUTSIDE := 0, TICK_WIDTH := 1, TICK_MAIN10 := 12, TICK_SUB10 := 15 }

/-- Display configuration `LARGE_DISP`. -/
def LARGE_DISP : Config :=
  { Nx := 320, Ny := 240, D_HEIGHT := 180, D_R := 400, DIAL_SPACE := 35,
    F_MAIN_OUTSIDE := 0, TICK_WIDTH := 1, TICK_MAIN10 := 12, TICK_SUB10 := 15 }

/-- Display configuration `CUSTOM_DISP`, the one selected by `DISP_SIZE`. -/
def CUSTOM_DISP : Config :=
  { Nx := 320, Ny := 180, D_HEIGHT := 155, D_R := 300, DIAL_SPACE := 35,
    F_MAIN_OUTSIDE := 0, TICK_WIDTH := 1, TICK_MAIN10 := 12, TICK_SUB10 := 15 }

/-- Left limit `D_left`. -/
def D_left (_cfg : Config) : Int := 0

/-- Right limit `D_right = Nx - 1`. -/
def D_right (cfg : Config) : Int := (cfg.Nx : Int) - 1

/-- Center column `D_center = Nx >> 1`. -/
def D_center (cfg : Config) : Int := ((cfg.Nx >>> 1 : Nat) : Int)

/-- Radius of the inside scale, `D_R_inside = D_R - DIAL_SPACE`. -/
def D_R_inside (cfg : Config) : Int := cfg.D_R - cfg.DIAL_SPACE

/-- Integer square root with a recursion budget: the root of `n` is twice the
root of `n / 4`, plus one if that still fits. -/
def isqrtAux : Nat → Nat → Nat
  | 0, _ => 0
  | fuel + 1, n =>
    if n < 2 then n
    else
      let s := 2 * isqrtAux fuel (n / 4)
      if (s + 1) * (s + 1) ≤ n then s + 1 else s

/-- Integer square root: the largest `q` with `q * q ≤ n`. -/
def isqrt (n : Nat) : Nat := isqrtAux n n

/-- The conversion `(int) (0.5 + sqrt (n) + off)` for a positive integer `n` and
an integer `off`.  The real number `0.5 + sqrt n` is never an integer, its floor
is `(isqrt (4 n) + 1) / 2`, and the conversion truncates toward zero.  The
floating-point evaluation of the source gives this value for radii up to 1024:
all operands are exactly represented integers and the single-precision square
root is closer to the real one than the real one is to any half-integer. -/
def truncHalfSqrt (n : Nat) (off : Int) : Int :=
  let fl : Int := (((isqrt (4 * n) + 1) / 2 : Nat) : Int) + off
  if fl < 0 then fl + 1 else fl

/-- Body of each of the four loops of `InitDial` over the columns: the entry
stored for column `xg` and the circle of radius `Rk` (lines 142 to 157). -/
def boundaryRow (cfg : Config) (Rk : Int) (xg : Int) : Int :=
  let yf : Int := Rk * Rk - (xg - D_center cfg) * (xg - D_center cfg)
  if yf > 0 then
    let v := truncHalfSqrt yf.toNat (cfg.D_HEIGHT - cfg.D_R)
    if v < 0 then 0 else v
  else 0

/-- Entry `yry[xg][k]` after `InitDial` (lines 140 to 232). -/
def yry (cfg : Config) (xg : Int) (k : Nat) : Int :=
  match k with
  | 0 => boundaryRow cfg cfg.D_R xg
  | 1 =>
    boundaryRow cfg
      (if cfg.F_MAIN_OUTSIDE = 1 then cfg.D_R - cfg.TICK_MAIN10 else cfg.D_R - cfg.TICK_SUB10) xg
  | 2 => boundaryRow cfg (D_R_inside cfg + 1) xg
  | 3 =>
    boundaryRow cfg
      (if cfg.F_MAIN_OUTSIDE = 1 then D_R_inside cfg - cfg.TICK_SUB10
        else D_R_inside cfg - cfg.TICK_MAIN10) xg
  | _ => 0

/-- The table `yry[Nx][4]` filled by `InitDial`. -/
def InitDial (cfg : Config) : List (List Int) :=
  (List.range cfg.Nx).map fun xg =>
    [yry cfg xg 0, yry cfg xg 1, yry cfg xg 2, yry cfg xg 3]

/-! ## Single precision values as dyadic fractions -/

/-- The number `num / 2 ^ exp`. -/
structure Dyadic where
  num : Int
  exp : Nat
  deriving DecidableEq, Repr

/-- Integer as a dyadic fraction. -/
def Dyadic.ofInt (n : Int) : Dyadic := ⟨n, 0⟩

/-- Exact sum. -/
def Dyadic.add (x y : Dyadic) : Dyadic :=
  ⟨x.num * 2 ^ y.exp + y.num * 2 ^ x.exp, x.exp + y.exp⟩

/-- Exact difference. -/
def Dyadic.sub (x y : Dyadic) : Dyadic :=
  ⟨x.num * 2 ^ y.exp - y.num * 2 ^ x.exp, x.exp + y.exp⟩

/-- Exact product. -/
def Dyadic.mul (x y : Dyadic) : Dyadic := ⟨x.num * y.num, x.exp + y.exp⟩

/-- Rational value. -/
def Dyadic.val (x : Dyadic) : ℚ := (x.num : ℚ) / (2 : ℚ) ^ x.exp

/-- Conversion to an integer type: truncation toward zero. -/
def Dyadic.trunc (x : Dyadic) : Int := Int.tdiv x.num (2 ^ x.exp)

/-- Rounding to `p` significant bits: a numerator of at most `p` bits is kept,
a longer one is rounded to its leading `p` bits, ties to even.  The exponent
range is not limited. -/
def Dyadic.roundTo (p : Nat) (x : Dyadic) : Dyadic :=
  let m := x.num.natAbs
  let b := Si5351.bitLength m
  if b ≤ p then x
  else
    let s := b - p
    let q : Int := (Si5351.rne m (2 ^ s) : Nat)
    ⟨(if x.num < 0 then -q else q) * 2 ^ (s - x.exp), x.exp - s⟩

/-- Rounding to single precision (`float`). -/
def Dyadic.round24 (x : Dyadic) : Dyadic := Dyadic.roundTo 24 x

/-- Rounding to double precision (`double`). -/
def Dyadic.round53 (x : Dyadic) : Dyadic := Dyadic.roundTo 53 x

/-! ## The plot routine `dot` -/

/-- The three planes `R_GRAM`, `G_GRAM`, `B_GRAM`, indexed `[x][y]`. -/
structure GRAM where
  R : Nat → Nat → Nat
  G : Nat → Nat → Nat
  B : Nat → Nat → Nat

/-- All-zero planes. -/
def GRAM.zero : GRAM := ⟨fun _ _ => 0, fun _ _ => 0, fun _ _ => 0⟩

/-- Store into the red plane: `R_GRAM[x][y] = v`. -/
def GRAM.setR (g : GRAM) (x y v : Nat) : GRAM :=
  { g with R := fun i j => if i = x ∧ j = y then v else g.R i j }

/-- The statements `if (dat > 0xFF) dat = 0xFF; R_GRAM[x][y] = (unsigned char) dat`. -/
def storeClamped (g : GRAM) (x y dat : Nat) : GRAM :=
  g.setR x y (if dat > 0xFF then 0xFF else dat)

/-- The conversion `(int) v` of a floating-point value: truncation toward
zero; not defined when the truncated value is outside the range of `int`. -/
def toInt (v : Dyadic) : Option Int :=
  if -2 ^ 31 ≤ v.trunc ∧ v.trunc < 2 ^ 31 then some v.trunc else none

/-- The conversion `(unsigned int) v` of a floating-point value: truncation
toward zero; not defined when the truncated value is negative or outside the
range of `unsigned int`. -/
def toUnsigned (v : Dyadic) : Option Nat :=
  if 0 ≤ v.trunc ∧ v.trunc < 2 ^ 32 then some v.trunc.toNat else none

/-- The row coordinate that is plotted, `y + 0.5 * (float) TICK_WIDTH`: the sum
is formed in double precision and stored back into the `float` variable `y`. -/
def plotRow (cfg : Config) (y : Dyadic) : Dyadic :=
  Dyadic.round24 (Dyadic.round53 (Dyadic.add y ⟨cfg.TICK_WIDTH, 1⟩))

/-- Distance to the next cell, `(float) cu - v` with `cu = c + 1`, as in
`Rxd = ((float) xu - x)` and `Ryd`. -/
def edgeDown (c : Int) (v : Dyadic) : Dyadic :=
  Dyadic.round24 (Dyadic.sub (Dyadic.ofInt (c + 1)) v)

/-- Distance from the cell, `v - (float) c`, as in `Rxu = (x - (float) xd)` and
`Ryu`. -/
def edgeUp (c : Int) (v : Dyadic) : Dyadic :=
  Dyadic.round24 (Dyadic.sub v (Dyadic.ofInt c))

/-- The expression `Rx * Ry * 256.0`: a single-precision product, then an exact
scaling in double precision. -/
def weight256 (rx ry : Dyadic) : Dyadic :=
  Dyadic.mul (Dyadic.round24 (Dyadic.mul rx ry)) (Dyadic.ofInt 256)

/-- Function `dot (x, y)` (lines 1064 to 1109).  The result is `none` when a
conversion from floating point to an integer type is not defined. -/
def dot (cfg : Config) (x y : Dyadic) (g : GRAM) : Option GRAM :=
  let y := plotRow cfg y
  (toInt x).bind fun xd =>
  (toInt y).bind fun yd =>
  if 0 ≤ xd ∧ xd < (cfg.Nx : Int) - 1 ∧ 0 ≤ yd ∧ yd < (cfg.Ny : Int) - 1 then
    let xu := xd + 1
    let yu := yd + 1
    let Rxd := edgeDown xd x
    let Rxu := edgeUp xd x
    let Ryd := edgeDown yd y
    let Ryu := edgeUp yd y
    (toInt (weight256 Rxd Ryd)).bind fun t =>
    let dat : Int := (g.R xd.toNat yd.toNat : Int) + t
    let g := storeClamped g xd.toNat yd.toNat (dat % 2 ^ 32).toNat
    (toUnsigned (weight256 Rxu Ryd)).bind fun t =>
    let g := storeClamped g xu.toNat yd.toNat ((g.R xu.toNat yd.toNat + t) % 2 ^ 32)
    (toUnsigned (weight256 Rxd Ryu)).bind fun t =>
    let g := storeClamped g xd.toNat yu.toNat ((g.R xd.toNat yu.toNat + t) % 2 ^ 32)
    (toUnsigned (weight256 Rxu Ryu)).bind fun t =>
    some (storeClamped g xu.toNat yu.toNat ((g.R xu.toNat yu.toNat + t) % 2 ^ 32))
  else some g

/-- Plotting the same point `n` times. -/
def dotN (cfg : Config) (x y : Dyadic) : Nat → GRAM → Option GRAM
  | 0, g => some g
  | n + 1, g => (dot cfg x y g).bind (dotN cfg x y n)

/-! ## Reference formulas for the plot -/

/-- Largest integer not above the value. -/
def Dyadic.floor (x : Dyadic) : Int := x.num / 2 ^ x.exp

/-- Exact area weight of the neighbour cell `(c + dx, r + dy)` of the point
`(x, y)`, where `(c, r)` is the cell containing the point: the product of the
exact distances to the opposite edges. -/
def areaWeight (x y : Dyadic) (dx dy : Bool) : Dyadic :=
  let c := x.floor
  let r := y.floor
  Dyadic.mul
    (if dx then Dyadic.sub x (Dyadic.ofInt c) else Dyadic.sub (Dyadic.ofInt (c + 1)) x)
    (if dy then Dyadic.sub y (Dyadic.ofInt r) else Dyadic.sub (Dyadic.ofInt (r + 1)) y)

/-- The cell value `min (255, old + floor (w * 256))`. -/
def saturatingAdd (old : Nat) (w : Dyadic) : Int :=
  min 255 ((old : Int) + (Dyadic.mul w (Dyadic.ofInt 256)).floor)

end Dial

/-! Framebuffer drawing of the NJAD VFO (`NJAD_VFO_V1.1/graph.cpp`) and the
conversion to 16-bit colour (`Software/NJAD_VFO_V1.0/display.cpp`).

Values of type `int` are unbounded integers: screen coordinates are far from
the limits of `int`.  An access outside the arrays `R_GRAM`, `G_GRAM`, `B_GRAM`
of `Nx` columns and `Ny` rows has no defined result and yields `none`. -/

namespace Graph

open Dial (GRAM)

/-! ## Pixels -/

/-- The three plane bytes of one pixel. -/
def GRAM.pixel (g : GRAM) (x y : Nat) : Nat × Nat × Nat := (g.R x y, g.G x y, g.B x y)

/-- Store into all three planes at `[x][y]`. -/
def GRAM.setRGB (g : GRAM) (x y : Nat) (c : Nat × Nat × Nat) : GRAM :=
  { R := fun i j => if i = x ∧ j = y then c.1 else g.R i j,
    G := fun i j => if i = x ∧ j = y then c.2.1 else g.G i j,
    B := fun i j => if i = x ∧ j = y then c.2.2 else g.B i j }

/-- The three values that `setPixel` stores for a 24-bit colour:
`(color & 0xFF0000) >> 16`, `(color & 0x00FF00) >> 8` and `color & 0x0000FF`. -/
def channels (color : Nat) : Nat × Nat × Nat :=
  ((color &&& 0xFF0000) >>> 16, (color &&& 0x00FF00) >>> 8, color &&& 0x0000FF)

/-- Function `setPixel (x, y, color)` (lines 417 to 422) on arrays of `Nx` columns
and `Ny` rows. -/
def setPixel (Nx Ny : Nat) (x y : Int) (color : Nat) (g : GRAM) : Option GRAM :=
  if 0 ≤ x ∧ x < (Nx : Int) ∧ 0 ≤ y ∧ y < (Ny : Int) then
    some (GRAM.setRGB g x.toNat y.toNat (channels color))
  else none

/-! ## Loops -/

/-- The loop `for (k = lo; k <= hi; k++) body (k)`, unrolled `n` times from `k`. -/
def forUpTo {σ : Type} (body : Int → σ → Option σ) : Nat → Int → σ → Option σ
  | 0, _, s => some s
  | n + 1, k, s => (body k s).bind (forUpTo body n (k + 1))

/-- The loop `for (k = lo; k <= hi; k++) body (k)`: it runs `hi + 1 - lo` times
when `lo <= hi` and not at all otherwise. -/
def forLoop {σ : Type} (lo hi : Int) (body : Int → σ → Option σ) (s : σ) : Option σ :=
  forUpTo body (hi + 1 - lo).toNat lo s

/-! ## Boxes -/

/-- Function `BoxFill (x_min, y_min, x_max, y_max, color)` (lines 35 to 47). -/
def BoxFill (Nx Ny : Nat) (x_min y_min x_max y_max : Int) (color : Nat) (g : GRAM) :
    Option GRAM :=
  let x_min := if x_min < 0 then 0 else x_min
  let y_min := if y_min < 0 then 0 else y_min
  let x_max := if x_max ≥ (Nx : Int) then (Nx : Int) - 1 else x_max
  let y_max := if y_max ≥ (Ny : Int) then (Ny : Int) - 1 else y_max
  forLoop x_min x_max (fun k g => forLoop y_min y_max (fun j g => setPixel Nx Ny k j color g) g) g

/-- Background colour `CL_BG` of `config.h` (`CL_BLACK`). -/
def CL_BG : Nat := 0x000000

/-- Function `ClearGRAM ()` (lines 24 to 27). -/
def ClearGRAM (Nx Ny : Nat) (g : GRAM) : Option GRAM :=
  BoxFill Nx Ny 0 0 ((Nx : Int) - 1) ((Ny : Int) - 1) CL_BG g


/-! ## Lines -/

/-- The loop `while (1)` of lines 95 to 110 (`dx > dy`), started at its first
statement with the values `xx`, `yy`, `t`; `plot` stands for `setPixel`.  The
first argument bounds the number of rounds; `none` also stands for a loop that
has not ended within that bound. -/
def lineLoopX {σ : Type} (plot : Int → Int → σ → Option σ) (xe xstep ystep dx dy : Int) :
    Nat → Int → Int → Int → σ → Option σ
  | 0, _, _, _, _ => none
  | fuel + 1, xx, yy, t, s =>
    (plot xx yy s).bind fun s =>
      if xx = xe then some s
      else
        let xx := xx + xstep
        let t := t + dy
        if t ≥ 0 then lineLoopX plot xe xstep ystep dx dy fuel xx (yy + ystep) (t - dx) s
        else lineLoopX plot xe xstep ystep dx dy fuel xx yy t s

/-- The loop `while (1)` of lines 117 to 132 (`dx <= dy`). -/
def lineLoopY {σ : Type} (plot : Int → Int → σ → Option σ) (ye xstep ystep dx dy : Int) :
    Nat → Int → Int → Int → σ → Option σ
  | 0, _, _, _, _ => none
  | fuel + 1, xx, yy, t, s =>
    (plot xx yy s).bind fun s =>
      if yy = ye then some s
      else
        let yy := yy + ystep
        let t := t + dx
        if t ≥ 0 then lineLoopY plot ye xstep ystep dx dy fuel (xx + xstep) yy (t - dy) s
        else lineLoopY plot ye xstep ystep dx dy fuel xx yy t s

/-- Function `Line (xs, ys, xe, ye, color)` (lines 54 to 135) with `setPixel (x, y, color)`
given as `plot x y`, and with a bound `fuel` on the rounds of its `while` loops. -/
def Line {σ : Type} (plot : Int → Int → σ → Option σ) (fuel : Nat) (xs ys xe ye : Int)
    (s : σ) : Option σ :=
  let dx := if xe > xs then xe - xs else xs - xe
  let xstep : Int := if xe > xs then 1 else -1
  let dy := if ye > ys then ye - ys else ys - ye
  let ystep : Int := if ye > ys then 1 else -1
  if dx = 0 ∧ dy = 0 then plot xs ys s
  else if dx = 0 then
    ((if ystep > 0 then forLoop ys ye (fun j s => plot xs j s) s else some s).bind fun s =>
      if ystep < 0 then forLoop ye ys (fun j s => plot xs j s) s else some s)
  else if dy = 0 then
    ((if xstep > 0 then forLoop xs xe (fun j s => plot j ys s) s else some s).bind fun s =>
      if xstep < 0 then forLoop xe xs (fun j s => plot j ys s) s else some s)
  else if dx > dy then
    lineLoopX plot xe xstep ystep dx dy fuel xs ys (-(dx >>> (1 : Nat))) s
  else
    lineLoopY plot ye xstep ystep dx dy fuel xs ys (-(dy >>> (1 : Nat))) s

/-- Recording `setPixel`: appends the pixel to the list of pixels set so far. -/
def record (x y : Int) (l : List (Int × Int)) : Option (List (Int × Int)) := some (l ++ [(x, y)])

/-- The pixels that `Line` sets on an unbounded grid, in the order of the calls
of `setPixel`. -/
def linePixels (fuel : Nat) (xs ys xe ye : Int) : Option (List (Int × Int)) :=
  Line record fuel xs ys xe ye []

/-- Two pixels differ by at most 1 in each coordinate. -/
def adjacent (p q : Int × Int) : Prop :=
  (q.1 - p.1).natAbs ≤ 1 ∧ (q.2 - p.2).natAbs ≤ 1

/-- The pixels `pts` form a line from `(xs, ys)` to `(xe, ye)` that is one pixel
wide along its major axis: `max (|xe - xs|, |ye - ys|) + 1` distinct pixels,
both end points among them, consecutive pixels adjacent, and exactly one pixel
for each coordinate value along the major axis. -/
def lineShape (pts : List (Int × Int)) (xs ys xe ye : Int) : Prop :=
  pts.length = max (xe - xs).natAbs (ye - ys).natAbs + 1 ∧ pts.Nodup ∧
    (xs, ys) ∈ pts ∧ (xe, ye) ∈ pts ∧ List.Chain' adjacent pts ∧
    ((ye - ys).natAbs < (xe - xs).natAbs →
      ∀ v, min xs xe ≤ v → v ≤ max xs xe → ∃! p, p ∈ pts ∧ p.1 = v) ∧
    ((xe - xs).natAbs ≤ (ye - ys).natAbs →
      ∀ v, min ys ye ≤ v → v ≤ max ys ye → ∃! p, p ∈ pts ∧ p.2 = v)

/-- Function `Line` on the arrays of `Nx` columns and `Ny` rows. -/
def LineGRAM (Nx Ny : Nat) (fuel : Nat) (xs ys xe ye : Int) (color : Nat) (g : GRAM) :
    Option GRAM :=
  Line (fun x y g => setPixel Nx Ny x y color g) fuel xs ys xe ye g

/-- Function `Box (x_min, y_min, x_max, y_max, color)` (lines 146 to 159). -/
def Box (Nx Ny : Nat) (fuel : Nat) (x_min y_min x_max y_max : Int) (color : Nat) (g : GRAM) :
    Option GRAM :=
  let x_min := if x_min < 0 then 0 else x_min
  let y_min := if y_min < 0 then 0 else y_min
  let x_max := if x_max ≥ (Nx : Int) then (Nx : Int) - 1 else x_max
  let y_max := if y_max ≥ (Ny : Int) then (Ny : Int) - 1 else y_max
  (LineGRAM Nx Ny fuel x_min y_min x_max y_min color g).bind fun g =>
  (LineGRAM Nx Ny fuel x_min y_max x_max y_max color g).bind fun g =>
  (LineGRAM Nx Ny fuel x_min y_min x_min y_max color g).bind fun g =>
  LineGRAM Nx Ny fuel x_max y_min x_max y_max color g

end Graph

namespace Display

open Dial (GRAM)

/-! ## Conversion to 16-bit colour -/

end Display

namespace Dial

/-! ## The last statements of `Dial` -/

/-- The clearance loops that end `Dial` (lines 1033 to 1056).  Each store
assigns the colour constant `CL_DIAL_BG` to a `uint8_t` cell, which keeps its
low byte. -/
def clearance (cfg : Config) (CL_DIAL_BG : Nat) (g : GRAM) : GRAM :=
  let v := CL_DIAL_BG % 256
  let g := (List.range (yry cfg 0 0).toNat).foldl
    (fun g yg => Graph.GRAM.setRGB g 0 yg (v, v, v)) g
  let g := (List.range (yry cfg 1 0).toNat).foldl
    (fun g yg => Graph.GRAM.setRGB g 1 yg (v, v, v)) g
  (List.range cfg.Nx).foldl
    (fun g xg => Graph.GRAM.setRGB (Graph.GRAM.setRGB g xg 0 (v, v, v)) xg 1 (v, v, v)) g

end Dial

namespace Si5351

/-! ## Output divider registers -/

/-- Data bytes of the eight writes to the registers of one output divider
(lines 201 to 208 and 223 to 231), as sent on the bus. -/
def msBytes (M R : Nat) : List Nat :=
  if M = 4 then [0, 1, 0b00001100, 0, 0, 0, 0, 0]
  else
    let P1 := u32sub (u32mul 128 M) 512
    [0, 1, (((u32shl R 4) &&& 0x70) ||| ((P1 >>> 16) &&& 0x03)) % 256, ((P1 >>> 8) &&& 0xFF) % 256,
      (P1 &&& 0xFF) % 256, 0, 0, 0]

/-- Content of the eight registers `base .. base + 7` as far as the driver has
determined it. -/
def regBlock (st : SiState) (base : Nat) : List (Option Nat) :=
  (List.range 8).map fun k => regValue st (base + k)

/-- The divider bytes by the layout of the register map: `P3 = 1` in bytes 0 and 1, the
exponent `R` in bits 6..4 and `P1[17:16]` in bits 1..0 of byte 2, `P1[15:8]`
and `P1[7:0]` in bytes 3 and 4, `P2 = 0` in bytes 5 to 7, with
`P1 = 128 M - 512`; for `M = 4` the fixed pattern with `0x0C` in byte 2. -/
def dividerBytes (M R : Nat) : List Nat :=
  if M = 4 then [0, 1, 0x0C, 0, 0, 0, 0, 0]
  else [0, 1, R * 16 + (128 * M - 512) / 65536, (128 * M - 512) / 256 % 256,
    (128 * M - 512) % 256, 0, 0, 0]

/-- Reading the fields `(P1, P2, P3, R)` back from the eight divider bytes. -/
def decodeDivider : List Nat → Option (Nat × Nat × Nat × Nat)
  | [b0, b1, b2, b3, b4, b5, b6, b7] =>
    some (b2 % 4 * 65536 + b3 * 256 + b4, b5 % 16 * 65536 + b6 * 256 + b7,
      b5 / 16 * 65536 + b0 * 256 + b1, b2 / 16 % 8)
  | _ => none

end Si5351

namespace Dial

/-! ## Tick ranges of `InitDial` -/

/-- Quotient of two non-negative values with a positive divisor, rounded to `p`
significant bits, ties to even: the quotient is formed with a sticky last bit
and then rounded. -/
def Dyadic.divRound (p : Nat) (x y : Dyadic) : Dyadic :=
  let n := x.num.natAbs * 2 ^ y.exp
  let d := y.num.natAbs * 2 ^ x.exp
  let k := p + 2 + Si5351.bitLength d
  let q := n * 2 ^ k / d
  let sticky := if n * 2 ^ k % d = 0 then 0 else 1
  Dyadic.roundTo p ⟨((2 * q + sticky : Nat) : Int), k + 1⟩

/-- A decimal constant `n / d` of the source, as the nearest `double`. -/
def dbl (n d : Nat) : Dyadic := Dyadic.divRound 53 (Dyadic.ofInt n) (Dyadic.ofInt d)

/-- Product in double precision. -/
def dmul (x y : Dyadic) : Dyadic := Dyadic.round53 (Dyadic.mul x y)

/-- Quotient in double precision. -/
def ddiv (x y : Dyadic) : Dyadic := Dyadic.divRound 53 x y

/-- Main tick pitch `TICK_PITCH_MAIN` of `config.h`. -/
def TICK_PITCH_MAIN : Nat := 50

/-- Sub tick pitch `TICK_PITCH_SUB` of `config.h`. -/
def TICK_PITCH_SUB : Nat := 60

/-- Size of the half window of the rotation tables, `ZERO_rad`. -/
def ZERO_rad : Int := 128

/-- The arc length assigned to a scale of radius `r` (lines 69 to 93):
`1.6 * (float) r` when `r < Nx / 2` and `1.6 * 0.5 * (float) Nx` otherwise,
stored in a `float`. -/
def arc (cfg : Config) (r : Int) : Dyadic :=
  Dyadic.round24
    (if r < ((cfg.Nx / 2 : Nat) : Int) then dmul (dbl 16 10) (Dyadic.ofInt r)
     else dmul (dmul (dbl 16 10) (dbl 5 10)) (Dyadic.ofInt cfg.Nx))

/-- Variable `arc_main` of `InitDial`. -/
def arc_main (cfg : Config) : Dyadic :=
  if cfg.F_MAIN_OUTSIDE = 1 then arc cfg cfg.D_R else arc cfg (D_R_inside cfg)

/-- Variable `arc_sub` of `InitDial`. -/
def arc_sub (cfg : Config) : Dyadic :=
  if cfg.F_MAIN_OUTSIDE = 1 then arc cfg (D_R_inside cfg) else arc cfg cfg.D_R

/-- The expression `arc / (0.1 * (float) TICK_PITCH)`. -/
def tickCount (a : Dyadic) (pitch : Nat) : Dyadic :=
  ddiv a (dmul (dbl 1 10) (Dyadic.ofInt pitch))

/-- Upper bound `H_main1` or `H_sub1`: `(int) ((arc / (0.1 * pitch)) * 2.0)`. -/
def upper1 (a : Dyadic) (pitch : Nat) : Int :=
  (dmul (tickCount a pitch) (Dyadic.ofInt 2)).trunc

/-- Lower bound `L_main1` or `L_sub1`: `(int) ((arc / (0.1 * pitch)) * -1.0)`. -/
def lower1 (a : Dyadic) (pitch : Nat) : Int :=
  (dmul (tickCount a pitch) (Dyadic.ofInt (-1))).trunc

/-- The statements `L /= 2; L++; L *= 2; L++; L *= -1` (lines 105 to 107). -/
def lowerOdd (n : Int) : Int := ((Int.tdiv n 2 + 1) * 2 + 1) * -1

/-- The statements `L /= 2; L++; L *= 2; L *= -1` (lines 112 to 115). -/
def lowerEven (n : Int) : Int := (Int.tdiv n 2 + 1) * 2 * -1

/-- Upper bound `H_main5` or `H_sub5`. -/
def upper5 (a : Dyadic) (pitch : Nat) : Int :=
  (dmul (ddiv (tickCount a pitch) (Dyadic.ofInt 5)) (Dyadic.ofInt 2)).trunc

/-- Lower bound `L_main5` or `L_sub5`. -/
def lower5 (a : Dyadic) (pitch : Nat) : Int :=
  lowerOdd (dmul (ddiv (tickCount a pitch) (Dyadic.ofInt 5)) (dbl 75 100)).trunc

/-- Upper bound `H_main10` or `H_sub10`. -/
def upper10 (a : Dyadic) (pitch : Nat) : Int :=
  (dmul (ddiv (tickCount a pitch) (Dyadic.ofInt 10)) (Dyadic.ofInt 2)).trunc

/-- Lower bound `L_main10` or `L_sub10`. -/
def lower10 (a : Dyadic) (pitch : Nat) : Int :=
  lowerEven (dmul (ddiv (tickCount a pitch) (Dyadic.ofInt 10)) (dbl 75 100)).trunc

/-! ## Tick loops of `Dial` -/

/-- Values of `i` in a loop `for (i = L; i <= H; i += step)` with `step > 0`. -/
def loopIndices (L H step : Int) : List Int :=
  (List.range ((H - L) / step + 1).toNat).map fun j : Nat => L + step * (j : Int)

/-- Indices of the 10-unit ticks: `for (i = L10; i <= H10; i++)`. -/
def ticks10 (L H : Int) : List Int := loopIndices L H 1

/-- Indices of the 5-unit ticks: `for (i = L5; i <= H5; i += 2)`. -/
def ticks5 (L H : Int) : List Int := loopIndices L H 2

/-- Indices of the 1-unit ticks: `for (i = L1; i <= H1; i++)` with the test
`i % 5 != 0`. -/
def ticks1 (L H : Int) : List Int := (loopIndices L H 1).filter fun i => Int.tmod i 5 != 0

/-- Index into the tables `sin_` and `cos_`: `k = (fsign * i * step) + ZERO_rad`. -/
def tableIndex (fsign i step : Int) : Int := fsign * i * step + ZERO_rad

/-- All table indices that `Dial` forms in the tick and numeral loops of one
scale with arc `a` and pitch `pitch`. -/
def scaleIndices (a : Dyadic) (pitch : Nat) (fsign : Int) : List Int :=
  (ticks10 (lower10 a pitch) (upper10 a pitch)).map (fun i => tableIndex fsign i 10) ++
  (ticks5 (lower5 a pitch) (upper5 a pitch)).map (fun i => tableIndex fsign i 5) ++
  (ticks1 (lower1 a pitch) (upper1 a pitch)).map (fun i => tableIndex fsign i 1)

/-- All table indices of one call of `Dial`: sub scale, then main scale. -/
def dialIndices (cfg : Config) (fsign : Int) : List Int :=
  scaleIndices (arc_sub cfg) TICK_PITCH_SUB fsign ++
    scaleIndices (arc_main cfg) TICK_PITCH_MAIN fsign

end Dial

/-! ## Auxiliary lemmas -/

namespace Si5351

theorem applyCorrection_zero (freq : Nat) : applyCorrection 0 freq = freq % 2 ^ 32 := by
  unfold applyCorrection toInt64 toInt32
  simp only [Int.shiftRight_eq_div_pow, zero_mul, Int.zero_tdiv]
  omega

theorem applyCorrection_lt (c : Int) (freq : Nat) : applyCorrection c freq < 2 ^ 32 := by
  unfold applyCorrection
  simp only
  omega

theorem applyCorrection_formula (c : Int) (freq : Nat) :
    ((applyCorrection c freq : Nat) : Int) =
      ((freq : Int) + (Int.tdiv (c * 2 ^ 31) 1000000000 * freq) / 2 ^ 31) % 2 ^ 32 := by
  unfold applyCorrection toInt64 toInt32
  simp only [Int.shiftRight_eq_div_pow]
  generalize Int.tdiv (c * 2 ^ 31) 1000000000 * (freq : Int) = P
  omega

/-- The interval of every row of the comparison chain of `selectMR`. -/
theorem selectMR_cases (f : Nat) :
    (150000000 < f ∧ selectMR f = (4, 0)) ∨
    (63000000 ≤ f ∧ f < 150000001 ∧ selectMR f = (6, 0)) ∨
    (27500000 ≤ f ∧ f < 63000000 ∧ selectMR f = (14, 0)) ∨
    (13000000 ≤ f ∧ f < 27500000 ∧ selectMR f = (30, 0)) ∨
    (6500000 ≤ f ∧ f < 13000000 ∧ selectMR f = (62, 0)) ∨
    (3000000 ≤ f ∧ f < 6500000 ∧ selectMR f = (126, 0)) ∨
    (1500000 ≤ f ∧ f < 3000000 ∧ selectMR f = (280, 0)) ∨
    (700000 ≤ f ∧ f < 1500000 ∧ selectMR f = (600, 0)) ∨
    (330000 ≤ f ∧ f < 700000 ∧ selectMR f = (1280, 0)) ∨
    (150000 ≤ f ∧ f < 330000 ∧ selectMR f = (1300, 1)) ∨
    (67000 ≤ f ∧ f < 150000 ∧ selectMR f = (1500, 2)) ∨
    (30300 ≤ f ∧ f < 67000 ∧ selectMR f = (1600, 3)) ∨
    (14000 ≤ f ∧ f < 30300 ∧ selectMR f = (1800, 4)) ∨
    (7000 ≤ f ∧ f < 14000 ∧ selectMR f = (1800, 5)) ∨
    (3500 ≤ f ∧ f < 7000 ∧ selectMR f = (1800, 6)) ∨
    (f < 3500 ∧ selectMR f = (1800, 7)) := by
  unfold selectMR
  by_cases h0 : f > 150000000
  · rw [if_pos h0]; exact Or.inl ⟨h0, rfl⟩
  rw [if_neg h0]; refine Or.inr ?_
  by_cases h1 : f ≥ 63000000
  · rw [if_pos h1]; exact Or.inl ⟨h1, by omega, rfl⟩
  rw [if_neg h1]; refine Or.inr ?_
  by_cases h2 : f ≥ 27500000
  · rw [if_pos h2]; exact Or.inl ⟨h2, by omega, rfl⟩
  rw [if_neg h2]; refine Or.inr ?_
  by_cases h3 : f ≥ 13000000
  · rw [if_pos h3]; exact Or.inl ⟨h3, by omega, rfl⟩
  rw [if_neg h3]; refine Or.inr ?_
  by_cases h4 : f ≥ 6500000
  · rw [if_pos h4]; exact Or.inl ⟨h4, by omega, rfl⟩
  rw [if_neg h4]; refine Or.inr ?_
  by_cases h5 : f ≥ 3000000
  · rw [if_pos h5]; exact Or.inl ⟨h5, by omega, rfl⟩
  rw [if_neg h5]; refine Or.inr ?_
  by_cases h6 : f ≥ 1500000
  · rw [if_pos h6]; exact Or.inl ⟨h6, by omega, rfl⟩
  rw [if_neg h6]; refine Or.inr ?_
  by_cases h7 : f ≥ 700000
  · rw [if_pos h7]; exact Or.inl ⟨h7, by omega, rfl⟩
  rw [if_neg h7]; refine Or.inr ?_
  by_cases h8 : f ≥ 330000
  · rw [if_pos h8]; exact Or.inl ⟨h8, by omega, rfl⟩
  rw [if_neg h8]; refine Or.inr ?_
  by_cases h9 : f ≥ 150000
  · rw [if_pos h9]; exact Or.inl ⟨h9, by omega, rfl⟩
  rw [if_neg h9]; refine Or.inr ?_
  by_cases h10 : f ≥ 67000
  · rw [if_pos h10]; exact Or.inl ⟨h10, by omega, rfl⟩
  rw [if_neg h10]; refine Or.inr ?_
  by_cases h11 : f ≥ 30300
  · rw [if_pos h11]; exact Or.inl ⟨h11, by omega, rfl⟩
  rw [if_neg h11]; refine Or.inr ?_
  by_cases h12 : f ≥ 14000
  · rw [if_pos h12]; exact Or.inl ⟨h12, by omega, rfl⟩
  rw [if_neg h12]; refine Or.inr ?_
  by_cases h13 : f ≥ 7000
  · rw [if_pos h13]; exact Or.inl ⟨h13, by omega, rfl⟩
  rw [if_neg h13]; refine Or.inr ?_
  by_cases h14 : f ≥ 3500
  · rw [if_pos h14]; exact Or.inl ⟨h14, by omega, rfl⟩
  rw [if_neg h14]; refine Or.inr ?_
  exact ⟨by omega, rfl⟩

theorem vco_exact (f : Nat) (h1 : 1500 ≤ f) (h2 : f ≤ 280000000) :
    u32shl (u32mul f (selectMR f).1) (selectMR f).2 = f * (selectMR f).1 * 2 ^ (selectMR f).2 ∧
    345600000 ≤ f * (selectMR f).1 * 2 ^ (selectMR f).2 ∧
    f * (selectMR f).1 * 2 ^ (selectMR f).2 ≤ 1120000000 := by
  unfold u32shl u32mul
  rcases selectMR_cases f with h | h | h | h | h | h | h | h | h | h | h | h | h | h | h | h
  all_goals
    have hc := by first | exact h.2.2 | exact h.2
    rw [hc]
    simp only [Nat.shiftLeft_eq]
    norm_num
    omega

theorem bitLengthAux_zero (fuel : Nat) : bitLengthAux fuel 0 = 0 := by
  cases fuel <;> simp [bitLengthAux]

theorem bitLengthAux_spec (fuel : Nat) : ∀ n, n ≤ fuel → 0 < n →
    2 ^ (bitLengthAux fuel n - 1) ≤ n ∧ n < 2 ^ bitLengthAux fuel n ∧
      1 ≤ bitLengthAux fuel n := by
  induction fuel with
  | zero => intro n h1 h2; omega
  | succ fuel ih =>
    intro n h1 h2
    have hn : n ≠ 0 := by omega
    simp only [bitLengthAux, hn, if_false, Nat.add_sub_cancel]
    by_cases h : n / 2 = 0
    · rw [h, bitLengthAux_zero]
      have : n = 1 := by omega
      subst this
      simp
    · obtain ⟨ih1, ih2, ih3⟩ := ih (n / 2) (by omega) (by omega)
      generalize bitLengthAux fuel (n / 2) = k at ih1 ih2 ih3
      obtain ⟨j, rfl⟩ : ∃ j, k = j + 1 := ⟨k - 1, by omega⟩
      simp only [Nat.add_sub_cancel] at ih1
      rw [pow_succ] at ih2 ⊢
      rw [pow_succ]
      omega

theorem bitLength_spec (n : Nat) (h : 0 < n) :
    2 ^ (bitLength n - 1) ≤ n ∧ n < 2 ^ bitLength n ∧ 1 ≤ bitLength n :=
  bitLengthAux_spec n n le_rfl h

theorem rne_le (n d : Nat) : rne n d ≤ n / d + 1 := by
  unfold rne
  simp only
  split_ifs <;> omega

/-- After the power-of-two scaling of `f32Round` the numerator is at least the
denominator. -/
theorem scaled_ge (n d a : Nat) (hn : 0 < n) (hd : 0 < d) (ha : bitLength d + 1 ≤ a) :
    d * 2 ^ (bitLength n - a) ≤ n * 2 ^ (a - bitLength n) := by
  obtain ⟨hn1, _, hn3⟩ := bitLength_spec n hn
  obtain ⟨_, hd2, _⟩ := bitLength_spec d hd
  rcases le_total (bitLength n) a with h | h
  · rw [Nat.sub_eq_zero_of_le h, pow_zero, mul_one]
    calc d ≤ 2 ^ bitLength d := hd2.le
      _ ≤ 2 ^ (a - 1) := Nat.pow_le_pow_right (by norm_num) (by omega)
      _ = 2 ^ (bitLength n - 1) * 2 ^ (a - bitLength n) := by
          rw [← pow_add]; congr 1; omega
      _ ≤ n * 2 ^ (a - bitLength n) := Nat.mul_le_mul_right _ hn1
  · rw [Nat.sub_eq_zero_of_le h, pow_zero, mul_one]
    calc d * 2 ^ (bitLength n - a) ≤ 2 ^ bitLength d * 2 ^ (bitLength n - a) :=
          Nat.mul_le_mul_right _ hd2.le
      _ = 2 ^ (bitLength d + (bitLength n - a)) := by rw [← pow_add]
      _ ≤ 2 ^ (bitLength n - 1) := Nat.pow_le_pow_right (by norm_num) (by omega)
      _ ≤ n := hn1

theorem f32Round_bound (n d : Nat) (hd : 0 < d) :
    (f32Round n d).num * d ≤ 2 * n * (f32Round n d).den ∧ 0 < (f32Round n d).den := by
  unfold f32Round
  by_cases hn : n = 0
  · simp [hn]
  · simp only [hn, if_false]
    generalize ha : (if n * 2 ^ (24 + bitLength d - bitLength n) <
        d * 2 ^ (bitLength n - (24 + bitLength d)) * 2 ^ 24 then 24 + bitLength d
        else 24 + bitLength d - 1) = a
    have ha' : bitLength d + 1 ≤ a := by
      rw [← ha]; split_ifs <;> omega
    have hge := scaled_ge n d a (Nat.pos_of_ne_zero hn) hd ha'
    have hD : 0 < d * 2 ^ (bitLength n - a) := Nat.mul_pos hd (by positivity)
    refine ⟨?_, by positivity⟩
    have hq : 1 ≤ n * 2 ^ (a - bitLength n) / (d * 2 ^ (bitLength n - a)) :=
      (Nat.one_le_div_iff hD).mpr hge
    have hr := rne_le (n * 2 ^ (a - bitLength n)) (d * 2 ^ (bitLength n - a))
    have hm := Nat.div_mul_le_self (n * 2 ^ (a - bitLength n)) (d * 2 ^ (bitLength n - a))
    calc rne (n * 2 ^ (a - bitLength n)) (d * 2 ^ (bitLength n - a)) * 2 ^ (bitLength n - a) * d
        = rne (n * 2 ^ (a - bitLength n)) (d * 2 ^ (bitLength n - a)) *
            (d * 2 ^ (bitLength n - a)) := by ring
      _ ≤ (2 * (n * 2 ^ (a - bitLength n) / (d * 2 ^ (bitLength n - a)))) *
            (d * 2 ^ (bitLength n - a)) := Nat.mul_le_mul_right _ (by omega)
      _ = 2 * (n * 2 ^ (a - bitLength n) / (d * 2 ^ (bitLength n - a)) *
            (d * 2 ^ (bitLength n - a))) := by ring
      _ ≤ 2 * (n * 2 ^ (a - bitLength n)) := Nat.mul_le_mul_left _ hm
      _ = 2 * n * 2 ^ (a - bitLength n) := by ring

theorem f32Round_val_le (n d : Nat) (hd : 0 < d) :
    (f32Round n d).val ≤ 2 * ((n : ℚ) / (d : ℚ)) := by
  obtain ⟨h1, h2⟩ := f32Round_bound n d hd
  unfold F32.val
  have hd' : (0 : ℚ) < d := by exact_mod_cast hd
  have h2' : (0 : ℚ) < (f32Round n d).den := by exact_mod_cast h2
  rw [div_le_iff₀ h2', mul_div_assoc', div_mul_eq_mul_div, le_div_iff₀ hd']
  have : (((f32Round n d).num * d : Nat) : ℚ) ≤ ((2 * n * (f32Round n d).den : Nat) : ℚ) := by
    exact_mod_cast h1
  push_cast at this
  linarith

theorem F32_ofNat_c : F32.ofNat 0xFFFFF = ⟨16777200, 16⟩ := by decide
theorem F32_ofNat_xtal : F32.ofNat 25000000 = ⟨25000000, 1⟩ := by decide

theorem computeB_lt (v : Nat) :
    computeB v (v / 25000000) 0xFFFFF 25000000 < 8388601 := by
  unfold computeB
  have hrem : u32sub v (u32mul (v / 25000000) 25000000) < 25000000 := by
    unfold u32sub u32mul
    omega
  generalize u32sub v (u32mul (v / 25000000) 25000000) = r at hrem
  rw [F32_ofNat_c, F32_ofNat_xtal]
  have hx := f32Round_val_le r 1 Nat.one_pos
  have hxd := (f32Round_bound r 1 Nat.one_pos).2
  set x := F32.ofNat r with hxdef
  have hx' : x.val ≤ 2 * r := by simpa [hxdef, F32.ofNat] using hx
  have hxd' : 0 < x.den := hxd
  set p := F32.mul x ⟨16777200, 16⟩ with hpdef
  have hp : p.val ≤ 2 * (x.val * 1048575) := by
    have := f32Round_val_le (x.num * 16777200) (x.den * 16) (by positivity)
    have e : ((x.num * 16777200 : Nat) : ℚ) / ((x.den * 16 : Nat) : ℚ) = x.val * 1048575 := by
      have : (x.den : ℚ) ≠ 0 := by positivity
      unfold F32.val
      push_cast
      field_simp
      ring
    rw [e] at this
    exact this
  have hpd : 0 < p.den := (f32Round_bound (x.num * 16777200) (x.den * 16) (by positivity)).2
  set q := F32.div p ⟨25000000, 1⟩ with hqdef
  have hq : q.val ≤ 2 * (p.val / 25000000) := by
    have := f32Round_val_le (p.num * 1) (p.den * 25000000) (by positivity)
    have e : ((p.num * 1 : Nat) : ℚ) / ((p.den * 25000000 : Nat) : ℚ) = p.val / 25000000 := by
      have : (p.den : ℚ) ≠ 0 := by positivity
      unfold F32.val
      push_cast
      field_simp
    rw [e] at this
    exact this
  have hqd : 0 < q.den := (f32Round_bound (p.num * 1) (p.den * 25000000) (by positivity)).2
  have hr : (r : ℚ) < 25000000 := by exact_mod_cast hrem
  have hqv : q.val < 8388600 := by
    have h1 : p.val / 25000000 ≤ 2 * (x.val * 1048575) / 25000000 := by gcongr
    have h2 : x.val * 1048575 ≤ 2 * r * 1048575 := by gcongr
    have h3 : 2 * (2 * ((2 : ℚ) * r * 1048575) / 25000000) < 8388600 := by
      rw [← sub_pos]
      have : (8388600 : ℚ) - 2 * (2 * ((2 : ℚ) * r * 1048575) / 25000000)
          = (25000000 - r) * (8388600 / 25000000) := by ring
      rw [this]
      apply mul_pos <;> linarith
    have h4 : 2 * (x.val * 1048575) / 25000000 ≤ 2 * ((2 : ℚ) * r * 1048575) / 25000000 := by
      gcongr
    linarith
  have hlt : F32.toLong q < 8388601 := by
    unfold F32.toLong
    rw [Nat.div_lt_iff_lt_mul hqd]
    have hqd' : (0 : ℚ) < q.den := by exact_mod_cast hqd
    have : (q.num : ℚ) < 8388600 * q.den := by
      unfold F32.val at hqv
      rwa [div_lt_iff₀ hqd'] at hqv
    have h5 : (q.num : ℚ) < ((8388601 * q.den : Nat) : ℚ) := by
      push_cast
      linarith
    exact_mod_cast h5
  show F32.toLong q % 2 ^ 32 < 8388601
  omega

@[simp] theorem cmd_si5351_bus (r d : Nat) (st : SiState) :
    (cmd_si5351 r d st).bus = st.bus ++ [(r % 256, d % 256)] := rfl
@[simp] theorem cmd_si5351_oMf (r d : Nat) (st : SiState) : (cmd_si5351 r d st).oMf = st.oMf := rfl
@[simp] theorem cmd_si5351_oMc (r d : Nat) (st : SiState) : (cmd_si5351 r d st).oMc = st.oMc := rfl
@[simp] theorem cmd_si5351_xFreq (r d : Nat) (st : SiState) :
    (cmd_si5351 r d st).xFreq = st.xFreq := rfl
@[simp] theorem cmd_si5351_xtalCorr (r d : Nat) (st : SiState) :
    (cmd_si5351 r d st).xtalCorr = st.xtalCorr := rfl

/-- Bytes put on the bus for a list of (register, data) arguments. -/
theorem cmds_spec (ws : List (Nat × Nat)) : ∀ st : SiState,
    (cmds ws st).bus = st.bus ++ ws.map (fun w => (w.1 % 256, w.2 % 256)) ∧
    (cmds ws st).oMf = st.oMf ∧ (cmds ws st).oMc = st.oMc ∧
    (cmds ws st).xFreq = st.xFreq ∧ (cmds ws st).xtalCorr = st.xtalCorr := by
  induction ws with
  | nil => intro st; simp [cmds]
  | cons w ws ih =>
    intro st
    have h := ih (cmd_si5351 w.1 w.2 st)
    simp only [cmds, List.foldl_cons] at h ⊢
    simp only [cmd_si5351_bus, cmd_si5351_oMf, cmd_si5351_oMc, cmd_si5351_xFreq,
      cmd_si5351_xtalCorr] at h
    simp only [h, List.map_cons, List.append_assoc, List.singleton_append, and_self]

@[simp] theorem cmds_bus (ws : List (Nat × Nat)) (st : SiState) :
    (cmds ws st).bus = st.bus ++ ws.map (fun w => (w.1 % 256, w.2 % 256)) := (cmds_spec ws st).1
@[simp] theorem cmds_oMf (ws : List (Nat × Nat)) (st : SiState) :
    (cmds ws st).oMf = st.oMf := (cmds_spec ws st).2.1
@[simp] theorem cmds_oMc (ws : List (Nat × Nat)) (st : SiState) :
    (cmds ws st).oMc = st.oMc := (cmds_spec ws st).2.2.1
@[simp] theorem cmds_xFreq (ws : List (Nat × Nat)) (st : SiState) :
    (cmds ws st).xFreq = st.xFreq := (cmds_spec ws st).2.2.2.1
@[simp] theorem cmds_xtalCorr (ws : List (Nat × Nat)) (st : SiState) :
    (cmds ws st).xtalCorr = st.xtalCorr := (cmds_spec ws st).2.2.2.2

theorem DoTheMath_congr (st1 st2 : SiState) (freq : Nat) (h1 : st1.xFreq = st2.xFreq)
    (h2 : st1.xtalCorr = st2.xtalCorr) : DoTheMath st1 freq = DoTheMath st2 freq := by
  unfold DoTheMath
  rw [h1, h2]

theorem writesSince_append (st st1 : SiState) (ws : List (Nat × Nat))
    (h : st1.bus = st.bus ++ ws) : writesSince st st1 = ws := by
  unfold writesSince
  rw [h, List.drop_left]


theorem selectMR_fst_ne_zero (f : Nat) : (selectMR f).1 ≠ 0 := by
  rcases selectMR_cases f with h | h | h | h | h | h | h | h | h | h | h | h | h | h | h | h
  all_goals
    have hc := by first | exact h.2.2 | exact h.2
    rw [hc]
    decide

theorem DoTheMath_M (st : SiState) (freq : Nat) :
    (DoTheMath st freq).2.M = (selectMR (clampFreq (applyCorrection st.xtalCorr freq))).1 := rfl

theorem DoTheMath_R (st : SiState) (freq : Nat) :
    (DoTheMath st freq).2.R = (selectMR (clampFreq (applyCorrection st.xtalCorr freq))).2 := rfl

/-- One call of `Set_VFO_Freq`: reset exactly on a changed multiplier. -/
theorem Set_VFO_Freq_step (freq : Nat) (dr : clk_drive) (st : SiState) :
    ((177, 0x80) ∈ writesSince st (Set_VFO_Freq freq dr st) ↔
        st.oMf ≠ (DoTheMath st freq).2.M) ∧
      (Set_VFO_Freq freq dr st).oMf = (DoTheMath st freq).2.M ∧
      (Set_VFO_Freq freq dr st).oMc = st.oMc ∧
      (Set_VFO_Freq freq dr st).xFreq = st.xFreq ∧
      (Set_VFO_Freq freq dr st).xtalCorr = st.xtalCorr := by
  unfold Set_VFO_Freq writesSince
  generalize (DoTheMath st freq).2 = SI
  by_cases hM : SI.M = 4 <;> by_cases hR : st.oMf = SI.M
  all_goals
    try rw [hM] at hR
    simp [hM, hR]

/-! ## Claims on the Si5351 driver -/

theorem clampFreq_eq_max_min (f : Nat) : clampFreq f = max 1500 (min f 280000000) := by
  unfold clampFreq
  split_ifs <;> omega

/-- C1: with correction factor 0, `DoTheMath` selects `(M, R)` from the clamped
frequency `f = max 1500 (min freq 280000000)` by the descending breakpoint
table: `f > 150,000,000` gives `(4, 0)`, `f ≥ 63,000,000` gives `(6, 0)`, and so
on down to `(1800, 7)` below 3,500; each row is stated with its full interval.
In particular 63,000,000 gives `(6, 0)`, 62,999,999 gives `(14, 0)` and exactly
150,000,000 gives `(6, 0)`. -/
theorem C1_DoTheMath_breakpoints (st : SiState) (hc : st.xtalCorr = 0) (freq : Nat)
    (hf : freq < 2 ^ 32) :
    ((150000000 < max 1500 (min freq 280000000) ∧
        (DoTheMath st freq).2.M = 4 ∧ (DoTheMath st freq).2.R = 0) ∨
      (63000000 ≤ max 1500 (min freq 280000000) ∧ max 1500 (min freq 280000000) ≤ 150000000 ∧
        (DoTheMath st freq).2.M = 6 ∧ (DoTheMath st freq).2.R = 0) ∨
      (27500000 ≤ max 1500 (min freq 280000000) ∧ max 1500 (min freq 280000000) < 63000000 ∧
        (DoTheMath st freq).2.M = 14 ∧ (DoTheMath st freq).2.R = 0) ∨
      (13000000 ≤ max 1500 (min freq 280000000) ∧ max 1500 (min freq 280000000) < 27500000 ∧
        (DoTheMath st freq).2.M = 30 ∧ (DoTheMath st freq).2.R = 0) ∨
      (6500000 ≤ max 1500 (min freq 280000000) ∧ max 1500 (min freq 280000000) < 13000000 ∧
        (DoTheMath st freq).2.M = 62 ∧ (DoTheMath st freq).2.R = 0) ∨
      (3000000 ≤ max 1500 (min freq 280000000) ∧ max 1500 (min freq 280000000) < 6500000 ∧
        (DoTheMath st freq).2.M = 126 ∧ (DoTheMath st freq).2.R = 0) ∨
      (1500000 ≤ max 1500 (min freq 280000000) ∧ max 1500 (min freq 280000000) < 3000000 ∧
        (DoTheMath st freq).2.M = 280 ∧ (DoTheMath st freq).2.R = 0) ∨
      (700000 ≤ max 1500 (min freq 280000000) ∧ max 1500 (min freq 280000000) < 1500000 ∧
        (DoTheMath st freq).2.M = 600 ∧ (DoTheMath st freq).2.R = 0) ∨
      (330000 ≤ max 1500 (min freq 280000000) ∧ max 1500 (min freq 280000000) < 700000 ∧
        (DoTheMath st freq).2.M = 1280 ∧ (DoTheMath st freq).2.R = 0) ∨
      (150000 ≤ max 1500 (min freq 280000000) ∧ max 1500 (min freq 280000000) < 330000 ∧
        (DoTheMath st freq).2.M = 1300 ∧ (DoTheMath st freq).2.R = 1) ∨
      (67000 ≤ max 1500 (min freq 280000000) ∧ max 1500 (min freq 280000000) < 150000 ∧
        (DoTheMath st freq).2.M = 1500 ∧ (DoTheMath st freq).2.R = 2) ∨
      (30300 ≤ max 1500 (min freq 280000000) ∧ max 1500 (min freq 280000000) < 67000 ∧
        (DoTheMath st freq).2.M = 1600 ∧ (DoTheMath st freq).2.R = 3) ∨
      (14000 ≤ max 1500 (min freq 280000000) ∧ max 1500 (min freq 280000000) < 30300 ∧
        (DoTheMath st freq).2.M = 1800 ∧ (DoTheMath st freq).2.R = 4) ∨
      (7000 ≤ max 1500 (min freq 280000000) ∧ max 1500 (min freq 280000000) < 14000 ∧
        (DoTheMath st freq).2.M = 1800 ∧ (DoTheMath st freq).2.R = 5) ∨
      (3500 ≤ max 1500 (min freq 280000000) ∧ max 1500 (min freq 280000000) < 7000 ∧
        (DoTheMath st freq).2.M = 1800 ∧ (DoTheMath st freq).2.R = 6) ∨
      (max 1500 (min freq 280000000) < 3500 ∧
        (DoTheMath st freq).2.M = 1800 ∧ (DoTheMath st freq).2.R = 7)) ∧
    ((DoTheMath st 63000000).2.M = 6 ∧ (DoTheMath st 63000000).2.R = 0) ∧
    ((DoTheMath st 62999999).2.M = 14 ∧ (DoTheMath st 62999999).2.R = 0) ∧
    ((DoTheMath st 150000000).2.M = 6 ∧ (DoTheMath st 150000000).2.R = 0) := by
  have key : ∀ g : Nat, g < 2 ^ 32 →
      (DoTheMath st g).2.M = (selectMR (max 1500 (min g 280000000))).1 ∧
      (DoTheMath st g).2.R = (selectMR (max 1500 (min g 280000000))).2 := by
    intro g hg
    rw [DoTheMath_M, DoTheMath_R, hc, applyCorrection_zero, Nat.mod_eq_of_lt hg,
      clampFreq_eq_max_min]
    exact ⟨rfl, rfl⟩
  refine ⟨?_, ?_, ?_, ?_⟩
  · obtain ⟨hM, hR⟩ := key freq hf
    rw [hM, hR]
    generalize max 1500 (min freq 280000000) = f
    rcases selectMR_cases f with h | h | h | h | h | h | h | h | h | h | h | h | h | h | h | h
    all_goals
      have hc := by first | exact h.2.2 | exact h.2
      rw [hc]
      simp
      omega
  · obtain ⟨hM, hR⟩ := key 63000000 (by norm_num)
    rw [hM, hR]
    decide
  · obtain ⟨hM, hR⟩ := key 62999999 (by norm_num)
    rw [hM, hR]
    decide
  · obtain ⟨hM, hR⟩ := key 150000000 (by norm_num)
    rw [hM, hR]
    decide

/-- Instance of C1 at the boot state and a request of 63,000,000 Hz. -/
theorem C1_DoTheMath_breakpoints_witness :
    SiState.boot.xtalCorr = 0 ∧ 63000000 < 2 ^ 32 ∧
      ((DoTheMath SiState.boot 63000000).2.M = 6 ∧ (DoTheMath SiState.boot 63000000).2.R = 0) ∧
      ((DoTheMath SiState.boot 62999999).2.M = 14 ∧ (DoTheMath SiState.boot 62999999).2.R = 0) ∧
      ((DoTheMath SiState.boot 150000000).2.M = 6 ∧
        (DoTheMath SiState.boot 150000000).2.R = 0) :=
  ⟨rfl, by norm_num,
    (C1_DoTheMath_breakpoints SiState.boot rfl 63000000 (by norm_num)).2⟩

/-- Truncating division by `10^9` is within one divisor of the dividend. -/
theorem tdiv_bounds (y : Int) :
    Int.tdiv y 1000000000 * 1000000000 < y + 1000000000 ∧
      y - 1000000000 < Int.tdiv y 1000000000 * 1000000000 := by
  rcases le_or_lt 0 y with h | h
  · rw [Int.tdiv_eq_ediv h (by norm_num)]
    omega
  · have e : Int.tdiv y 1000000000 = -((-y) / 1000000000) := by
      rw [← Int.tdiv_eq_ediv (by omega) (by norm_num), Int.neg_tdiv, neg_neg]
    rw [e]
    omega

/-- C2 as stated fails: with a correction factor of 1000 parts per billion and a
request of 10,000,000 Hz the exact product is 10, so the specification's value
is 10,000,010, while line 414 carries 10,000,009 into the clamp (and the VCO
frequency returned is 62 × 10,000,009). -/
theorem C2_rounding_counterexample :
    applyCorrection 1000 10000000 = 10000009 ∧
      specCorrected 1000 10000000 = 10000010 ∧
      ((applyCorrection 1000 10000000 : Nat) : Int) ≠ specCorrected 1000 10000000 ∧
      (DoTheMath (SetCorrection 1000 SiState.boot) 10000000).1 = 62 * 10000009 := by
  have h1 : applyCorrection 1000 10000000 = 10000009 := by decide
  have h2 : specCorrected 1000 10000000 = 10000010 := by
    unfold specCorrected
    have : ((10000000 : Nat) : ℚ) * ((1000 : Int) : ℚ) / 1000000000 = ((10 : Int) : ℚ) := by
      norm_num
    rw [this, round_intCast]
    norm_num
  refine ⟨h1, h2, ?_, by decide⟩
  rw [h1, h2]
  decide

/-- C2 (amended): the frequency `DoTheMath` carries into the clamp is
`(requested + floor (K × requested / 2^31)) mod 2^32` with
`K = correction × 2^31 / 10^9` truncated toward zero, a truncating fixed-point
product.  For a 32-bit request the added term `d` lies strictly between
`x - 3` and `x + 2`, where `x = requested × correction × 10⁻⁹`. -/
theorem C2_correction_fixed_point (xtalCorr : Int) (freq : Nat) (hf : freq < 2 ^ 32) :
    ((applyCorrection xtalCorr freq : Nat) : Int) =
        ((freq : Int) + (Int.tdiv (xtalCorr * 2 ^ 31) 1000000000 * freq) / 2 ^ 31) % 2 ^ 32 ∧
      1000000000 * ((Int.tdiv (xtalCorr * 2 ^ 31) 1000000000 * freq) / 2 ^ 31 - 2)
        < (freq : Int) * xtalCorr ∧
      (freq : Int) * xtalCorr
        < 1000000000 * ((Int.tdiv (xtalCorr * 2 ^ 31) 1000000000 * freq) / 2 ^ 31 + 3) := by
  refine ⟨applyCorrection_formula xtalCorr freq, ?_, ?_⟩
  all_goals
    obtain ⟨hK1, hK2⟩ := tdiv_bounds (xtalCorr * 2 ^ 31)
    generalize Int.tdiv (xtalCorr * 2 ^ 31) 1000000000 = K at hK1 hK2 ⊢
    have hd1 : (K * freq) / 2 ^ 31 * 2 ^ 31 ≤ K * freq := Int.ediv_mul_le _ (by norm_num)
    have hd2 : K * freq < ((K * freq) / 2 ^ 31 + 1) * 2 ^ 31 :=
      Int.lt_ediv_add_one_mul_self _ (by norm_num)
    generalize (K * (freq : Int)) / 2 ^ 31 = d at hd1 hd2 ⊢
    have hf0 : (0 : Int) ≤ freq := Int.ofNat_nonneg _
    have hf1 : (freq : Int) < 2 ^ 32 := by exact_mod_cast hf
    nlinarith

/-- C2 (amended), instance: correction 1000 ppb, request 10,000,000 Hz. -/
theorem C2_correction_fixed_point_witness :
    (10000000 : Nat) < 2 ^ 32 ∧
      (((applyCorrection 1000 10000000 : Nat) : Int) =
          (((10000000 : Nat) : Int) +
            (Int.tdiv (1000 * 2 ^ 31) 1000000000 * ((10000000 : Nat) : Int)) / 2 ^ 31) % 2 ^ 32 ∧
        1000000000 *
            ((Int.tdiv (1000 * 2 ^ 31) 1000000000 * ((10000000 : Nat) : Int)) / 2 ^ 31 - 2)
          < ((10000000 : Nat) : Int) * 1000 ∧
        ((10000000 : Nat) : Int) * 1000
          < 1000000000 *
            ((Int.tdiv (1000 * 2 ^ 31) 1000000000 * ((10000000 : Nat) : Int)) / 2 ^ 31 + 3)) :=
  ⟨by norm_num, C2_correction_fixed_point 1000 10000000 (by norm_num)⟩

theorem DoTheMath_eq_of_clamp (st : SiState) (f g : Nat)
    (h : clampFreq (applyCorrection st.xtalCorr f) = clampFreq (applyCorrection st.xtalCorr g)) :
    DoTheMath st f = DoTheMath st g := by
  unfold DoTheMath
  dsimp only
  rw [h]

/-- C3: with the correction factor 0 an out-of-range request is clamped, not
rejected: below 1500 Hz `DoTheMath` returns the same value and fills the same
structure as for 1500 Hz, above 280,000,000 Hz the same as for 280,000,000 Hz;
in particular 0 behaves as 1500 and 500,000,000 as 280,000,000. -/
theorem C3_out_of_range_clamped (st : SiState) (hc : st.xtalCorr = 0) (freq : Nat)
    (hf : freq < 2 ^ 32) :
    (freq < 1500 → DoTheMath st freq = DoTheMath st 1500) ∧
      (280000000 < freq → DoTheMath st freq = DoTheMath st 280000000) ∧
      DoTheMath st 0 = DoTheMath st 1500 ∧
      DoTheMath st 500000000 = DoTheMath st 280000000 := by
  have key : ∀ f g : Nat, f < 2 ^ 32 → g < 2 ^ 32 → clampFreq f = clampFreq g →
      DoTheMath st f = DoTheMath st g := by
    intro f g h1 h2 h
    apply DoTheMath_eq_of_clamp
    rw [hc, applyCorrection_zero, applyCorrection_zero, Nat.mod_eq_of_lt h1,
      Nat.mod_eq_of_lt h2, h]
  refine ⟨fun h => key _ _ hf (by norm_num) ?_, fun h => key _ _ hf (by norm_num) ?_,
    key _ _ (by norm_num) (by norm_num) (by decide),
    key _ _ (by norm_num) (by norm_num) (by decide)⟩
  · rw [clampFreq_eq_max_min, clampFreq_eq_max_min]; omega
  · rw [clampFreq_eq_max_min, clampFreq_eq_max_min]; omega

/-- Instance of C3 at the boot state: requests of 0 Hz and 500,000,000 Hz. -/
theorem C3_out_of_range_clamped_witness :
    SiState.boot.xtalCorr = 0 ∧ (0 : Nat) < 1500 ∧ (280000000 : Nat) < 500000000 ∧
      DoTheMath SiState.boot 0 = DoTheMath SiState.boot 1500 ∧
      DoTheMath SiState.boot 500000000 = DoTheMath SiState.boot 280000000 :=
  ⟨rfl, by norm_num, by norm_num,
    (C3_out_of_range_clamped SiState.boot rfl 0 (by norm_num)).1 (by norm_num),
    (C3_out_of_range_clamped SiState.boot rfl 500000000 (by norm_num)).2.1 (by norm_num)⟩

theorem clampFreq_range (f : Nat) : 1500 ≤ clampFreq f ∧ clampFreq f ≤ 280000000 := by
  unfold clampFreq
  split_ifs <;> omega

/-- C4: for every request and every correction factor `DoTheMath` returns
`clamped × M × 2^R` as an exact natural number, where `clamped` is the corrected
frequency clamped into `[1500, 280000000]` and `(M, R)` the selected table row
stored in the structure: the 32-bit multiply and shift do not wrap. -/
theorem C4_vco_exact (st : SiState) (freq : Nat) :
    (DoTheMath st freq).1 =
        clampFreq (applyCorrection st.xtalCorr freq) * (DoTheMath st freq).2.M *
          2 ^ (DoTheMath st freq).2.R ∧
      clampFreq (applyCorrection st.xtalCorr freq) * (DoTheMath st freq).2.M *
          2 ^ (DoTheMath st freq).2.R < 2 ^ 32 ∧
      1500 ≤ clampFreq (applyCorrection st.xtalCorr freq) ∧
      clampFreq (applyCorrection st.xtalCorr freq) ≤ 280000000 ∧
      ((DoTheMath st freq).2.M, (DoTheMath st freq).2.R) =
        selectMR (clampFreq (applyCorrection st.xtalCorr freq)) := by
  obtain ⟨h1, h2⟩ := clampFreq_range (applyCorrection st.xtalCorr freq)
  obtain ⟨e, _, hub⟩ := vco_exact _ h1 h2
  rw [DoTheMath_M, DoTheMath_R]
  refine ⟨e, ?_, h1, h2, rfl⟩
  omega

theorem DoTheMath_a (st : SiState) (freq : Nat) :
    (DoTheMath st freq).2.a = (DoTheMath st freq).1 / st.xFreq := rfl

theorem DoTheMath_b (st : SiState) (freq : Nat) :
    (DoTheMath st freq).2.b =
      computeB (DoTheMath st freq).1 ((DoTheMath st freq).1 / st.xFreq) 0xFFFFF st.xFreq := rfl

theorem DoTheMath_c (st : SiState) (freq : Nat) : (DoTheMath st freq).2.c = 0xFFFFF := rfl

theorem DoTheMath_pack (st : SiState) (freq : Nat) :
    ((DoTheMath st freq).2.dd, (DoTheMath st freq).2.P1, (DoTheMath st freq).2.P2,
        (DoTheMath st freq).2.P3) =
      packRegs (DoTheMath st freq).2.a (DoTheMath st freq).2.b 0xFFFFF := rfl

/-- Range of the VCO frequency returned by `DoTheMath`. -/
theorem DoTheMath_vco_range (st : SiState) (freq : Nat) :
    345600000 ≤ (DoTheMath st freq).1 ∧ (DoTheMath st freq).1 ≤ 1120000000 := by
  obtain ⟨h1, h2⟩ := clampFreq_range (applyCorrection st.xtalCorr freq)
  obtain ⟨e, hlo, hhi⟩ := vco_exact _ h1 h2
  have hv : (DoTheMath st freq).1 =
      u32shl (u32mul (clampFreq (applyCorrection st.xtalCorr freq))
        (selectMR (clampFreq (applyCorrection st.xtalCorr freq))).1)
        (selectMR (clampFreq (applyCorrection st.xtalCorr freq))).2 := rfl
  rw [hv, e]
  exact ⟨hlo, hhi⟩

/-- The packed fields for arguments small enough not to wrap. -/
theorem packRegs_exact (a b : Nat) (ha : 4 ≤ a) (ha2 : a < 2 ^ 24) (hb : b < 2 ^ 25) :
    (packRegs a b 0xFFFFF).1 = 128 * b / 0xFFFFF ∧
      (((packRegs a b 0xFFFFF).2.1 : Nat) : Int) =
        128 * (a : Int) + (128 * (b : Int)) / 0xFFFFF - 512 ∧
      (((packRegs a b 0xFFFFF).2.2.1 : Nat) : Int) =
        128 * (b : Int) - 0xFFFFF * ((128 * (b : Int)) / 0xFFFFF) ∧
      (packRegs a b 0xFFFFF).2.2.2 = 0xFFFFF := by
  have h1 : (128 * b) % 2 ^ 32 = 128 * b := Nat.mod_eq_of_lt (by omega)
  have h2 : (128 * a) % 2 ^ 32 = 128 * a := Nat.mod_eq_of_lt (by omega)
  have h3 : 128 * b / 0xFFFFF ≤ 4096 := by omega
  have h4 : 0xFFFFF * (128 * b / 0xFFFFF) ≤ 128 * b := Nat.mul_div_le _ _
  have h5 : (0xFFFFF * (128 * b / 0xFFFFF)) % 2 ^ 32 = 0xFFFFF * (128 * b / 0xFFFFF) :=
    Nat.mod_eq_of_lt (by omega)
  have h6 : (128 * a + 128 * b / 0xFFFFF) % 2 ^ 32 = 128 * a + 128 * b / 0xFFFFF :=
    Nat.mod_eq_of_lt (by omega)
  unfold packRegs u32sub u32add u32mul
  dsimp only
  rw [h1, h2, h5, h6, h5]
  generalize hdd : 128 * b / 0xFFFFF = dd at *
  have h7 : (128 * (b : Int)) / 0xFFFFF = (dd : Int) := by
    rw [← hdd]; norm_cast
  rw [h7]
  refine ⟨rfl, ?_, ?_, rfl⟩
  · omega
  · omega

/-- C5: with the 25 MHz crystal, for every request (and every correction
factor) the structure filled by `DoTheMath` satisfies, as equations over the
integers: `c = P3 = 0xFFFFF`, `a = VCO div 25000000`,
`P1 = 128 a + floor (128 b / c) - 512` and `P2 = 128 b - c floor (128 b / c)`
for the stored `b`; none of the 32-bit intermediate values wraps
(`128 b < 2^32`, `512 ≤ 128 a + floor (128 b / c) < 2^32`). -/
theorem C5_fields_exact (st : SiState) (hx : st.xFreq = 25000000) (freq : Nat) :
    (DoTheMath st freq).2.c = 0xFFFFF ∧
      (DoTheMath st freq).2.P3 = 0xFFFFF ∧
      (DoTheMath st freq).2.a = (DoTheMath st freq).1 / 25000000 ∧
      (((DoTheMath st freq).2.P1 : Nat) : Int) =
        128 * ((DoTheMath st freq).2.a : Int) +
          (128 * ((DoTheMath st freq).2.b : Int)) / ((DoTheMath st freq).2.c : Int) - 512 ∧
      (((DoTheMath st freq).2.P2 : Nat) : Int) =
        128 * ((DoTheMath st freq).2.b : Int) -
          ((DoTheMath st freq).2.c : Int) *
            ((128 * ((DoTheMath st freq).2.b : Int)) / ((DoTheMath st freq).2.c : Int)) ∧
      128 * (DoTheMath st freq).2.b < 2 ^ 32 ∧
      512 ≤ 128 * (DoTheMath st freq).2.a +
        128 * (DoTheMath st freq).2.b / (DoTheMath st freq).2.c ∧
      128 * (DoTheMath st freq).2.a +
        128 * (DoTheMath st freq).2.b / (DoTheMath st freq).2.c < 2 ^ 32 := by
  obtain ⟨hlo, hhi⟩ := DoTheMath_vco_range st freq
  have ha := DoTheMath_a st freq
  have hb := DoTheMath_b st freq
  have hp := DoTheMath_pack st freq
  rw [hx] at ha hb
  have hblt := computeB_lt (DoTheMath st freq).1
  rw [← hb] at hblt
  generalize (DoTheMath st freq).1 = v at *
  have ha4 : 13 ≤ (DoTheMath st freq).2.a ∧ (DoTheMath st freq).2.a ≤ 44 := by
    rw [ha]; omega
  obtain ⟨e1, e2, e3, e4⟩ := packRegs_exact (DoTheMath st freq).2.a (DoTheMath st freq).2.b
    (by omega) (by omega) (by omega)
  rw [← hp] at e1 e2 e3 e4
  simp only at e1 e2 e3 e4
  rw [DoTheMath_c]
  refine ⟨rfl, e4, ha, e2, e3, ?_, ?_, ?_⟩ <;> omega
/-- Instance of C5 at the boot state and a request of 14,200,000 Hz. -/
theorem C5_fields_exact_witness :
    SiState.boot.xFreq = 25000000 ∧
     ((DoTheMath SiState.boot 14200000).2.c = 0xFFFFF ∧
      (DoTheMath SiState.boot 14200000).2.P3 = 0xFFFFF ∧
      (DoTheMath SiState.boot 14200000).2.a = (DoTheMath SiState.boot 14200000).1 / 25000000 ∧
      (((DoTheMath SiState.boot 14200000).2.P1 : Nat) : Int) =
        128 * ((DoTheMath SiState.boot 14200000).2.a : Int) +
          (128 * ((DoTheMath SiState.boot 14200000).2.b : Int)) / ((DoTheMath SiState.boot 14200000).2.c : Int) - 512 ∧
      (((DoTheMath SiState.boot 14200000).2.P2 : Nat) : Int) =
        128 * ((DoTheMath SiState.boot 14200000).2.b : Int) -
          ((DoTheMath SiState.boot 14200000).2.c : Int) *
            ((128 * ((DoTheMath SiState.boot 14200000).2.b : Int)) / ((DoTheMath SiState.boot 14200000).2.c : Int)) ∧
      128 * (DoTheMath SiState.boot 14200000).2.b < 2 ^ 32 ∧
      512 ≤ 128 * (DoTheMath SiState.boot 14200000).2.a +
        128 * (DoTheMath SiState.boot 14200000).2.b / (DoTheMath SiState.boot 14200000).2.c ∧
      128 * (DoTheMath SiState.boot 14200000).2.a +
        128 * (DoTheMath SiState.boot 14200000).2.b / (DoTheMath SiState.boot 14200000).2.c < 2 ^ 32) :=
  ⟨rfl, C5_fields_exact SiState.boot rfl 14200000⟩

/-- C6: register packing round trip.  For every `a ≥ 4` and `0 ≤ b < c = 0xFFFFF`
the fields `(P1, P2, P3)` of the packing formulas are recovered by the inverse
algebra `a' = (P1 + 512) div 128`, `b' = (P3 ((P1 + 512) mod 128) + P2) div 128`
with `|a' - a| ≤ 1` and `|b' - b| ≤ 1` (in fact exactly), and `0 ≤ P2 < P3`.
For `a < 2^25` the 32-bit computation of lines 465 to 468 yields these
fields. -/
theorem C6_pack_round_trip (a b : Nat) (ha : 4 ≤ a) (hb : b < 0xFFFFF) :
    |(unpackFormula (packFormula a b 0xFFFFF)).1 - (a : Int)| ≤ 1 ∧
      |(unpackFormula (packFormula a b 0xFFFFF)).2 - (b : Int)| ≤ 1 ∧
      unpackFormula (packFormula a b 0xFFFFF) = ((a : Int), (b : Int)) ∧
      0 ≤ (packFormula a b 0xFFFFF).2.1 ∧
      (packFormula a b 0xFFFFF).2.1 < (packFormula a b 0xFFFFF).2.2 ∧
      (a < 2 ^ 25 →
        ((((packRegs a b 0xFFFFF).2.1 : Nat) : Int), (((packRegs a b 0xFFFFF).2.2.1 : Nat) : Int),
          (((packRegs a b 0xFFFFF).2.2.2 : Nat) : Int)) = packFormula a b 0xFFFFF) := by
  have hu : unpackFormula (packFormula a b 0xFFFFF) = ((a : Int), (b : Int)) := by
    unfold unpackFormula packFormula
    dsimp only
    refine Prod.ext ?_ ?_
    · dsimp only; omega
    · dsimp only; omega
  refine ⟨?_, ?_, hu, ?_, ?_, ?_⟩
  · rw [hu]; simp
  · rw [hu]; simp
  · unfold packFormula; dsimp only; omega
  · unfold packFormula; dsimp only; omega
  · intro ha2
    have h1 : (128 * b) % 2 ^ 32 = 128 * b := Nat.mod_eq_of_lt (by omega)
    have h2 : (128 * a) % 2 ^ 32 = 128 * a := Nat.mod_eq_of_lt (by omega)
    have h3 : 128 * b / 0xFFFFF ≤ 127 := by omega
    have h4 : 0xFFFFF * (128 * b / 0xFFFFF) ≤ 128 * b := Nat.mul_div_le _ _
    have h5 : (0xFFFFF * (128 * b / 0xFFFFF)) % 2 ^ 32 = 0xFFFFF * (128 * b / 0xFFFFF) :=
      Nat.mod_eq_of_lt (by omega)
    have h6 : (128 * a + 128 * b / 0xFFFFF) % 2 ^ 32 = 128 * a + 128 * b / 0xFFFFF :=
      Nat.mod_eq_of_lt (by omega)
    unfold packRegs packFormula u32sub u32add u32mul
    dsimp only
    rw [h1, h2, h5, h6, h5]
    generalize hdd : 128 * b / 0xFFFFF = dd at *
    have h7 : (128 * (b : Int)) / 0xFFFFF = (dd : Int) := by
      rw [← hdd]; norm_cast
    rw [h7]
    refine Prod.ext ?_ (Prod.ext ?_ ?_)
    · dsimp only; omega
    · dsimp only; omega
    · dsimp only; norm_num

/-- Instance of C6 at `a = 17`, `b = 41943` (the values for 14,200,000 Hz). -/
theorem C6_pack_round_trip_witness :
    (4 : Nat) ≤ 17 ∧ (41943 : Nat) < 0xFFFFF ∧ (17 : Nat) < 2 ^ 25 ∧
      unpackFormula (packFormula (17 : Nat) (41943 : Nat) 0xFFFFF)
        = (((17 : Nat) : Int), ((41943 : Nat) : Int)) ∧
      ((((packRegs 17 41943 0xFFFFF).2.1 : Nat) : Int),
        (((packRegs 17 41943 0xFFFFF).2.2.1 : Nat) : Int),
        (((packRegs 17 41943 0xFFFFF).2.2.2 : Nat) : Int))
        = packFormula (17 : Nat) (41943 : Nat) 0xFFFFF :=
  ⟨by norm_num, by norm_num, by norm_num,
    (C6_pack_round_trip 17 41943 (by norm_num) (by norm_num)).2.2.1,
    (C6_pack_round_trip 17 41943 (by norm_num) (by norm_num)).2.2.2.2.2 (by norm_num)⟩

theorem DoTheMath_M_ne_zero (st : SiState) (freq : Nat) : (DoTheMath st freq).2.M ≠ 0 := by
  rw [DoTheMath_M]
  exact selectMR_fst_ne_zero _

/-- Reset flags along a run of `Set_VFO_Freq` calls. -/
theorem vfoResets_eq (fs : List Nat) : ∀ st : SiState,
    vfoResets st fs = expectedResets st.oMf (fs.map fun f => (DoTheMath st f).2.M) := by
  induction fs with
  | nil => intro st; rfl
  | cons f fs ih =>
    intro st
    obtain ⟨h1, h2, _, h4, h5⟩ := Set_VFO_Freq_step f clk_drive.CLK_DRIVE_8MA st
    have hD : ∀ g, DoTheMath (Set_VFO_Freq f clk_drive.CLK_DRIVE_8MA st) g = DoTheMath st g :=
      fun g => DoTheMath_congr _ _ g h4 h5
    simp only [vfoResets, List.map_cons, expectedResets]
    rw [ih, h2]
    simp only [hD]
    congr 1
    exact decide_eq_decide.mpr h1

/-- C7: PLL reset suppression on the variable path.  A call of `Set_VFO_Freq`
writes `0x80` to register 177 exactly when its multiplier differs from the
remembered one `oMf`, and afterwards `oMf` is that multiplier; the multiplier
is never 0, the initial value of `oMf`, so the first call resets.  Along any
run of calls the reset flags are those determined by the remembered multiplier,
and for 14,000,000, 14,100,000, 7,000,000 from the boot state they are
reset, no reset, reset. -/
theorem C7_vfo_reset_on_change (st : SiState) (freq : Nat) (dr : clk_drive) (fs : List Nat) :
    ((177, 0x80) ∈ writesSince st (Set_VFO_Freq freq dr st) ↔
        st.oMf ≠ (DoTheMath st freq).2.M) ∧
      (Set_VFO_Freq freq dr st).oMf = (DoTheMath st freq).2.M ∧
      (DoTheMath st freq).2.M ≠ 0 ∧
      SiState.boot.oMf = 0 ∧
      vfoResets st fs = expectedResets st.oMf (fs.map fun f => (DoTheMath st f).2.M) ∧
      ((DoTheMath SiState.boot 14000000).2.M = 30 ∧ (DoTheMath SiState.boot 14100000).2.M = 30 ∧
        (DoTheMath SiState.boot 7000000).2.M = 62) ∧
      vfoResets SiState.boot [14000000, 14100000, 7000000] = [true, false, true] := by
  obtain ⟨h1, h2, _⟩ := Set_VFO_Freq_step freq dr st
  refine ⟨h1, h2, DoTheMath_M_ne_zero st freq, rfl, vfoResets_eq fs st, by decide, ?_⟩
  rw [vfoResets_eq]
  decide

@[simp] theorem DoTheMath_cmd (r d : Nat) (st : SiState) (freq : Nat) :
    DoTheMath (cmd_si5351 r d st) freq = DoTheMath st freq :=
  DoTheMath_congr _ _ _ rfl rfl

@[simp] theorem DoTheMath_cmds (ws : List (Nat × Nat)) (st : SiState) (freq : Nat) :
    DoTheMath (cmds ws st) freq = DoTheMath st freq :=
  DoTheMath_congr _ _ _ (cmds_xFreq ws st) (cmds_xtalCorr ws st)

theorem DoTheMath_ite (c : Prop) [Decidable c] (s1 s2 : SiState) (freq : Nat) :
    DoTheMath (if c then s1 else s2) freq = if c then DoTheMath s1 freq else DoTheMath s2 freq := by
  split_ifs <;> rfl

theorem drive_byte_4C (dr : clk_drive) : (0x4C ||| dr.toNat) % 256 = 0x4C ||| dr.toNat := by
  cases dr <;> decide

theorem drive_byte_5C (dr : clk_drive) : (0x5C ||| dr.toNat) % 256 = 0x5C ||| dr.toNat := by
  cases dr <;> decide

/-- One enabled call of `Set_Carrier_Freq`: reset exactly on a changed
multiplier or a forced reset. -/
theorem Set_Carrier_Freq_step (freq MODE : Nat) (dr : clk_drive) (RST : Nat) (st : SiState)
    (hM : MODE ≠ 0) :
    ((177, 0x20) ∈ writesSince st (Set_Carrier_Freq freq MODE dr RST st) ↔
        (st.oMc ≠ (DoTheMath st freq).2.M ∨ RST = 1)) ∧
      (Set_Carrier_Freq freq MODE dr RST st).oMc = (DoTheMath st freq).2.M ∧
      (Set_Carrier_Freq freq MODE dr RST st).oMf = st.oMf ∧
      (Set_Carrier_Freq freq MODE dr RST st).xFreq = st.xFreq ∧
      (Set_Carrier_Freq freq MODE dr RST st).xtalCorr = st.xtalCorr := by
  have hmode : MODE = 4 ∨ MODE = 1 ∨ MODE = 2 ∨ (MODE ≠ 4 ∧ MODE ≠ 1 ∧ MODE ≠ 2) := by omega
  unfold Set_Carrier_Freq writesSince
  simp only [hM, ne_eq, not_false_eq_true, if_true, DoTheMath_ite, DoTheMath_cmd, DoTheMath_cmds,
    ite_self, C_OSC_QUAD_R, C_OSC_CLK0, C_OSC_CLK1]
  generalize (DoTheMath st freq).2 = SI
  rcases hmode with rfl | rfl | rfl | ⟨m4, m1, m2⟩ <;>
    by_cases h4 : SI.M = 4 <;> by_cases hR : (st.oMc = SI.M) <;> by_cases hF : RST = 1
  all_goals
    try rw [h4] at hR
    simp [h4, hR, hF, *]

theorem lastWrite_append (r : Nat) (l1 l2 : List (Nat × Nat)) :
    lastWrite r (l1 ++ l2) =
      match lastWrite r l2 with
      | some v => some v
      | none => lastWrite r l1 := by
  induction l1 with
  | nil => simp only [List.nil_append, lastWrite]; cases lastWrite r l2 <;> rfl
  | cons w l1 ih =>
    rw [List.cons_append, lastWrite, ih]
    cases lastWrite r l2 <;> simp [lastWrite]

/-- Final content of registers 16, 17 and 3 after an enabled carrier call. -/
theorem Set_Carrier_Freq_regs (freq MODE : Nat) (dr : clk_drive) (RST : Nat) (st : SiState)
    (hM : MODE ≠ 0) :
    regValue (Set_Carrier_Freq freq MODE dr RST st) 16 = some (0x4C ||| dr.toNat) ∧
      regValue (Set_Carrier_Freq freq MODE dr RST st) 17 =
        some (if MODE = 4 then 0x5C ||| dr.toNat else 0x4C ||| dr.toNat) ∧
      regValue (Set_Carrier_Freq freq MODE dr RST st) 3 =
        some (if MODE = 1 then 0x02 else if MODE = 2 then 0x01 else 0x00) := by
  have hmode : MODE = 4 ∨ MODE = 1 ∨ MODE = 2 ∨ (MODE ≠ 4 ∧ MODE ≠ 1 ∧ MODE ≠ 2) := by omega
  unfold Set_Carrier_Freq regValue
  simp only [hM, ne_eq, not_false_eq_true, if_true, DoTheMath_ite, DoTheMath_cmd, DoTheMath_cmds,
    ite_self, C_OSC_QUAD_R, C_OSC_CLK0, C_OSC_CLK1]
  generalize (DoTheMath st freq).2 = SI
  rcases hmode with rfl | rfl | rfl | ⟨m4, m1, m2⟩ <;>
    by_cases h4 : SI.M = 4 <;> by_cases hR : (st.oMc = SI.M) <;> by_cases hF : RST = 1
  all_goals
    try rw [h4] at hR
    simp [h4, hR, hF, lastWrite_append, lastWrite, drive_byte_4C, drive_byte_5C, *]

/-- No write of `Set_Carrier_Freq` to register 3 has bit 2 set. -/
theorem Set_Carrier_Freq_bit2 (freq MODE : Nat) (dr : clk_drive) (RST : Nat) (st : SiState) :
    (writesSince st (Set_Carrier_Freq freq MODE dr RST st)).all
      (fun w => w.1 != 3 || w.2 &&& 4 == 0) = true := by
  have hmode : MODE = 0 ∨ MODE = 4 ∨ MODE = 1 ∨ MODE = 2 ∨
      (MODE ≠ 0 ∧ MODE ≠ 4 ∧ MODE ≠ 1 ∧ MODE ≠ 2) := by omega
  unfold Set_Carrier_Freq writesSince
  simp only [ne_eq, DoTheMath_ite, DoTheMath_cmd, DoTheMath_cmds,
    ite_self, C_OSC_QUAD_R, C_OSC_CLK0, C_OSC_CLK1]
  generalize (DoTheMath st freq).2 = SI
  rcases hmode with rfl | rfl | rfl | rfl | ⟨m0, m4, m1, m2⟩ <;>
    by_cases h4 : SI.M = 4 <;> by_cases hR : (st.oMc = SI.M) <;> by_cases hF : RST = 1
  all_goals
    try rw [h4] at hR
    simp [h4, hR, hF, *]
    try decide

/-- A call with mode off writes `0x00` to register 3 and nothing else. -/
theorem Set_Carrier_Freq_off (freq : Nat) (dr : clk_drive) (RST : Nat) (st : SiState) :
    writesSince st (Set_Carrier_Freq freq C_OSC_OFF dr RST st) = [(3, 0)] ∧
      (Set_Carrier_Freq freq C_OSC_OFF dr RST st).oMc = st.oMc ∧
      (Set_Carrier_Freq freq C_OSC_OFF dr RST st).oMf = st.oMf := by
  unfold Set_Carrier_Freq writesSince
  simp [C_OSC_OFF, C_OSC_CLK0, C_OSC_CLK1]

/-- C8: an enabled call of `Set_Carrier_Freq` (mode not 0) writes `0x20` to
register 177 exactly when its multiplier differs from the remembered carrier
multiplier `oMc` or `RST = 1`, and afterwards `oMc` is that multiplier.  `oMc`
is left alone by a call with mode off, by `Set_VFO_Freq` and by `Si5351_Init`,
so it is the multiplier of the previous enabled carrier call. -/
theorem C8_carrier_reset (freq MODE : Nat) (dr : clk_drive) (RST : Nat) (st : SiState)
    (hM : MODE ≠ 0) :
    ((177, 0x20) ∈ writesSince st (Set_Carrier_Freq freq MODE dr RST st) ↔
        (st.oMc ≠ (DoTheMath st freq).2.M ∨ RST = 1)) ∧
      (Set_Carrier_Freq freq MODE dr RST st).oMc = (DoTheMath st freq).2.M ∧
      (Set_Carrier_Freq freq C_OSC_OFF dr RST st).oMc = st.oMc ∧
      (Set_VFO_Freq freq dr st).oMc = st.oMc ∧
      (Si5351_Init dr st).oMc = st.oMc := by
  obtain ⟨h1, h2, _⟩ := Set_Carrier_Freq_step freq MODE dr RST st hM
  exact ⟨h1, h2, (Set_Carrier_Freq_off freq dr RST st).2.1,
    (Set_VFO_Freq_step freq dr st).2.2.1, cmds_oMc _ st⟩

/-- Instance of C8: quadrature mode at 9,000,000 Hz from the boot state. -/
theorem C8_carrier_reset_witness :
    C_OSC_QUAD ≠ 0 ∧
      ((177, 0x20) ∈ writesSince SiState.boot
          (Set_Carrier_Freq 9000000 C_OSC_QUAD clk_drive.CLK_DRIVE_4MA 0 SiState.boot) ↔
        (SiState.boot.oMc ≠ (DoTheMath SiState.boot 9000000).2.M ∨ (0 : Nat) = 1)) ∧
      (Set_Carrier_Freq 9000000 C_OSC_QUAD clk_drive.CLK_DRIVE_4MA 0 SiState.boot).oMc =
        (DoTheMath SiState.boot 9000000).2.M :=
  ⟨by decide,
    (C8_carrier_reset 9000000 C_OSC_QUAD clk_drive.CLK_DRIVE_4MA 0 SiState.boot (by decide)).1,
    (C8_carrier_reset 9000000 C_OSC_QUAD clk_drive.CLK_DRIVE_4MA 0 SiState.boot (by decide)).2.1⟩

/-- C9: output configuration left by `Set_Carrier_Freq` (last value written to
each register).  Mode 1: registers 16 and 17 hold `0x4C | dr`, register 3 holds
`0x02`; mode 2: 16 and 17 hold `0x4C | dr`, 3 holds `0x01`; mode 3: 16 and 17
hold `0x4C | dr`, 3 holds `0x00`; mode 4: 16 holds `0x4C | dr`, 17 holds
`0x5C | dr`, 3 holds `0x00`.  In no mode is a value with bit 2 set written to
register 3. -/
theorem C9_carrier_output_config (freq : Nat) (dr : clk_drive) (RST : Nat) (st : SiState) :
    (regValue (Set_Carrier_Freq freq C_OSC_CLK0 dr RST st) 16 = some (0x4C ||| dr.toNat) ∧
      regValue (Set_Carrier_Freq freq C_OSC_CLK0 dr RST st) 17 = some (0x4C ||| dr.toNat) ∧
      regValue (Set_Carrier_Freq freq C_OSC_CLK0 dr RST st) 3 = some 0x02) ∧
    (regValue (Set_Carrier_Freq freq C_OSC_CLK1 dr RST st) 16 = some (0x4C ||| dr.toNat) ∧
      regValue (Set_Carrier_Freq freq C_OSC_CLK1 dr RST st) 17 = some (0x4C ||| dr.toNat) ∧
      regValue (Set_Carrier_Freq freq C_OSC_CLK1 dr RST st) 3 = some 0x01) ∧
    (regValue (Set_Carrier_Freq freq C_OSC_QUAD dr RST st) 16 = some (0x4C ||| dr.toNat) ∧
      regValue (Set_Carrier_Freq freq C_OSC_QUAD dr RST st) 17 = some (0x4C ||| dr.toNat) ∧
      regValue (Set_Carrier_Freq freq C_OSC_QUAD dr RST st) 3 = some 0x00) ∧
    (regValue (Set_Carrier_Freq freq C_OSC_QUAD_R dr RST st) 16 = some (0x4C ||| dr.toNat) ∧
      regValue (Set_Carrier_Freq freq C_OSC_QUAD_R dr RST st) 17 = some (0x5C ||| dr.toNat) ∧
      regValue (Set_Carrier_Freq freq C_OSC_QUAD_R dr RST st) 3 = some 0x00) ∧
    (∀ MODE : Nat, (writesSince st (Set_Carrier_Freq freq MODE dr RST st)).all
      (fun w => w.1 != 3 || w.2 &&& 4 == 0) = true) := by
  refine ⟨?_, ?_, ?_, ?_, fun MODE => Set_Carrier_Freq_bit2 freq MODE dr RST st⟩
  · simpa [C_OSC_CLK0] using Set_Carrier_Freq_regs freq 1 dr RST st (by decide)
  · simpa [C_OSC_CLK1] using Set_Carrier_Freq_regs freq 2 dr RST st (by decide)
  · simpa [C_OSC_QUAD] using Set_Carrier_Freq_regs freq 3 dr RST st (by decide)
  · simpa [C_OSC_QUAD_R] using Set_Carrier_Freq_regs freq 4 dr RST st (by decide)

/-- C10 fails on the code: after `Si5351_Init`, a quadrature carrier call and
then a call with mode off, registers 16 and 17 still hold `0x4C | dr` (powered
up) and register 3 holds `0x00` (all outputs enabled), so neither CLK0 nor CLK1
is off.  In general a call with mode off writes only `0x00` to register 3. -/
theorem C10_mode_off_leaves_carrier_on :
    regValue (runCalls SiState.boot
        [Call.init clk_drive.CLK_DRIVE_4MA,
          Call.carrier 9000000 C_OSC_QUAD clk_drive.CLK_DRIVE_4MA 0,
          Call.carrier 9000000 C_OSC_OFF clk_drive.CLK_DRIVE_4MA 0]) 16 = some 0x4D ∧
      regValue (runCalls SiState.boot
        [Call.init clk_drive.CLK_DRIVE_4MA,
          Call.carrier 9000000 C_OSC_QUAD clk_drive.CLK_DRIVE_4MA 0,
          Call.carrier 9000000 C_OSC_OFF clk_drive.CLK_DRIVE_4MA 0]) 17 = some 0x4D ∧
      regValue (runCalls SiState.boot
        [Call.init clk_drive.CLK_DRIVE_4MA,
          Call.carrier 9000000 C_OSC_QUAD clk_drive.CLK_DRIVE_4MA 0,
          Call.carrier 9000000 C_OSC_OFF clk_drive.CLK_DRIVE_4MA 0]) 3 = some 0x00 ∧
      clk0Off (runCalls SiState.boot
        [Call.init clk_drive.CLK_DRIVE_4MA,
          Call.carrier 9000000 C_OSC_QUAD clk_drive.CLK_DRIVE_4MA 0,
          Call.carrier 9000000 C_OSC_OFF clk_drive.CLK_DRIVE_4MA 0]) = false ∧
      clk1Off (runCalls SiState.boot
        [Call.init clk_drive.CLK_DRIVE_4MA,
          Call.carrier 9000000 C_OSC_QUAD clk_drive.CLK_DRIVE_4MA 0,
          Call.carrier 9000000 C_OSC_OFF clk_drive.CLK_DRIVE_4MA 0]) = false ∧
      (∀ (freq : Nat) (dr : clk_drive) (RST : Nat) (st : SiState),
        writesSince st (Set_Carrier_Freq freq C_OSC_OFF dr RST st) = [(3, 0)]) := by
  refine ⟨by decide, by decide, by decide, by decide, by decide,
    fun freq dr RST st => (Set_Carrier_Freq_off freq dr RST st).1⟩

end Si5351

/-! ## Claims on the phase offset, drive level, initializer and wire protocol -/

namespace Si5351

/-- Phase offset registers after an enabled carrier call. -/
theorem Set_Carrier_Freq_phase (freq MODE : Nat) (dr : clk_drive) (RST : Nat) (st : SiState)
    (hM : MODE ≠ 0) :
    regValue (Set_Carrier_Freq freq MODE dr RST st) 165 = some 0 ∧
      regValue (Set_Carrier_Freq freq MODE dr RST st) 166 =
        some ((DoTheMath st freq).2.M % 256) := by
  have hmode : MODE = 4 ∨ MODE = 1 ∨ MODE = 2 ∨ (MODE ≠ 4 ∧ MODE ≠ 1 ∧ MODE ≠ 2) := by omega
  unfold Set_Carrier_Freq regValue
  simp only [hM, ne_eq, not_false_eq_true, if_true, DoTheMath_ite, DoTheMath_cmd, DoTheMath_cmds,
    ite_self, C_OSC_QUAD_R, C_OSC_CLK0, C_OSC_CLK1]
  generalize (DoTheMath st freq).2 = SI
  rcases hmode with rfl | rfl | rfl | ⟨m4, m1, m2⟩ <;>
    by_cases h4 : SI.M = 4 <;> by_cases hR : (st.oMc = SI.M) <;> by_cases hF : RST = 1
  all_goals
    try rw [h4] at hR
    simp [h4, hR, hF, lastWrite_append, lastWrite, *]

/-- C11 fails on the code: `cmd_si5351` takes its data as `uint8_t`, so register
166 receives `M mod 256`, not `M`.  For a 455,000 Hz quadrature carrier the
multiplier is 1280 and the byte written to register 166 is 0; the byte equals
the multiplier only where `M < 256` (for example 126 at 3,000,000 Hz).
Register 165 receives 0. -/
theorem C11_phase_offset_truncated :
    (DoTheMath SiState.boot 455000).2.M = 1280 ∧
      regValue (Set_Carrier_Freq 455000 C_OSC_QUAD clk_drive.CLK_DRIVE_4MA 0 SiState.boot) 166
        = some 0 ∧
      (166, 0) ∈ writesSince SiState.boot
        (Set_Carrier_Freq 455000 C_OSC_QUAD clk_drive.CLK_DRIVE_4MA 0 SiState.boot) ∧
      (∀ (freq : Nat) (dr : clk_drive) (RST : Nat) (st : SiState),
        regValue (Set_Carrier_Freq freq C_OSC_QUAD dr RST st) 166 =
            some ((DoTheMath st freq).2.M % 256) ∧
          regValue (Set_Carrier_Freq freq C_OSC_QUAD dr RST st) 165 = some 0) ∧
      ((DoTheMath SiState.boot 3000000).2.M = 126 ∧
        regValue (Set_Carrier_Freq 3000000 C_OSC_QUAD clk_drive.CLK_DRIVE_4MA 0 SiState.boot) 166
          = some 126) := by
  refine ⟨by decide, by decide, by decide, ?_, by decide, by decide⟩
  intro freq dr RST st
  have h := Set_Carrier_Freq_phase freq C_OSC_QUAD dr RST st (by decide)
  exact ⟨h.2, h.1⟩

/-- C12 fails on the code: `Set_VFO_Freq` never uses its drive level argument.
Calls that differ only in `dr` yield the same state and the same register
writes, and no write goes to the CLK2 control register 18. -/
theorem C12_vfo_drive_ignored :
    (∀ (freq : Nat) (dr1 dr2 : clk_drive) (st : SiState),
        Set_VFO_Freq freq dr1 st = Set_VFO_Freq freq dr2 st) ∧
      (∀ (freq : Nat) (dr : clk_drive) (st : SiState),
        (writesSince st (Set_VFO_Freq freq dr st)).all (fun w => w.1 != 18) = true) ∧
      writesSince SiState.boot (Set_VFO_Freq 14000000 clk_drive.CLK_DRIVE_2MA SiState.boot) =
        writesSince SiState.boot (Set_VFO_Freq 14000000 clk_drive.CLK_DRIVE_8MA SiState.boot) ∧
      regValue (Set_VFO_Freq 14000000 clk_drive.CLK_DRIVE_2MA SiState.boot) 18 = none := by
  refine ⟨fun _ _ _ _ => rfl, ?_, rfl, by decide⟩
  intro freq dr st
  unfold Set_VFO_Freq writesSince
  generalize (DoTheMath st freq).2 = SI
  by_cases hM : SI.M = 4 <;> by_cases hR : st.oMf = SI.M
  all_goals
    try rw [hM] at hR
    simp [hM, hR]

/-- C13: register writes of `Si5351_Init (dr)`, in order: `183 <- 0x92`,
`16 <- 0x80`, `17 <- 0x80`, `18 <- 0x80`, `177 <- 0xA0`, `16 <- 0x80`,
`17 <- 0x80`, `18 <- 0x6C | dr`.  Afterwards registers 16 and 17 hold `0x80`
(power down bit 7 set) and register 18 holds `0x6C | dr`, with bit 7 clear and
`dr` in its two low bits. -/
theorem C13_init_sequence (dr : clk_drive) (st : SiState) :
    writesSince st (Si5351_Init dr st) =
        [(183, 0x92), (16, 0x80), (17, 0x80), (18, 0x80), (177, 0xA0), (16, 0x80), (17, 0x80),
          (18, 0x6C ||| dr.toNat)] ∧
      regValue (Si5351_Init dr st) 16 = some 0x80 ∧
      regValue (Si5351_Init dr st) 17 = some 0x80 ∧
      regValue (Si5351_Init dr st) 18 = some (0x6C ||| dr.toNat) ∧
      0x80 &&& 0x80 = 0x80 ∧
      (0x6C ||| dr.toNat) &&& 0x80 = 0 ∧
      (0x6C ||| dr.toNat) &&& 3 = dr.toNat := by
  have hb : (0x6C ||| dr.toNat) % 256 = 0x6C ||| dr.toNat := by cases dr <;> decide
  refine ⟨?_, ?_, ?_, ?_, by decide, by cases dr <;> decide, by cases dr <;> decide⟩
  · unfold Si5351_Init writesSince
    simp [hb]
  · unfold Si5351_Init regValue
    simp [lastWrite_append, lastWrite]
  · unfold Si5351_Init regValue
    simp [lastWrite_append, lastWrite]
  · unfold Si5351_Init regValue
    simp [lastWrite_append, lastWrite, hb]

end Si5351

namespace Si5351

theorem clockPulses_append (l1 : List PinEvent) : ∀ (sda : Bool) (held : Option Bool)
    (l2 : List PinEvent), clockPulses sda held (l1 ++ l2) =
      clockPulses sda held l1 ++
        clockPulses (pinState sda held l1).1 (pinState sda held l1).2 l2 := by
  induction l1 with
  | nil => intro sda held l2; rfl
  | cons e l1 ih =>
    intro sda held l2
    cases e with
    | digitalWrite pin level =>
      simp only [List.cons_append, clockPulses, pinState]
      split_ifs
      · exact ih _ _ _
      · exact ih _ _ _
      · cases held with
        | none => exact ih _ _ _
        | some v => exact congrArg _ (ih _ _ _)
      · exact ih _ _ _
    | delayMicroseconds us => exact ih _ _ _
    | digitalRead pin => exact ih _ _ _

theorem pinState_append (l1 : List PinEvent) : ∀ (sda : Bool) (held : Option Bool)
    (l2 : List PinEvent), pinState sda held (l1 ++ l2) =
      pinState (pinState sda held l1).1 (pinState sda held l1).2 l2 := by
  induction l1 with
  | nil => intro sda held l2; rfl
  | cons e l1 ih =>
    intro sda held l2
    cases e with
    | digitalWrite pin level =>
      simp only [List.cons_append, pinState]
      split_ifs <;> exact ih _ _ _
    | delayMicroseconds us => exact ih _ _ _
    | digitalRead pin => exact ih _ _ _

theorem pinWrites_append (l1 l2 : List PinEvent) :
    pinWrites (l1 ++ l2) = pinWrites l1 ++ pinWrites l2 := by
  induction l1 with
  | nil => rfl
  | cons e l1 ih => cases e <;> simp [pinWrites, ih]

theorem readsPin_append (l1 l2 : List PinEvent) :
    readsPin (l1 ++ l2) = (readsPin l1 || readsPin l2) := by
  induction l1 with
  | nil => rfl
  | cons e l1 ih => cases e <;> simp [readsPin, ih]

set_option maxRecDepth 100000 in
/-- One byte on the wire: eight data bits, most significant first, then a ninth
pulse with the data line low. -/
theorem wr_I2C_byte : ∀ b : Fin 256, ∀ s : Bool,
    clockPulses s none (wr_I2C b) = bitsMSB b ++ [false] ∧
      pinState s none (wr_I2C b) = (false, none) ∧ readsPin (wr_I2C b) = false := by
  decide

theorem wr_I2C_mod (d : Nat) : wr_I2C d = wr_I2C (d % 256) := by
  unfold wr_I2C
  rw [Nat.mod_mod]

theorem wr_I2C_spec (d : Nat) (s : Bool) :
    clockPulses s none (wr_I2C d) = bitsMSB (d % 256) ++ [false] ∧
      pinState s none (wr_I2C d) = (false, none) ∧ readsPin (wr_I2C d) = false := by
  rw [wr_I2C_mod]
  exact wr_I2C_byte ⟨d % 256, Nat.mod_lt _ (by norm_num)⟩ s

/-- C14: pin level trace of one register write.  The clock pulses of
`cmd_si5351 (reg, d)` carry, in order, the address byte `0xC0` (`0x60` shifted
left by one), `reg` and `d`, each as eight data bits most significant first
followed by a ninth pulse with the data line low, 27 pulses in all; the first
two pin writes drive data then clock low, the last two drive clock then data
high; no pin is read. -/
theorem C14_cmd_si5351_wire (reg d : Nat) (sda : Bool) :
    clockPulses sda none (cmd_si5351_pins reg d) =
        bitsMSB 0xC0 ++ [false] ++ (bitsMSB (reg % 256) ++ [false]) ++
          (bitsMSB (d % 256) ++ [false]) ∧
      (clockPulses sda none (cmd_si5351_pins reg d)).length = 27 ∧
      SI_I2C_ADDR <<< 1 = 0xC0 ∧
      (pinWrites (cmd_si5351_pins reg d)).take 2 = [(SI_SDA, false), (SI_SCL, false)] ∧
      (pinWrites (cmd_si5351_pins reg d)).reverse.take 2 = [(SI_SDA, true), (SI_SCL, true)] ∧
      readsPin (cmd_si5351_pins reg d) = false := by
  obtain ⟨a1, a2, a3⟩ := wr_I2C_spec (SI_I2C_ADDR <<< 1) false
  obtain ⟨r1, r2, r3⟩ := wr_I2C_spec reg false
  obtain ⟨d1, d2, d3⟩ := wr_I2C_spec d false
  have hp : clockPulses sda none (cmd_si5351_pins reg d) =
      bitsMSB 0xC0 ++ [false] ++ (bitsMSB (reg % 256) ++ [false]) ++
        (bitsMSB (d % 256) ++ [false]) := by
    unfold cmd_si5351_pins
    rw [List.append_assoc, List.append_assoc, List.append_assoc]
    have eP : ∀ rest : List PinEvent, clockPulses sda none
        ([ PinEvent.digitalWrite SI_SDA false, PinEvent.delayMicroseconds 1,
           PinEvent.digitalWrite SI_SCL false, PinEvent.delayMicroseconds 1 ] ++ rest) =
        clockPulses false none rest := by
      intro rest
      simp [clockPulses, SI_SDA, SI_SCL]
    rw [eP]
    have e0 : (SI_I2C_ADDR <<< 1) % 256 = 0xC0 := by decide
    have eS : clockPulses false none
        [ PinEvent.delayMicroseconds 1, PinEvent.digitalWrite SI_SCL true,
          PinEvent.delayMicroseconds 1, PinEvent.digitalWrite SI_SDA true,
          PinEvent.delayMicroseconds 10 ] = [] := by decide
    simp only [clockPulses_append, a1, a2, r1, r2, d1, d2, List.append_assoc, e0, eS,
      List.append_nil]
  have hw : pinWrites (cmd_si5351_pins reg d) =
      [(SI_SDA, false), (SI_SCL, false)] ++
        (pinWrites (wr_I2C (SI_I2C_ADDR <<< 1)) ++ pinWrites (wr_I2C reg) ++
          pinWrites (wr_I2C d)) ++ [(SI_SCL, true), (SI_SDA, true)] := by
    unfold cmd_si5351_pins
    simp only [pinWrites_append, pinWrites, List.append_assoc, List.cons_append,
      List.nil_append]
  refine ⟨hp, ?_, by decide, ?_, ?_, ?_⟩
  · rw [hp]; rfl
  · rw [hw]; rfl
  · rw [hw, List.reverse_append]; rfl
  · unfold cmd_si5351_pins
    simp only [readsPin_append, a3, r3, d3, readsPin, Bool.or_self, Bool.or_false]

end Si5351

/-! ## Claims on the dial geometry and the plot routine -/

namespace Dial

/-- C16 as stated fails: in the configuration in use (`Nx = 320`) the table is
not mirrored between columns `x` and `Nx - 1 - x`: `yry[0][1] = 91` and
`yry[319][1] = 92`; the first and last rows of the table are
`[109, 91, 67, 51]` and `[109, 92, 68, 52]`. -/
theorem C16_symmetry_counterexample :
    yry CUSTOM_DISP 0 1 = 91 ∧ yry CUSTOM_DISP ((CUSTOM_DISP.Nx : Int) - 1 - 0) 1 = 92 ∧
      (InitDial CUSTOM_DISP).head? = some [109, 91, 67, 51] ∧
      (InitDial CUSTOM_DISP).getLast? = some [109, 92, 68, 52] := by
  decide

/-- C16 (amended): the boundary table is symmetric about the center column
`D_center = Nx >> 1`: for every band `k` and column `x`,
`yry[x][k] = yry[2 D_center - x][k]`.  For even `Nx`, as in every shipped
configuration, the mirror column of `x` is `Nx - x`, not `Nx - 1 - x`. -/
theorem C16_boundary_symmetric (cfg : Config) (xg : Int) (k : Nat) :
    yry cfg xg k = yry cfg (2 * D_center cfg - xg) k ∧
      2 * D_center CUSTOM_DISP = (CUSTOM_DISP.Nx : Int) ∧
      2 * D_center LARGE_DISP = (LARGE_DISP.Nx : Int) ∧
      2 * D_center SMALL_DISP = (SMALL_DISP.Nx : Int) ∧
      2 * D_center FT7_DISP = (FT7_DISP.Nx : Int) := by
  refine ⟨?_, by decide, by decide, by decide, by decide⟩
  have hb : ∀ Rk : Int, boundaryRow cfg Rk xg = boundaryRow cfg Rk (2 * D_center cfg - xg) := by
    intro Rk
    unfold boundaryRow
    have e : (2 * D_center cfg - xg - D_center cfg) * (2 * D_center cfg - xg - D_center cfg) =
        (xg - D_center cfg) * (xg - D_center cfg) := by ring
    rw [e]
  unfold yry
  split <;> first | exact hb _ | rfl


/-! ### Rounding of dyadic fractions -/

theorem rne_err (n d : Nat) (hd : 0 < d) :
    2 * (Si5351.rne n d * d) ≤ 2 * n + d ∧ 2 * n ≤ 2 * (Si5351.rne n d * d) + d := by
  have h1 : n / d * d + n % d = n := Nat.div_add_mod' n d
  have h2 := Nat.mod_lt n hd
  have h3 : (n / d + 1) * d = n / d * d + d := by rw [Nat.add_mul, Nat.one_mul]
  unfold Si5351.rne
  simp only
  split_ifs
  all_goals first
    | (rw [h3]; generalize n / d * d = a at h1; omega)
    | (generalize n / d * d = a at h1; omega)

theorem bitLength_le_of_lt (n p : Nat) (h : n < 2 ^ p) : Si5351.bitLength n ≤ p := by
  rcases Nat.eq_zero_or_pos n with h0 | h0
  · subst h0
    unfold Si5351.bitLength
    rw [Si5351.bitLengthAux_zero]
    exact Nat.zero_le _
  · obtain ⟨h1, _, h3⟩ := Si5351.bitLength_spec n h0
    by_contra hc
    have h4 : p ≤ Si5351.bitLength n - 1 := by omega
    have h5 : 2 ^ p ≤ 2 ^ (Si5351.bitLength n - 1) := Nat.pow_le_pow_right (by decide) h4
    omega

theorem roundTo_small (p : Nat) (x : Dyadic) (h : x.num.natAbs < 2 ^ p) :
    Dyadic.roundTo p x = x := by
  unfold Dyadic.roundTo
  simp only
  rw [if_pos (bitLength_le_of_lt _ _ h)]

theorem round24_small (x : Dyadic) (h : x.num.natAbs < 2 ^ 24) : Dyadic.round24 x = x :=
  roundTo_small 24 x h

theorem round53_small (x : Dyadic) (h : x.num.natAbs < 2 ^ 53) : Dyadic.round53 x = x :=
  roundTo_small 53 x h

theorem pow_sub_split (s e : Nat) :
    ((2 : ℚ) ^ (s - e)) / (2 : ℚ) ^ (e - s) = (2 : ℚ) ^ s / (2 : ℚ) ^ e := by
  have h2 : ∀ k : Nat, (2 : ℚ) ^ k ≠ 0 := fun k => pow_ne_zero k (by norm_num)
  rcases Nat.le_total s e with h | h
  · obtain ⟨k, rfl⟩ := Nat.exists_eq_add_of_le h
    rw [Nat.sub_eq_zero_of_le h, Nat.add_sub_cancel_left, pow_zero, pow_add,
      div_mul_eq_div_div, div_self (h2 s)]
  · obtain ⟨k, rfl⟩ := Nat.exists_eq_add_of_le h
    rw [Nat.sub_eq_zero_of_le h, Nat.add_sub_cancel_left, pow_zero, pow_add, div_one,
      mul_div_cancel_left₀ _ (h2 e)]

/-- Rounding a non-negative value: the result is non-negative and differs from
the value by at most `2 ^ (-p)` times the value. -/
theorem roundTo_err (p : Nat) (hp : 1 ≤ p) (x : Dyadic) (hx : 0 ≤ x.num) :
    0 ≤ (Dyadic.roundTo p x).num ∧
      |(Dyadic.roundTo p x).val - x.val| ≤ x.val / (2 : ℚ) ^ p := by
  have hv : 0 ≤ x.val := by
    unfold Dyadic.val
    exact div_nonneg (by exact_mod_cast hx) (by positivity)
  unfold Dyadic.roundTo
  simp only
  by_cases hb : Si5351.bitLength x.num.natAbs ≤ p
  · rw [if_pos hb]
    refine ⟨hx, ?_⟩
    rw [sub_self, abs_zero]
    exact div_nonneg hv (by positivity)
  · rw [if_neg hb, if_neg (not_lt.mpr hx)]
    obtain ⟨m, hm⟩ := Int.eq_ofNat_of_zero_le hx
    have hmn : x.num.natAbs = m := by rw [hm]; rfl
    rw [hmn] at hb ⊢
    have hm0 : 0 < m := by
      rcases Nat.eq_zero_or_pos m with h0 | h0
      · subst h0
        exfalso
        apply hb
        unfold Si5351.bitLength
        rw [Si5351.bitLengthAux_zero]
        exact Nat.zero_le _
      · exact h0
    obtain ⟨h1, _, _⟩ := Si5351.bitLength_spec m hm0
    generalize Si5351.bitLength m = b at hb h1
    obtain ⟨s, rfl⟩ : ∃ s, b = p + s := ⟨b - p, by omega⟩
    have hs : p + s - p = s := by omega
    rw [hs]
    have hs1 : 1 ≤ s := by omega
    have herr := rne_err m (2 ^ s) (by positivity)
    generalize Si5351.rne m (2 ^ s) = q at herr
    constructor
    · positivity
    · unfold Dyadic.val
      simp only
      rw [hm]
      push_cast
      rw [mul_div_assoc, pow_sub_split]
      have h2 : (2 : ℚ) ^ (p + s - 1) ≤ (m : ℚ) := by exact_mod_cast h1
      have e1 : p + s - 1 = (p - 1) + s := by omega
      rw [e1, pow_add] at h2
      have e2 : (2 : ℚ) ^ p = 2 * 2 ^ (p - 1) := by
        rw [← pow_succ']
        congr 1
        omega
      have hA : (2 : ℚ) * (q * 2 ^ s) ≤ 2 * m + 2 ^ s := by exact_mod_cast herr.1
      have hB : (2 : ℚ) * m ≤ 2 * (q * 2 ^ s) + 2 ^ s := by exact_mod_cast herr.2
      have hP : (0 : ℚ) < 2 ^ (p - 1) := by positivity
      have hS : (0 : ℚ) < 2 ^ s := by positivity
      have hE : (0 : ℚ) < 2 ^ x.exp := by positivity
      rw [e2]
      generalize (2 : ℚ) ^ (p - 1) = P at h2 hP
      generalize (2 : ℚ) ^ s = S at h2 hA hB hS
      generalize (2 : ℚ) ^ x.exp = E at hE
      have hd : (m : ℚ) / (2 * P) * (2 * P) = m := by field_simp
      have key : |(q : ℚ) * S - m| ≤ m / (2 * P) := by
        rw [abs_le]
        constructor
        · rw [← sub_nonneg]
          have h0 : 0 ≤ (q * S - m - -(m / (2 * P))) * (2 * P) := by nlinarith
          exact nonneg_of_mul_nonneg_left h0 (by positivity)
        · rw [le_div_iff₀ (by positivity)]
          nlinarith
      have e3 : (q : ℚ) * (S / E) - m / E = (q * S - m) / E := by field_simp
      have e4 : (m : ℚ) / E / (2 * P) = m / (2 * P) / E := by rw [div_right_comm]
      rw [e3, e4, abs_div, abs_of_pos hE]
      exact div_le_div_of_nonneg_right key hE.le


/-! ### Values of dyadic fractions -/

theorem val_ofInt (n : Int) : (Dyadic.ofInt n).val = n := by
  simp [Dyadic.ofInt, Dyadic.val]

theorem val_add (x y : Dyadic) : (Dyadic.add x y).val = x.val + y.val := by
  simp only [Dyadic.add, Dyadic.val]
  push_cast
  rw [pow_add]
  field_simp
  try ring

theorem val_sub (x y : Dyadic) : (Dyadic.sub x y).val = x.val - y.val := by
  simp only [Dyadic.sub, Dyadic.val]
  push_cast
  rw [pow_add]
  field_simp
  try ring

theorem val_mul (x y : Dyadic) : (Dyadic.mul x y).val = x.val * y.val := by
  simp only [Dyadic.mul, Dyadic.val]
  push_cast
  rw [pow_add]
  field_simp
  try ring

theorem val_nonneg_iff (x : Dyadic) : 0 ≤ x.val ↔ 0 ≤ x.num := by
  unfold Dyadic.val
  rw [div_nonneg_iff]
  have h : (0 : ℚ) < 2 ^ x.exp := by positivity
  constructor
  · rintro (⟨h1, _⟩ | ⟨_, h2⟩)
    · exact_mod_cast h1
    · exact absurd h2 (not_le.mpr h)
  · intro h1
    exact Or.inl ⟨by exact_mod_cast h1, h.le⟩

theorem floor_eq (x : Dyadic) : x.floor = ⌊x.val⌋ := by
  unfold Dyadic.floor Dyadic.val
  have h := Rat.floor_intCast_div_natCast x.num (2 ^ x.exp)
  push_cast at h
  rw [h]

theorem trunc_eq_floor (x : Dyadic) (h : 0 ≤ x.num) : x.trunc = x.floor := by
  unfold Dyadic.trunc Dyadic.floor
  exact Int.tdiv_eq_ediv h (by positivity)

theorem round24_err (x : Dyadic) (hx : 0 ≤ x.val) :
    0 ≤ (Dyadic.round24 x).val ∧ |(Dyadic.round24 x).val - x.val| ≤ x.val / 2 ^ 24 := by
  have h := roundTo_err 24 (by decide) x ((val_nonneg_iff x).mp hx)
  exact ⟨(val_nonneg_iff _).mpr h.1, h.2⟩

theorem round53_err (x : Dyadic) (hx : 0 ≤ x.val) :
    0 ≤ (Dyadic.round53 x).val ∧ |(Dyadic.round53 x).val - x.val| ≤ x.val / 2 ^ 53 := by
  have h := roundTo_err 53 (by decide) x ((val_nonneg_iff x).mp hx)
  exact ⟨(val_nonneg_iff _).mpr h.1, h.2⟩


/-! ### The four stores of `dot` -/

theorem clamp_eq_min (n : Nat) : (if n > 0xFF then 0xFF else n) = min 255 n := by
  split_ifs <;> omega

/-- An accepted plot with defined conversions: the result and its cells. -/
theorem dot_accepted (cfg : Config) (x y y' : Dyadic) (g : GRAM) (X Y t0 t1 t2 t3 : Nat)
    (hy' : plotRow cfg y = y')
    (hX : toInt x = some (X : Int)) (hY : toInt y' = some (Y : Int))
    (hgx : X + 1 < cfg.Nx) (hgy : Y + 1 < cfg.Ny)
    (h0 : toInt (weight256 (edgeDown X x) (edgeDown Y y')) = some (t0 : Int))
    (h1 : toUnsigned (weight256 (edgeUp X x) (edgeDown Y y')) = some t1)
    (h2 : toUnsigned (weight256 (edgeDown X x) (edgeUp Y y')) = some t2)
    (h3 : toUnsigned (weight256 (edgeUp X x) (edgeUp Y y')) = some t3)
    (b0 : t0 ≤ 256) (b1 : t1 ≤ 256) (b2 : t2 ≤ 256) (b3 : t3 ≤ 256)
    (hg : ∀ i j, g.R i j ≤ 255) :
    ∃ g', dot cfg x y g = some g' ∧ g'.G = g.G ∧ g'.B = g.B ∧
      ∀ i j, g'.R i j =
        if i = X ∧ j = Y then min 255 (g.R X Y + t0)
        else if i = X + 1 ∧ j = Y then min 255 (g.R (X + 1) Y + t1)
        else if i = X ∧ j = Y + 1 then min 255 (g.R X (Y + 1) + t2)
        else if i = X + 1 ∧ j = Y + 1 then min 255 (g.R (X + 1) (Y + 1) + t3)
        else g.R i j := by
  subst hy'
  have hguard : 0 ≤ (X : Int) ∧ (X : Int) < (cfg.Nx : Int) - 1 ∧ 0 ≤ (Y : Int) ∧
      (Y : Int) < (cfg.Ny : Int) - 1 := by omega
  have eX : ((X : Int) + 1).toNat = X + 1 := by omega
  have eY : ((Y : Int) + 1).toNat = Y + 1 := by omega
  have e0 : (((g.R X Y : Int) + (t0 : Int)) % 2 ^ 32).toNat = g.R X Y + t0 := by
    have := hg X Y
    omega
  have e1 : ∀ v, v ≤ 255 → (v + t1) % 2 ^ 32 = v + t1 := by intro v hv; omega
  have e2 : ∀ v, v ≤ 255 → (v + t2) % 2 ^ 32 = v + t2 := by intro v hv; omega
  have e3 : ∀ v, v ≤ 255 → (v + t3) % 2 ^ 32 = v + t3 := by intro v hv; omega
  unfold dot
  simp only [hX, hY, Option.bind_eq_bind, Option.some_bind, if_pos hguard, h0, h1, h2, h3,
    Int.toNat_ofNat, eX, eY, e0]
  refine ⟨_, rfl, rfl, rfl, ?_⟩
  intro i j
  have m1 : ∀ v, v ≤ 255 → (v + t1) % 4294967296 = v + t1 := e1
  have m2 : ∀ v, v ≤ 255 → (v + t2) % 4294967296 = v + t2 := e2
  have m3 : ∀ v, v ≤ 255 → (v + t3) % 4294967296 = v + t3 := e3
  by_cases c0 : i = X ∧ j = Y
  · obtain ⟨rfl, rfl⟩ := c0
    simp [storeClamped, GRAM.setR, clamp_eq_min]
  · by_cases c1 : i = X + 1 ∧ j = Y
    · obtain ⟨rfl, rfl⟩ := c1
      simp [storeClamped, GRAM.setR, clamp_eq_min, m1 _ (hg _ _)]
    · by_cases c2 : i = X ∧ j = Y + 1
      · obtain ⟨rfl, rfl⟩ := c2
        simp [storeClamped, GRAM.setR, clamp_eq_min, m2 _ (hg _ _)]
      · by_cases c3 : i = X + 1 ∧ j = Y + 1
        · obtain ⟨rfl, rfl⟩ := c3
          simp [storeClamped, GRAM.setR, clamp_eq_min, m3 _ (hg _ _)]
        · simp [storeClamped, GRAM.setR, c0, c1, c2, c3]


/-! ### Weights of `dot` -/

theorem trunc_eq_floor_val (x : Dyadic) (h : 0 ≤ x.val) : x.trunc = ⌊x.val⌋ := by
  rw [trunc_eq_floor x ((val_nonneg_iff x).mp h), floor_eq]

/-- The increment computed from two edge distances in `[0, 1]`: it is defined,
at most 256, and within 1 of the exact `floor (256 a b)`. -/
theorem weight256_spec (A B : Dyadic) (hA0 : 0 ≤ A.val) (hA1 : A.val ≤ 1) (hB0 : 0 ≤ B.val)
    (hB1 : B.val ≤ 1) :
    ∃ t : Nat, (weight256 (Dyadic.round24 A) (Dyadic.round24 B)).trunc = (t : Int) ∧ t ≤ 256 ∧
      (t : Int) ≤ (Dyadic.mul (Dyadic.mul A B) (Dyadic.ofInt 256)).floor + 1 ∧
      (Dyadic.mul (Dyadic.mul A B) (Dyadic.ofInt 256)).floor ≤ (t : Int) + 1 := by
  obtain ⟨ha0, ha⟩ := round24_err A hA0
  obtain ⟨hb0, hb⟩ := round24_err B hB0
  have hp0 : 0 ≤ (Dyadic.mul (Dyadic.round24 A) (Dyadic.round24 B)).val := by
    rw [val_mul]
    exact mul_nonneg ha0 hb0
  obtain ⟨hw0, hw⟩ := round24_err _ hp0
  have hW : (weight256 (Dyadic.round24 A) (Dyadic.round24 B)).val =
      (Dyadic.round24 (Dyadic.mul (Dyadic.round24 A) (Dyadic.round24 B))).val * 256 := by
    unfold weight256
    rw [val_mul, val_ofInt]
    norm_num
  have hV : (Dyadic.mul (Dyadic.mul A B) (Dyadic.ofInt 256)).val = A.val * B.val * 256 := by
    rw [val_mul, val_mul, val_ofInt]
    norm_num
  rw [val_mul] at hw hp0
  generalize (Dyadic.round24 (Dyadic.mul (Dyadic.round24 A) (Dyadic.round24 B))).val = w at *
  generalize (Dyadic.round24 A).val = a' at *
  generalize (Dyadic.round24 B).val = b' at *
  generalize A.val = a at *
  generalize B.val = b at *
  rw [abs_le] at ha hb hw
  have e24 : (2 : ℚ) ^ 24 = 16777216 := by norm_num
  rw [e24] at ha hb hw
  have ha1 : a' ≤ 1 + 1 / 16777216 := by linarith [ha.2]
  have hb1 : b' ≤ 1 + 1 / 16777216 := by linarith [hb.2]
  have hab : a' * b' ≤ (1 + 1 / 16777216) * (1 + 1 / 16777216) :=
    mul_le_mul ha1 hb1 hb0 (by norm_num)
  have hk : ∀ u v : ℚ, 0 ≤ u → u ≤ 1 → 0 ≤ v → v ≤ 1 + 1 / 16777216 →
      u / 16777216 * v ≤ 1 / 16777216 * (1 + 1 / 16777216) := by
    intro u v hu0 hu1 hv0 hv1
    exact mul_le_mul (by linarith) hv1 hv0 (by norm_num)
  have hd1 : a' * b' - a * b ≤ 3 / 16777216 := by
    have h1 := mul_le_mul_of_nonneg_right ha.2 hb0
    have h2 := mul_le_mul_of_nonneg_left hb.2 hA0
    have h3 := hk a b' hA0 hA1 hb0 hb1
    have h4 := hk b a hB0 hB1 hA0 (by linarith)
    nlinarith
  have hd2 : a * b - a' * b' ≤ 3 / 16777216 := by
    have h1 := mul_le_mul_of_nonneg_right ha.1 hb0
    have h2 := mul_le_mul_of_nonneg_left hb.1 hA0
    have h3 := hk a b' hA0 hA1 hb0 hb1
    have h4 := hk b a hB0 hB1 hA0 (by linarith)
    nlinarith
  have hwU : w * 256 ≤ a * b * 256 + 1 / 2 := by linarith [hw.2]
  have hwL : a * b * 256 ≤ w * 256 + 1 / 2 := by linarith [hw.1]
  have hab1 : a * b ≤ 1 := by
    have := mul_le_mul hA1 hB1 hB0 (by norm_num : (0 : ℚ) ≤ 1)
    linarith
  have hwv : 0 ≤ (weight256 (Dyadic.round24 A) (Dyadic.round24 B)).val := by
    rw [hW]; linarith
  have ht := trunc_eq_floor_val _ hwv
  rw [hW] at ht
  have hf := floor_eq (Dyadic.mul (Dyadic.mul A B) (Dyadic.ofInt 256))
  rw [hV] at hf
  have hfl0 : 0 ≤ ⌊w * 256⌋ := Int.floor_nonneg.mpr (by linarith)
  refine ⟨⌊w * 256⌋.toNat, ?_, ?_, ?_, ?_⟩
  · rw [ht, Int.toNat_of_nonneg hfl0]
  · have h256 : ⌊w * 256⌋ < 257 := by
      rw [Int.floor_lt]
      push_cast
      linarith
    omega
  · rw [hf, Int.toNat_of_nonneg hfl0, ← Int.floor_add_one]
    exact Int.floor_le_floor (by linarith)
  · rw [hf, Int.toNat_of_nonneg hfl0, ← Int.floor_add_one]
    exact Int.floor_le_floor (by linarith)


theorem edge_vals (v : Dyadic) (h : 0 ≤ v.val) :
    0 ≤ v.trunc ∧ v.floor = v.trunc ∧
      0 ≤ (Dyadic.sub (Dyadic.ofInt (v.trunc + 1)) v).val ∧
      (Dyadic.sub (Dyadic.ofInt (v.trunc + 1)) v).val ≤ 1 ∧
      0 ≤ (Dyadic.sub v (Dyadic.ofInt v.trunc)).val ∧
      (Dyadic.sub v (Dyadic.ofInt v.trunc)).val ≤ 1 := by
  have ht := trunc_eq_floor_val v h
  have hf := trunc_eq_floor v ((val_nonneg_iff v).mp h)
  have h1 := Int.floor_le v.val
  have h2 := Int.lt_floor_add_one v.val
  rw [val_sub, val_sub, val_ofInt, val_ofInt, ht]
  push_cast
  refine ⟨Int.floor_nonneg.mpr h, ?_, ?_, ?_, ?_, ?_⟩
  · rw [← ht, hf]
  all_goals linarith

theorem plotRow_nonneg (cfg : Config) (y : Dyadic) (hy : 0 ≤ y.num) :
    0 ≤ (plotRow cfg y).val := by
  unfold plotRow
  have h0 : 0 ≤ (Dyadic.add y ⟨cfg.TICK_WIDTH, 1⟩).val := by
    rw [val_add]
    have h1 := (val_nonneg_iff y).mpr hy
    have h2 : 0 ≤ (Dyadic.mk (cfg.TICK_WIDTH : Int) 1).val :=
      (val_nonneg_iff _).mpr (Int.ofNat_nonneg _)
    linarith
  exact (round24_err _ (round53_err _ h0).1).1

/-- An accepted plot of a point with non-negative coordinates: every conversion
is defined, and each of the four cells receives its saturating increment. -/
theorem dot_nonneg_spec (cfg : Config) (x y : Dyadic) (g : GRAM)
    (hNx : cfg.Nx ≤ 2 ^ 31) (hNy : cfg.Ny ≤ 2 ^ 31) (hx : 0 ≤ x.num) (hy : 0 ≤ y.num)
    (hax : x.trunc < (cfg.Nx : Int) - 1) (hay : (plotRow cfg y).trunc < (cfg.Ny : Int) - 1)
    (hg : ∀ i j, g.R i j ≤ 255) :
    ∃ (g' : GRAM) (t : Bool → Bool → Nat),
      dot cfg x y g = some g' ∧ g'.G = g.G ∧ g'.B = g.B ∧
      (∀ dx dy,
        (weight256 (if dx then edgeUp x.trunc x else edgeDown x.trunc x)
          (if dy then edgeUp (plotRow cfg y).trunc (plotRow cfg y)
            else edgeDown (plotRow cfg y).trunc (plotRow cfg y))).trunc = (t dx dy : Int) ∧
        t dx dy ≤ 256 ∧
        (t dx dy : Int) ≤
          (Dyadic.mul (areaWeight x (plotRow cfg y) dx dy) (Dyadic.ofInt 256)).floor + 1 ∧
        (Dyadic.mul (areaWeight x (plotRow cfg y) dx dy) (Dyadic.ofInt 256)).floor ≤
          (t dx dy : Int) + 1) ∧
      ∀ i j, g'.R i j =
        if i = x.trunc.toNat ∧ j = (plotRow cfg y).trunc.toNat then
          min 255 (g.R x.trunc.toNat (plotRow cfg y).trunc.toNat + t false false)
        else if i = x.trunc.toNat + 1 ∧ j = (plotRow cfg y).trunc.toNat then
          min 255 (g.R (x.trunc.toNat + 1) (plotRow cfg y).trunc.toNat + t true false)
        else if i = x.trunc.toNat ∧ j = (plotRow cfg y).trunc.toNat + 1 then
          min 255 (g.R x.trunc.toNat ((plotRow cfg y).trunc.toNat + 1) + t false true)
        else if i = x.trunc.toNat + 1 ∧ j = (plotRow cfg y).trunc.toNat + 1 then
          min 255 (g.R (x.trunc.toNat + 1) ((plotRow cfg y).trunc.toNat + 1) + t true true)
        else g.R i j := by
  have hxv := (val_nonneg_iff x).mpr hx
  have hyv := plotRow_nonneg cfg y hy
  obtain ⟨hX0, hXf, a1, a2, a3, a4⟩ := edge_vals x hxv
  obtain ⟨hY0, hYf, b1, b2, b3, b4⟩ := edge_vals (plotRow cfg y) hyv
  obtain ⟨t00, e00, u00, l00, r00⟩ := weight256_spec _ _ a1 a2 b1 b2
  obtain ⟨t10, e10, u10, l10, r10⟩ := weight256_spec _ _ a3 a4 b1 b2
  obtain ⟨t01, e01, u01, l01, r01⟩ := weight256_spec _ _ a1 a2 b3 b4
  obtain ⟨t11, e11, u11, l11, r11⟩ := weight256_spec _ _ a3 a4 b3 b4
  generalize hyp : plotRow cfg y = y' at *
  obtain ⟨X, hX⟩ := Int.eq_ofNat_of_zero_le hX0
  obtain ⟨Y, hY⟩ := Int.eq_ofNat_of_zero_le hY0
  rw [hX] at hax e00 e10 e01 e11 l00 l10 l01 l11 r00 r10 r01 r11 hXf
  rw [hY] at hay e00 e10 e01 e11 l00 l10 l01 l11 r00 r10 r01 r11 hYf
  have tX : toInt x = some (X : Int) := by
    unfold toInt
    rw [hX, if_pos (by omega)]
  have tY : toInt y' = some (Y : Int) := by
    unfold toInt
    rw [hY, if_pos (by omega)]
  have c00 : toInt (weight256 (edgeDown X x) (edgeDown Y y')) = some (t00 : Int) := by
    unfold toInt edgeDown
    rw [e00, if_pos (by omega)]
  have c10 : toUnsigned (weight256 (edgeUp X x) (edgeDown Y y')) = some t10 := by
    unfold toUnsigned edgeUp edgeDown
    rw [e10, if_pos (by omega), Int.toNat_ofNat]
  have c01 : toUnsigned (weight256 (edgeDown X x) (edgeUp Y y')) = some t01 := by
    unfold toUnsigned edgeUp edgeDown
    rw [e01, if_pos (by omega), Int.toNat_ofNat]
  have c11 : toUnsigned (weight256 (edgeUp X x) (edgeUp Y y')) = some t11 := by
    unfold toUnsigned edgeUp
    rw [e11, if_pos (by omega), Int.toNat_ofNat]
  obtain ⟨g', hd, hG, hB, hR⟩ := dot_accepted cfg x y y' g X Y t00 t10 t01 t11 hyp tX tY
    (by omega) (by omega) c00 c10 c01 c11 u00 u10 u01 u11 hg
  have fX : x.floor = (X : Int) := hXf
  have fY : y'.floor = (Y : Int) := hYf
  refine ⟨g', fun dx dy => if dx then (if dy then t11 else t10) else (if dy then t01 else t00),
    hd, hG, hB, ?_, ?_⟩
  · intro dx dy
    cases dx <;> cases dy
    · refine ⟨?_, u00, ?_, ?_⟩
      · simpa [edgeUp, edgeDown, hX, hY] using e00
      · simpa [areaWeight, fX, fY] using l00
      · simpa [areaWeight, fX, fY] using r00
    · refine ⟨?_, u01, ?_, ?_⟩
      · simpa [edgeUp, edgeDown, hX, hY] using e01
      · simpa [areaWeight, fX, fY] using l01
      · simpa [areaWeight, fX, fY] using r01
    · refine ⟨?_, u10, ?_, ?_⟩
      · simpa [edgeUp, edgeDown, hX, hY] using e10
      · simpa [areaWeight, fX, fY] using l10
      · simpa [areaWeight, fX, fY] using r10
    · refine ⟨?_, u11, ?_, ?_⟩
      · simpa [edgeUp, edgeDown, hX, hY] using e11
      · simpa [areaWeight, fX, fY] using l11
      · simpa [areaWeight, fX, fY] using r11
  · intro i j
    rw [hR i j]
    simp only [hX, hY, Int.toNat_ofNat, if_true, Bool.false_eq_true, if_false]


theorem areaWeight_val (x y : Dyadic) (dx dy : Bool) :
    (areaWeight x y dx dy).val =
      (if dx then x.val - ⌊x.val⌋ else ⌊x.val⌋ + 1 - x.val) *
        (if dy then y.val - ⌊y.val⌋ else ⌊y.val⌋ + 1 - y.val) := by
  unfold areaWeight
  simp only
  rw [val_mul, floor_eq, floor_eq]
  cases dx <;> cases dy <;> simp [val_sub, val_ofInt]

theorem areaWeight_nonneg (x y : Dyadic) (dx dy : Bool) : 0 ≤ (areaWeight x y dx dy).val := by
  rw [areaWeight_val]
  have h1 := Int.floor_le x.val
  have h2 := Int.lt_floor_add_one x.val
  have h3 := Int.floor_le y.val
  have h4 := Int.lt_floor_add_one y.val
  apply mul_nonneg
  · split_ifs <;> linarith
  · split_ifs <;> linarith

theorem areaWeight_sum (x y : Dyadic) :
    (areaWeight x y false false).val + (areaWeight x y true false).val +
      (areaWeight x y false true).val + (areaWeight x y true true).val = 1 := by
  simp only [areaWeight_val, if_true, Bool.false_eq_true, if_false]
  ring

theorem dot_bytes (cfg : Config) (x y : Dyadic) (hNx : cfg.Nx ≤ 2 ^ 31) (hNy : cfg.Ny ≤ 2 ^ 31)
    (hx : 0 ≤ x.num) (hy : 0 ≤ y.num) (hax : x.trunc < (cfg.Nx : Int) - 1)
    (hay : (plotRow cfg y).trunc < (cfg.Ny : Int) - 1) (g : GRAM) (hg : ∀ i j, g.R i j ≤ 255) :
    ∃ g', dot cfg x y g = some g' ∧ ∀ i j, g.R i j ≤ g'.R i j ∧ g'.R i j ≤ 255 := by
  obtain ⟨g', t, hd, _, _, _, hR⟩ := dot_nonneg_spec cfg x y g hNx hNy hx hy hax hay hg
  refine ⟨g', hd, ?_⟩
  intro i j
  rw [hR i j]
  have h1 := hg i j
  split_ifs with c0 c1 c2 c3
  · obtain ⟨rfl, rfl⟩ := c0
    omega
  · obtain ⟨rfl, rfl⟩ := c1
    omega
  · obtain ⟨rfl, rfl⟩ := c2
    omega
  · obtain ⟨rfl, rfl⟩ := c3
    omega
  · omega

theorem dotN_bytes (cfg : Config) (x y : Dyadic) (hNx : cfg.Nx ≤ 2 ^ 31) (hNy : cfg.Ny ≤ 2 ^ 31)
    (hx : 0 ≤ x.num) (hy : 0 ≤ y.num) (hax : x.trunc < (cfg.Nx : Int) - 1)
    (hay : (plotRow cfg y).trunc < (cfg.Ny : Int) - 1) (n : Nat) :
    ∀ g : GRAM, (∀ i j, g.R i j ≤ 255) →
      ∃ gn, dotN cfg x y n g = some gn ∧ ∀ i j, gn.R i j ≤ 255 := by
  induction n with
  | zero =>
    intro g hg
    exact ⟨g, rfl, hg⟩
  | succ n ih =>
    intro g hg
    obtain ⟨g', hd, hb⟩ := dot_bytes cfg x y hNx hNy hx hy hax hay g hg
    obtain ⟨gn, hn, hbn⟩ := ih g' (fun i j => (hb i j).2)
    refine ⟨gn, ?_, hbn⟩
    unfold dotN
    rw [hd]
    exact hn

/-- C17 as stated fails: with the shipped `TICK_WIDTH = 1`, `dot` adds half a
row before it splits the weight.  For the pixel `(10, 20)` of the configuration
in use, `dot (10.5, 20.5)` on all-zero planes puts 128 into each of the cells
`(10, 21)` and `(11, 21)`, and leaves `(10, 20)`, `(11, 20)`, `(10, 22)` and
`(11, 22)` at 0. -/
theorem C17_half_pixel_counterexample :
    Dyadic.trunc ⟨21, 1⟩ = 10 ∧ Dyadic.trunc ⟨41, 1⟩ = 20 ∧
      (dot CUSTOM_DISP ⟨21, 1⟩ ⟨41, 1⟩ GRAM.zero).map
        (fun g => [g.R 10 20, g.R 11 20, g.R 10 21, g.R 11 21, g.R 10 22, g.R 11 22]) =
          some [0, 0, 128, 128, 0, 0] := by
  decide

/-- C17 (amended): for every pixel `(x, y)` with `x < Nx - 1` and `y < Ny - 1`
(display sides at most `2 ^ 16`) and all-zero planes, the call
`dot (x + 0.5, y + 0.5 - TICK_WIDTH / 2)`, which is `dot (x + 0.5, y)` for the
shipped `TICK_WIDTH = 1`, gives each of the cells `(x, y)`, `(x + 1, y)`,
`(x, y + 1)` and `(x + 1, y + 1)` the same contribution 64, and no other cell
of any plane changes. -/
theorem C17_half_pixel_split (cfg : Config) (x y : Nat) (hx : x + 1 < cfg.Nx)
    (hy : y + 1 < cfg.Ny) (hNx : cfg.Nx ≤ 2 ^ 16) (hNy : cfg.Ny ≤ 2 ^ 16) :
    ∃ g, dot cfg ⟨2 * (x : Int) + 1, 1⟩ ⟨2 * (y : Int) + 1 - (cfg.TICK_WIDTH : Int), 1⟩
        GRAM.zero = some g ∧
      (∀ i j, g.R i j = if (i = x ∨ i = x + 1) ∧ (j = y ∨ j = y + 1) then 64 else 0) ∧
      (∀ i j, g.G i j = 0) ∧ ∀ i j, g.B i j = 0 := by
  have hrow : plotRow cfg ⟨2 * (y : Int) + 1 - (cfg.TICK_WIDTH : Int), 1⟩ =
      ⟨4 * (y : Int) + 2, 2⟩ := by
    have e : Dyadic.add ⟨2 * (y : Int) + 1 - (cfg.TICK_WIDTH : Int), 1⟩ ⟨cfg.TICK_WIDTH, 1⟩ =
        ⟨4 * (y : Int) + 2, 2⟩ := by
      simp only [Dyadic.add, Dyadic.mk.injEq, and_true]
      ring
    unfold plotRow
    rw [e, round53_small _ (by simp only; omega), round24_small _ (by simp only; omega)]
  have tX : toInt ⟨2 * (x : Int) + 1, 1⟩ = some (x : Int) := by
    have e : Dyadic.trunc ⟨2 * (x : Int) + 1, 1⟩ = x := by
      simp only [Dyadic.trunc]
      rw [Int.tdiv_eq_ediv (by omega) (by norm_num)]
      omega
    unfold toInt
    rw [e, if_pos (by omega)]
  have tY : toInt ⟨4 * (y : Int) + 2, 2⟩ = some (y : Int) := by
    have e : Dyadic.trunc ⟨4 * (y : Int) + 2, 2⟩ = y := by
      simp only [Dyadic.trunc]
      rw [Int.tdiv_eq_ediv (by omega) (by norm_num)]
      omega
    unfold toInt
    rw [e, if_pos (by omega)]
  have xd : edgeDown x ⟨2 * (x : Int) + 1, 1⟩ = ⟨1, 1⟩ := by
    have e : Dyadic.sub (Dyadic.ofInt ((x : Int) + 1)) ⟨2 * (x : Int) + 1, 1⟩ = ⟨1, 1⟩ := by
      simp only [Dyadic.sub, Dyadic.ofInt, Dyadic.mk.injEq]
      constructor
      · ring
      · trivial
    unfold edgeDown
    rw [e]
    rfl
  have xu : edgeUp x ⟨2 * (x : Int) + 1, 1⟩ = ⟨1, 1⟩ := by
    have e : Dyadic.sub ⟨2 * (x : Int) + 1, 1⟩ (Dyadic.ofInt (x : Int)) = ⟨1, 1⟩ := by
      simp only [Dyadic.sub, Dyadic.ofInt, Dyadic.mk.injEq]
      constructor
      · ring
      · trivial
    unfold edgeUp
    rw [e]
    rfl
  have yd : edgeDown y ⟨4 * (y : Int) + 2, 2⟩ = ⟨2, 2⟩ := by
    have e : Dyadic.sub (Dyadic.ofInt ((y : Int) + 1)) ⟨4 * (y : Int) + 2, 2⟩ = ⟨2, 2⟩ := by
      simp only [Dyadic.sub, Dyadic.ofInt, Dyadic.mk.injEq]
      constructor
      · ring
      · trivial
    unfold edgeDown
    rw [e]
    rfl
  have yu : edgeUp y ⟨4 * (y : Int) + 2, 2⟩ = ⟨2, 2⟩ := by
    have e : Dyadic.sub ⟨4 * (y : Int) + 2, 2⟩ (Dyadic.ofInt (y : Int)) = ⟨2, 2⟩ := by
      simp only [Dyadic.sub, Dyadic.ofInt, Dyadic.mk.injEq]
      constructor
      · ring
      · trivial
    unfold edgeUp
    rw [e]
    rfl
  have wI : toInt (weight256 ⟨1, 1⟩ ⟨2, 2⟩) = some ((64 : Nat) : Int) := by decide
  have wU : toUnsigned (weight256 ⟨1, 1⟩ ⟨2, 2⟩) = some 64 := by decide
  obtain ⟨g, hd, hG, hB, hR⟩ := dot_accepted cfg ⟨2 * (x : Int) + 1, 1⟩
    ⟨2 * (y : Int) + 1 - (cfg.TICK_WIDTH : Int), 1⟩ ⟨4 * (y : Int) + 2, 2⟩ GRAM.zero x y
    64 64 64 64 hrow tX tY hx hy (by rw [xd, yd]; exact wI) (by rw [xu, yd]; exact wU)
    (by rw [xd, yu]; exact wU) (by rw [xu, yu]; exact wU) (by decide) (by decide) (by decide)
    (by decide) (fun _ _ => Nat.zero_le _)
  refine ⟨g, hd, ?_, ?_, ?_⟩
  · intro i j
    rw [hR i j]
    simp only [GRAM.zero, Nat.zero_add]
    split_ifs <;> first | rfl | omega
  · intro i j
    rw [hG]
    rfl
  · intro i j
    rw [hB]
    rfl

/-- Instance of C17 (amended): the pixel `(10, 20)` of the configuration in use. -/
theorem C17_half_pixel_split_witness :
    ∃ g, dot CUSTOM_DISP ⟨2 * ((10 : Nat) : Int) + 1, 1⟩
        ⟨2 * ((20 : Nat) : Int) + 1 - (CUSTOM_DISP.TICK_WIDTH : Int), 1⟩ GRAM.zero = some g ∧
      (∀ i j, g.R i j = if (i = 10 ∨ i = 10 + 1) ∧ (j = 20 ∨ j = 20 + 1) then 64 else 0) ∧
      (∀ i j, g.G i j = 0) ∧ ∀ i j, g.B i j = 0 :=
  C17_half_pixel_split CUSTOM_DISP 10 20 (by decide) (by decide) (by decide) (by decide)


set_option maxRecDepth 100000 in
/-- C18 as stated fails on rounding: the increment is taken from the
single-precision product of the single-precision edge distances, not from the
exact area weight.  On all-zero planes of the configuration in use, the point
`x = 0.5 - 2 ^ (-24)`, `y = 0.5 + 2 ^ (-23)` (both non-negative, accepted,
plotted row `1 + 2 ^ (-23)`, cell `(0, 1)`) has exact area weights that are
non-negative and sum to 1, with `w = 0.5 - 2 ^ (-47)` for cell `(0, 1)`, so
`min (255, 0 + floor (256 w)) = 127`; the code stores 128 there, because the
product of `0.5 + 2 ^ (-24)` and `1 - 2 ^ (-23)` rounds to `0.5`. -/
theorem C18_area_weight_counterexample :
    Dyadic.trunc ⟨2 ^ 23 - 1, 24⟩ = 0 ∧
      plotRow CUSTOM_DISP ⟨2 ^ 22 + 1, 23⟩ = ⟨2 ^ 23 + 1, 23⟩ ∧
      Dyadic.trunc ⟨2 ^ 23 + 1, 23⟩ = 1 ∧
      (dot CUSTOM_DISP ⟨2 ^ 23 - 1, 24⟩ ⟨2 ^ 22 + 1, 23⟩ GRAM.zero).map (fun g => g.R 0 1) =
        some 128 ∧
      areaWeight ⟨2 ^ 23 - 1, 24⟩ ⟨2 ^ 23 + 1, 23⟩ false false = ⟨2 ^ 46 - 1, 47⟩ ∧
      areaWeight ⟨2 ^ 23 - 1, 24⟩ ⟨2 ^ 23 + 1, 23⟩ true false = ⟨2 ^ 46 - 2 ^ 24 + 1, 47⟩ ∧
      areaWeight ⟨2 ^ 23 - 1, 24⟩ ⟨2 ^ 23 + 1, 23⟩ false true = ⟨2 ^ 23 + 1, 47⟩ ∧
      areaWeight ⟨2 ^ 23 - 1, 24⟩ ⟨2 ^ 23 + 1, 23⟩ true true = ⟨2 ^ 23 - 1, 47⟩ ∧
      (2 ^ 46 - 1 : Int) + (2 ^ 46 - 2 ^ 24 + 1) + (2 ^ 23 + 1) + (2 ^ 23 - 1) = 2 ^ 47 ∧
      saturatingAdd (GRAM.zero.R 0 1)
        (areaWeight ⟨2 ^ 23 - 1, 24⟩ ⟨2 ^ 23 + 1, 23⟩ false false) = 127 := by
  decide

/-- C18 (amended): plot additivity and saturation.  For every state of the
planes with byte-valued cells and every point with non-negative coordinates
that `dot` accepts (display sides within the range of `int`), `dot` returns,
and each of the four neighbour cells `(X + dx, Y + dy)` afterwards holds
`min (255, old + t)`, where `t ≥ 0` is the integer part of 256 times the
single-precision product of the cell's single-precision edge distances; `t` is
at most 256 and differs from `floor (256 w)`, `w ≥ 0` the exact area weight of
the cell (the four exact weights sum to 1), by at most 1.  Hence no cell decreases or exceeds 255, plotting the same
point `n` times never exceeds 255, and the green and blue planes and all other
cells of the accumulation plane are unchanged. -/
theorem C18_plot_saturating (cfg : Config) (x y : Dyadic) (g : GRAM)
    (hNx : cfg.Nx ≤ 2 ^ 31) (hNy : cfg.Ny ≤ 2 ^ 31) (hx : 0 ≤ x.num) (hy : 0 ≤ y.num)
    (hax : x.trunc < (cfg.Nx : Int) - 1) (hay : (plotRow cfg y).trunc < (cfg.Ny : Int) - 1)
    (hg : ∀ i j, g.R i j ≤ 255) :
    ∃ (g' : GRAM) (t : Bool → Bool → Nat),
      dot cfg x y g = some g' ∧
      (∀ dx dy,
        (weight256 (if dx then edgeUp x.trunc x else edgeDown x.trunc x)
          (if dy then edgeUp (plotRow cfg y).trunc (plotRow cfg y)
            else edgeDown (plotRow cfg y).trunc (plotRow cfg y))).trunc = (t dx dy : Int) ∧
        t dx dy ≤ 256 ∧
        (t dx dy : Int) ≤
          (Dyadic.mul (areaWeight x (plotRow cfg y) dx dy) (Dyadic.ofInt 256)).floor + 1 ∧
        (Dyadic.mul (areaWeight x (plotRow cfg y) dx dy) (Dyadic.ofInt 256)).floor ≤
          (t dx dy : Int) + 1) ∧
      (∀ dx dy : Bool,
        g'.R (x.trunc.toNat + dx.toNat) ((plotRow cfg y).trunc.toNat + dy.toNat) =
          min 255 (g.R (x.trunc.toNat + dx.toNat) ((plotRow cfg y).trunc.toNat + dy.toNat) +
            t dx dy)) ∧
      (∀ i j, g.R i j ≤ g'.R i j ∧ g'.R i j ≤ 255) ∧
      (∀ i j, ¬ ((i = x.trunc.toNat ∨ i = x.trunc.toNat + 1) ∧
          (j = (plotRow cfg y).trunc.toNat ∨ j = (plotRow cfg y).trunc.toNat + 1)) →
        g'.R i j = g.R i j) ∧
      g'.G = g.G ∧ g'.B = g.B ∧
      (∀ n, ∃ gn, dotN cfg x y n g = some gn ∧ ∀ i j, gn.R i j ≤ 255) ∧
      (∀ dx dy, 0 ≤ (areaWeight x (plotRow cfg y) dx dy).val) ∧
      (areaWeight x (plotRow cfg y) false false).val +
        (areaWeight x (plotRow cfg y) true false).val +
        (areaWeight x (plotRow cfg y) false true).val +
        (areaWeight x (plotRow cfg y) true true).val = 1 := by
  obtain ⟨g', t, hd, hG, hB, ht, hR⟩ := dot_nonneg_spec cfg x y g hNx hNy hx hy hax hay hg
  obtain ⟨g2, hd2, hb⟩ := dot_bytes cfg x y hNx hNy hx hy hax hay g hg
  have e : g2 = g' := by
    rw [hd] at hd2
    exact (Option.some.inj hd2).symm
  subst e
  refine ⟨g2, t, hd, ht, ?_, hb, ?_, hG, hB, ?_, areaWeight_nonneg x (plotRow cfg y),
    areaWeight_sum x (plotRow cfg y)⟩
  · intro dx dy
    rw [hR]
    cases dx <;> cases dy <;> simp
  · intro i j hij
    rw [hR]
    split_ifs with c0 c1 c2 c3
    · exact absurd ⟨Or.inl c0.1, Or.inl c0.2⟩ hij
    · exact absurd ⟨Or.inr c1.1, Or.inl c1.2⟩ hij
    · exact absurd ⟨Or.inl c2.1, Or.inr c2.2⟩ hij
    · exact absurd ⟨Or.inr c3.1, Or.inr c3.2⟩ hij
    · rfl
  · intro n
    exact dotN_bytes cfg x y hNx hNy hx hy hax hay n g hg

/-- Instance of C18 (amended): the point `(10.25, 20.0)` on all-zero planes of
the configuration in use. -/
theorem C18_plot_saturating_witness :
    ∃ (g' : GRAM) (t : Bool → Bool → Nat),
      dot CUSTOM_DISP ⟨41, 2⟩ ⟨20, 0⟩ GRAM.zero = some g' ∧
      (∀ dx dy,
        (weight256 (if dx then edgeUp (Dyadic.trunc ⟨41, 2⟩) ⟨41, 2⟩
            else edgeDown (Dyadic.trunc ⟨41, 2⟩) ⟨41, 2⟩)
          (if dy then edgeUp (plotRow CUSTOM_DISP ⟨20, 0⟩).trunc (plotRow CUSTOM_DISP ⟨20, 0⟩)
            else edgeDown (plotRow CUSTOM_DISP ⟨20, 0⟩).trunc
              (plotRow CUSTOM_DISP ⟨20, 0⟩))).trunc = (t dx dy : Int) ∧
        t dx dy ≤ 256 ∧
        (t dx dy : Int) ≤
          (Dyadic.mul (areaWeight ⟨41, 2⟩ (plotRow CUSTOM_DISP ⟨20, 0⟩) dx dy)
            (Dyadic.ofInt 256)).floor + 1 ∧
        (Dyadic.mul (areaWeight ⟨41, 2⟩ (plotRow CUSTOM_DISP ⟨20, 0⟩) dx dy)
            (Dyadic.ofInt 256)).floor ≤ (t dx dy : Int) + 1) ∧
      (∀ dx dy : Bool,
        g'.R ((Dyadic.trunc ⟨41, 2⟩).toNat + dx.toNat)
            ((plotRow CUSTOM_DISP ⟨20, 0⟩).trunc.toNat + dy.toNat) =
          min 255 (GRAM.zero.R ((Dyadic.trunc ⟨41, 2⟩).toNat + dx.toNat)
            ((plotRow CUSTOM_DISP ⟨20, 0⟩).trunc.toNat + dy.toNat) + t dx dy)) ∧
      (∀ i j, GRAM.zero.R i j ≤ g'.R i j ∧ g'.R i j ≤ 255) ∧
      (∀ i j, ¬ ((i = (Dyadic.trunc ⟨41, 2⟩).toNat ∨ i = (Dyadic.trunc ⟨41, 2⟩).toNat + 1) ∧
          (j = (plotRow CUSTOM_DISP ⟨20, 0⟩).trunc.toNat ∨
            j = (plotRow CUSTOM_DISP ⟨20, 0⟩).trunc.toNat + 1)) →
        g'.R i j = GRAM.zero.R i j) ∧
      g'.G = GRAM.zero.G ∧ g'.B = GRAM.zero.B ∧
      (∀ n, ∃ gn, dotN CUSTOM_DISP ⟨41, 2⟩ ⟨20, 0⟩ n GRAM.zero = some gn ∧
        ∀ i j, gn.R i j ≤ 255) ∧
      (∀ dx dy, 0 ≤ (areaWeight ⟨41, 2⟩ (plotRow CUSTOM_DISP ⟨20, 0⟩) dx dy).val) ∧
      (areaWeight ⟨41, 2⟩ (plotRow CUSTOM_DISP ⟨20, 0⟩) false false).val +
        (areaWeight ⟨41, 2⟩ (plotRow CUSTOM_DISP ⟨20, 0⟩) true false).val +
        (areaWeight ⟨41, 2⟩ (plotRow CUSTOM_DISP ⟨20, 0⟩) false true).val +
        (areaWeight ⟨41, 2⟩ (plotRow CUSTOM_DISP ⟨20, 0⟩) true true).val = 1 :=
  C18_plot_saturating CUSTOM_DISP ⟨41, 2⟩ ⟨20, 0⟩ GRAM.zero (by decide) (by decide) (by decide)
    (by decide) (by decide) (by decide) (fun _ _ => Nat.zero_le _)

set_option maxRecDepth 100000 in
/-- C19, failing input: the guard of `dot` tests the coordinates after
truncation toward zero, so a point with `-1 < x < 0` is accepted.  On all-zero
planes of the configuration in use, `dot (-1 / 1024, 10.0)` (every conversion
defined) sets the cells `(0, 10)` and `(0, 11)` of the red plane to 128, and
`dot (-0.5, 10.0)` reaches the conversion to `unsigned int` of the negative
value `-64.0`, which is not defined. -/
theorem C19_negative_fraction_plotted :
    (Dyadic.mk (-1) 10).num < 0 ∧ Dyadic.trunc ⟨-1, 10⟩ = 0 ∧
      (dot CUSTOM_DISP ⟨-1, 10⟩ ⟨10, 0⟩ GRAM.zero).map
        (fun g => [g.R 0 10, g.R 1 10, g.R 0 11, g.R 1 11]) = some [128, 0, 128, 0] ∧
      [GRAM.zero.R 0 10, GRAM.zero.R 1 10, GRAM.zero.R 0 11, GRAM.zero.R 1 11] = [0, 0, 0, 0] ∧
      (weight256 (edgeUp 0 ⟨-1, 1⟩) (edgeDown 10 (plotRow CUSTOM_DISP ⟨10, 0⟩))).trunc = -64 ∧
      (dot CUSTOM_DISP ⟨-1, 1⟩ ⟨10, 0⟩ GRAM.zero).isNone = true := by
  decide

end Dial

/-! ## Claims on the framebuffer drawing and the colour conversion -/

namespace Graph

open Dial (GRAM)

theorem channels_eq (color : Nat) :
    channels color = (color / 2 ^ 16 % 2 ^ 8, color / 2 ^ 8 % 2 ^ 8, color % 2 ^ 8) := by
  have m1 : (0xFF0000 : Nat) = (2 ^ 8 - 1) <<< 16 := by decide
  have m2 : (0x00FF00 : Nat) = (2 ^ 8 - 1) <<< 8 := by decide
  have m3 : (0x0000FF : Nat) = 2 ^ 8 - 1 := by decide
  unfold channels
  rw [m3, Nat.and_pow_two_sub_one_eq_mod, m1, m2]
  refine Prod.ext ?_ (Prod.ext ?_ rfl)
  · apply Nat.eq_of_testBit_eq
    intro i
    simp only [Nat.testBit_shiftRight, Nat.testBit_and, Nat.testBit_shiftLeft,
      Nat.testBit_two_pow_sub_one, Nat.testBit_mod_two_pow, ← Nat.shiftRight_eq_div_pow]
    by_cases h : i < 8 <;> simp [h, Nat.add_comm]
  · apply Nat.eq_of_testBit_eq
    intro i
    simp only [Nat.testBit_shiftRight, Nat.testBit_and, Nat.testBit_shiftLeft,
      Nat.testBit_two_pow_sub_one, Nat.testBit_mod_two_pow, ← Nat.shiftRight_eq_div_pow]
    by_cases h : i < 8 <;> simp [h, Nat.add_comm]

theorem pixel_setRGB (g : GRAM) (x y : Nat) (c : Nat × Nat × Nat) (i j : Nat) :
    GRAM.pixel (GRAM.setRGB g x y c) i j = if i = x ∧ j = y then c else GRAM.pixel g i j := by
  unfold GRAM.pixel GRAM.setRGB
  by_cases h : i = x ∧ j = y
  · simp only [if_pos h]
  · simp only [if_neg h]

/-- A loop whose body paints, in round `k`, the pixels selected by `P k` with
the value `c` and leaves the others alone. -/
theorem forUpTo_fill (body : Int → GRAM → Option GRAM) (P : Int → Nat → Nat → Prop)
    (c : Nat × Nat × Nat) (n : Nat) : ∀ (lo : Int) (g : GRAM),
    (∀ k g, lo ≤ k → k < lo + n → ∃ g', body k g = some g' ∧
      ∀ i j, (P k i j → GRAM.pixel g' i j = c) ∧
        (¬ P k i j → GRAM.pixel g' i j = GRAM.pixel g i j)) →
    ∃ g', forUpTo body n lo g = some g' ∧
      ∀ i j, ((∃ k, lo ≤ k ∧ k < lo + n ∧ P k i j) → GRAM.pixel g' i j = c) ∧
        ((¬ ∃ k, lo ≤ k ∧ k < lo + n ∧ P k i j) → GRAM.pixel g' i j = GRAM.pixel g i j) := by
  induction n with
  | zero =>
    intro lo g _
    refine ⟨g, rfl, fun i j => ⟨?_, fun _ => rfl⟩⟩
    rintro ⟨k, h1, h2, _⟩
    simp only [Nat.cast_zero, add_zero] at h2
    omega
  | succ n ih =>
    intro lo g hb
    obtain ⟨g1, e1, h1⟩ := hb lo g le_rfl (by push_cast; omega)
    obtain ⟨g2, e2, h2⟩ := ih (lo + 1) g1 (fun k g hk1 hk2 => hb k g (by omega)
      (by push_cast; omega))
    refine ⟨g2, ?_, ?_⟩
    · simp only [forUpTo, e1, Option.some_bind, e2]
    · intro i j
      by_cases ht : ∃ k, lo + 1 ≤ k ∧ k < lo + 1 + n ∧ P k i j
      · refine ⟨fun _ => (h2 i j).1 ht, fun hn => ?_⟩
        obtain ⟨k, a, b, p⟩ := ht
        exact absurd ⟨k, by omega, by push_cast; omega, p⟩ hn
      · rw [(h2 i j).2 ht]
        by_cases hp : P lo i j
        · refine ⟨fun _ => (h1 i j).1 hp, fun hn => ?_⟩
          exact absurd ⟨lo, le_rfl, by push_cast; omega, hp⟩ hn
        · refine ⟨?_, fun _ => (h1 i j).2 hp⟩
          rintro ⟨k, a, b, p⟩
          push_cast at b
          by_cases hk : k = lo
          · subst hk
            exact absurd p hp
          · exact absurd ⟨k, by omega, by omega, p⟩ ht

/-- The box of rows `y_lo..y_hi` and columns `x_lo..x_hi` inside the arrays. -/
theorem fill_rect (Nx Ny : Nat) (x_lo y_lo x_hi y_hi : Int) (color : Nat) (g : GRAM)
    (hx0 : 0 ≤ x_lo) (hy0 : 0 ≤ y_lo) (hx1 : x_hi < Nx) (hy1 : y_hi < Ny) :
    ∃ g', forLoop x_lo x_hi
        (fun k g => forLoop y_lo y_hi (fun j g => setPixel Nx Ny k j color g) g) g = some g' ∧
      ∀ i j : Nat,
        ((x_lo ≤ (i : Int) ∧ (i : Int) ≤ x_hi ∧ y_lo ≤ (j : Int) ∧ (j : Int) ≤ y_hi) →
          GRAM.pixel g' i j = channels color) ∧
        (¬ (x_lo ≤ (i : Int) ∧ (i : Int) ≤ x_hi ∧ y_lo ≤ (j : Int) ∧ (j : Int) ≤ y_hi) →
          GRAM.pixel g' i j = GRAM.pixel g i j) := by
  have inner : ∀ (k : Int) (g : GRAM), x_lo ≤ k → k < x_lo + ((x_hi + 1 - x_lo).toNat : Int) →
      ∃ g', forLoop y_lo y_hi (fun j g => setPixel Nx Ny k j color g) g = some g' ∧
        ∀ i j : Nat,
          (((i : Int) = k ∧ y_lo ≤ (j : Int) ∧ (j : Int) ≤ y_hi) →
            GRAM.pixel g' i j = channels color) ∧
          (¬ ((i : Int) = k ∧ y_lo ≤ (j : Int) ∧ (j : Int) ≤ y_hi) →
            GRAM.pixel g' i j = GRAM.pixel g i j) := by
    intro k g hk1 hk2
    have hk3 : k < Nx := by omega
    obtain ⟨g', e, h⟩ := forUpTo_fill (fun j g => setPixel Nx Ny k j color g)
      (fun j' i j => (i : Int) = k ∧ (j : Int) = j') (channels color) (y_hi + 1 - y_lo).toNat
      y_lo g (by
        intro j' g hj1 hj2
        have hb : 0 ≤ k ∧ k < (Nx : Int) ∧ 0 ≤ j' ∧ j' < (Ny : Int) := by omega
        refine ⟨GRAM.setRGB g k.toNat j'.toNat (channels color), ?_, fun i j => ?_⟩
        · show setPixel Nx Ny k j' color g = _
          unfold setPixel
          rw [if_pos hb]
        · rw [pixel_setRGB]
          constructor
          · intro hp
            have hp' : (i : Int) = k ∧ (j : Int) = j' := hp
            rw [if_pos (by omega)]
          · intro hp
            have hp' : ¬ ((i : Int) = k ∧ (j : Int) = j') := hp
            rw [if_neg (by omega)])
    refine ⟨g', e, fun i j => ⟨fun hp => (h i j).1 ⟨j, by omega, by omega, hp.1, rfl⟩,
      fun hp => (h i j).2 ?_⟩⟩
    rintro ⟨j', a, b, c, d⟩
    exact hp ⟨c, by omega, by omega⟩
  obtain ⟨g', e, h⟩ := forUpTo_fill
    (fun k g => forLoop y_lo y_hi (fun j g => setPixel Nx Ny k j color g) g)
    (fun k i j => (i : Int) = k ∧ y_lo ≤ (j : Int) ∧ (j : Int) ≤ y_hi) (channels color)
    (x_hi + 1 - x_lo).toNat x_lo g inner
  refine ⟨g', e, fun i j => ⟨fun hp => (h i j).1 ⟨i, by omega, by omega, rfl, hp.2.2.1, hp.2.2.2⟩,
    fun hp => (h i j).2 ?_⟩⟩
  rintro ⟨k, a, b, c, d, f⟩
  exact hp ⟨by omega, by omega, d, f⟩

/-- C21: for all integer arguments `BoxFill` returns without an access outside
the arrays; it sets exactly the pixels `(x, y)` with
`max (x_min, 0) ≤ x ≤ min (x_max, Nx - 1)` and
`max (y_min, 0) ≤ y ≤ min (y_max, Ny - 1)` to the three channel bytes of the
colour (red bits 23..16, green bits 15..8, blue bits 7..0) and leaves every
other pixel of the three planes unchanged; `ClearGRAM` sets every pixel of the
`Nx` by `Ny` arrays to `CL_BG`. -/
theorem C21_BoxFill_clamped (Nx Ny : Nat) (x_min y_min x_max y_max : Int) (color : Nat)
    (g : GRAM) :
    (∃ g', BoxFill Nx Ny x_min y_min x_max y_max color g = some g' ∧
      ∀ i j : Nat,
        ((max x_min 0 ≤ (i : Int) ∧ (i : Int) ≤ min x_max ((Nx : Int) - 1) ∧
            max y_min 0 ≤ (j : Int) ∧ (j : Int) ≤ min y_max ((Ny : Int) - 1)) →
          GRAM.pixel g' i j = (color / 2 ^ 16 % 2 ^ 8, color / 2 ^ 8 % 2 ^ 8, color % 2 ^ 8)) ∧
        (¬ (max x_min 0 ≤ (i : Int) ∧ (i : Int) ≤ min x_max ((Nx : Int) - 1) ∧
            max y_min 0 ≤ (j : Int) ∧ (j : Int) ≤ min y_max ((Ny : Int) - 1)) →
          GRAM.pixel g' i j = GRAM.pixel g i j)) ∧
    ∃ g', ClearGRAM Nx Ny g = some g' ∧
      (∀ i j : Nat, i < Nx → j < Ny →
        GRAM.pixel g' i j = (CL_BG / 2 ^ 16 % 2 ^ 8, CL_BG / 2 ^ 8 % 2 ^ 8, CL_BG % 2 ^ 8)) ∧
      ∀ i j : Nat, ¬ (i < Nx ∧ j < Ny) → GRAM.pixel g' i j = GRAM.pixel g i j := by
  have key : ∀ (a b c d : Int) (col : Nat),
      ∃ g', BoxFill Nx Ny a b c d col g = some g' ∧
      ∀ i j : Nat,
        ((max a 0 ≤ (i : Int) ∧ (i : Int) ≤ min c ((Nx : Int) - 1) ∧
            max b 0 ≤ (j : Int) ∧ (j : Int) ≤ min d ((Ny : Int) - 1)) →
          GRAM.pixel g' i j = (col / 2 ^ 16 % 2 ^ 8, col / 2 ^ 8 % 2 ^ 8, col % 2 ^ 8)) ∧
        (¬ (max a 0 ≤ (i : Int) ∧ (i : Int) ≤ min c ((Nx : Int) - 1) ∧
            max b 0 ≤ (j : Int) ∧ (j : Int) ≤ min d ((Ny : Int) - 1)) →
          GRAM.pixel g' i j = GRAM.pixel g i j) := by
    intro a b c d col
    have e1 : (if a < 0 then 0 else a) = max a 0 := by split_ifs <;> omega
    have e2 : (if b < 0 then 0 else b) = max b 0 := by split_ifs <;> omega
    have e3 : (if c ≥ (Nx : Int) then (Nx : Int) - 1 else c) = min c ((Nx : Int) - 1) := by
      split_ifs <;> omega
    have e4 : (if d ≥ (Ny : Int) then (Ny : Int) - 1 else d) = min d ((Ny : Int) - 1) := by
      split_ifs <;> omega
    unfold BoxFill
    simp only [e1, e2, e3, e4]
    rw [← channels_eq]
    exact fill_rect Nx Ny _ _ _ _ col g (le_max_right _ _) (le_max_right _ _)
      (by have := min_le_right c ((Nx : Int) - 1); omega)
      (by have := min_le_right d ((Ny : Int) - 1); omega)
  refine ⟨key x_min y_min x_max y_max color, ?_⟩
  obtain ⟨g', e, h⟩ := key 0 0 ((Nx : Int) - 1) ((Ny : Int) - 1) CL_BG
  refine ⟨g', e, fun i j hi hj => (h i j).1 ?_, fun i j hn => (h i j).2 ?_⟩
  · simp only [max_self, min_self]
    omega
  · simp only [max_self, min_self]
    omega

/-! ### The loops of `Line` -/

theorem progression_succ (a s : Int) (n : Nat) :
    (List.range (n + 1 + 1)).map (fun i : Nat => a + (i : Int) * s) =
      a :: (List.range (n + 1)).map (fun i : Nat => (a + s) + (i : Int) * s) := by
  rw [List.range_succ_eq_map, List.map_cons, List.map_map]
  congr 1
  · simp
  · apply List.map_congr_left
    intro i _
    simp only [Function.comp, Nat.succ_eq_add_one]
    push_cast
    ring

theorem getLast_cons_of_some {α : Type} (a v : α) (l : List α) (h : l.getLast? = some v) :
    (a :: l).getLast? = some v := by
  cases l with
  | nil => simp at h
  | cons b l => rw [List.getLast?_cons_cons]; exact h

/-- The loop for `dx > dy` from a state `n` major steps and `r` minor steps
before the end point. -/
theorem lineLoopX_record (xe xstep ystep dx dy : Int) (hxs : xstep = 1 ∨ xstep = -1)
    (hys : ystep = 1 ∨ ystep = -1) (hdy : 1 ≤ dy) (hdd : dy ≤ dx) :
    ∀ (n fuel : Nat) (xx yy t r : Int) (L : List (Int × Int)),
      n + 1 ≤ fuel → xe = xx + (n : Int) * xstep → t = r * dx - (n : Int) * dy - dx / 2 →
      t ≤ 0 → -dx < t + dx / 2 →
      ∃ pts, lineLoopX record xe xstep ystep dx dy fuel xx yy t L = some (L ++ pts) ∧
        pts.map Prod.fst = (List.range (n + 1)).map (fun i : Nat => xx + (i : Int) * xstep) ∧
        pts.head? = some (xx, yy) ∧ pts.getLast? = some (xe, yy + r * ystep) ∧
        List.Chain' adjacent pts := by
  intro n
  induction n with
  | zero =>
    intro fuel xx yy t r L hf hx ht h0 h1
    obtain ⟨f, rfl⟩ : ∃ f, fuel = f + 1 := ⟨fuel - 1, by omega⟩
    have hxe : xx = xe := by simp at hx; exact hx.symm
    have hr : r = 0 := by
      simp only [Nat.cast_zero, zero_mul, sub_zero] at ht
      by_contra hne
      rcases Int.lt_or_gt_of_ne hne with h | h
      · have : r * dx ≤ -1 * dx := Int.mul_le_mul_of_nonneg_right (by omega) (by omega)
        omega
      · have : 1 * dx ≤ r * dx := Int.mul_le_mul_of_nonneg_right (by omega) (by omega)
        omega
    refine ⟨[(xx, yy)], ?_, ?_, rfl, ?_, List.chain'_singleton _⟩
    · simp [lineLoopX, record, hxe]
    · simp [List.range_succ]
    · simp [hxe, hr]
  | succ n ih =>
    intro fuel xx yy t r L hf hx ht h0 h1
    obtain ⟨f, rfl⟩ : ∃ f, fuel = f + 1 := ⟨fuel - 1, by omega⟩
    have e1 : ((n + 1 : Nat) : Int) * xstep = (n : Int) * xstep + xstep := by push_cast; ring
    have e2 : ((n + 1 : Nat) : Int) * dy = (n : Int) * dy + dy := by push_cast; ring
    have e3 : (r - 1) * dx = r * dx - dx := by ring
    rw [e1] at hx
    rw [e2] at ht
    have hne : ¬ xx = xe := by
      have hn : 0 ≤ (n : Int) := Int.ofNat_nonneg n
      rcases hxs with h | h <;> subst h <;> omega
    by_cases hc : t + dy ≥ 0
    · obtain ⟨pts, hp, hm, hh, hl, hch⟩ := ih f (xx + xstep) (yy + ystep) (t + dy - dx) (r - 1)
        (L ++ [(xx, yy)]) (by omega) (by omega) (by omega) (by omega) (by omega)
      refine ⟨(xx, yy) :: pts, ?_, ?_, rfl, ?_, ?_⟩
      · simp only [lineLoopX, record, Option.some_bind, if_neg hne, if_pos hc]
        rw [hp, List.append_assoc]
        rfl
      · rw [List.map_cons, hm, progression_succ]
      · rw [getLast_cons_of_some _ _ _ hl]
        congr 2
        ring
      · rw [List.chain'_cons']
        refine ⟨?_, hch⟩
        intro y hy
        rw [hh] at hy
        cases hy
        unfold adjacent
        simp only [add_sub_cancel_left]
        rcases hxs with h | h <;> rcases hys with h' | h' <;> subst h <;> subst h' <;> decide
    · obtain ⟨pts, hp, hm, hh, hl, hch⟩ := ih f (xx + xstep) yy (t + dy) r
        (L ++ [(xx, yy)]) (by omega) (by omega) (by omega) (by omega) (by omega)
      refine ⟨(xx, yy) :: pts, ?_, ?_, rfl, ?_, ?_⟩
      · simp only [lineLoopX, record, Option.some_bind, if_neg hne, if_neg hc]
        rw [hp, List.append_assoc]
        rfl
      · rw [List.map_cons, hm, progression_succ]
      · rw [getLast_cons_of_some _ _ _ hl]
      · rw [List.chain'_cons']
        refine ⟨?_, hch⟩
        intro y hy
        rw [hh] at hy
        cases hy
        unfold adjacent
        simp only [add_sub_cancel_left, sub_self]
        rcases hxs with h | h <;> subst h <;> decide

/-- The loop for `dx <= dy` from a state `n` major steps and `r` minor steps
before the end point. -/
theorem lineLoopY_record (ye xstep ystep dx dy : Int) (hxs : xstep = 1 ∨ xstep = -1)
    (hys : ystep = 1 ∨ ystep = -1) (hdx : 1 ≤ dx) (hdd : dx ≤ dy) :
    ∀ (n fuel : Nat) (xx yy t r : Int) (L : List (Int × Int)),
      n + 1 ≤ fuel → ye = yy + (n : Int) * ystep → t = r * dy - (n : Int) * dx - dy / 2 →
      t ≤ 0 → -dy < t + dy / 2 →
      ∃ pts, lineLoopY record ye xstep ystep dx dy fuel xx yy t L = some (L ++ pts) ∧
        pts.map Prod.snd = (List.range (n + 1)).map (fun i : Nat => yy + (i : Int) * ystep) ∧
        pts.head? = some (xx, yy) ∧ pts.getLast? = some (xx + r * xstep, ye) ∧
        List.Chain' adjacent pts := by
  intro n
  induction n with
  | zero =>
    intro fuel xx yy t r L hf hx ht h0 h1
    obtain ⟨f, rfl⟩ : ∃ f, fuel = f + 1 := ⟨fuel - 1, by omega⟩
    have hye : yy = ye := by simp at hx; exact hx.symm
    have hr : r = 0 := by
      simp only [Nat.cast_zero, zero_mul, sub_zero] at ht
      by_contra hne
      rcases Int.lt_or_gt_of_ne hne with h | h
      · have : r * dy ≤ -1 * dy := Int.mul_le_mul_of_nonneg_right (by omega) (by omega)
        omega
      · have : 1 * dy ≤ r * dy := Int.mul_le_mul_of_nonneg_right (by omega) (by omega)
        omega
    refine ⟨[(xx, yy)], ?_, ?_, rfl, ?_, List.chain'_singleton _⟩
    · simp [lineLoopY, record, hye]
    · simp [List.range_succ]
    · simp [hye, hr]
  | succ n ih =>
    intro fuel xx yy t r L hf hx ht h0 h1
    obtain ⟨f, rfl⟩ : ∃ f, fuel = f + 1 := ⟨fuel - 1, by omega⟩
    have e1 : ((n + 1 : Nat) : Int) * ystep = (n : Int) * ystep + ystep := by push_cast; ring
    have e2 : ((n + 1 : Nat) : Int) * dx = (n : Int) * dx + dx := by push_cast; ring
    have e3 : (r - 1) * dy = r * dy - dy := by ring
    rw [e1] at hx
    rw [e2] at ht
    have hne : ¬ yy = ye := by
      have hn : 0 ≤ (n : Int) := Int.ofNat_nonneg n
      rcases hys with h | h <;> subst h <;> omega
    by_cases hc : t + dx ≥ 0
    · obtain ⟨pts, hp, hm, hh, hl, hch⟩ := ih f (xx + xstep) (yy + ystep) (t + dx - dy) (r - 1)
        (L ++ [(xx, yy)]) (by omega) (by omega) (by omega) (by omega) (by omega)
      refine ⟨(xx, yy) :: pts, ?_, ?_, rfl, ?_, ?_⟩
      · simp only [lineLoopY, record, Option.some_bind, if_neg hne, if_pos hc]
        rw [hp, List.append_assoc]
        rfl
      · rw [List.map_cons, hm, progression_succ]
      · rw [getLast_cons_of_some _ _ _ hl]
        congr 2
        ring
      · rw [List.chain'_cons']
        refine ⟨?_, hch⟩
        intro y hy
        rw [hh] at hy
        cases hy
        unfold adjacent
        simp only [add_sub_cancel_left]
        rcases hxs with h | h <;> rcases hys with h' | h' <;> subst h <;> subst h' <;> decide
    · obtain ⟨pts, hp, hm, hh, hl, hch⟩ := ih f xx (yy + ystep) (t + dx) r
        (L ++ [(xx, yy)]) (by omega) (by omega) (by omega) (by omega) (by omega)
      refine ⟨(xx, yy) :: pts, ?_, ?_, rfl, ?_, ?_⟩
      · simp only [lineLoopY, record, Option.some_bind, if_neg hne, if_neg hc]
        rw [hp, List.append_assoc]
        rfl
      · rw [List.map_cons, hm, progression_succ]
      · rw [getLast_cons_of_some _ _ _ hl]
      · rw [List.chain'_cons']
        refine ⟨?_, hch⟩
        intro y hy
        rw [hh] at hy
        cases hy
        unfold adjacent
        simp only [add_sub_cancel_left, sub_self]
        rcases hys with h | h <;> subst h <;> decide

/-- A `for` loop that records one pixel per round. -/
theorem forUpTo_record (px py : Int → Int) (n : Nat) : ∀ (lo : Int) (L : List (Int × Int)),
    forUpTo (fun j s => record (px j) (py j) s) n lo L =
      some (L ++ (List.range n).map (fun i : Nat => (px (lo + (i : Int)), py (lo + (i : Int))))) := by
  induction n with
  | zero => intro lo L; simp [forUpTo]
  | succ n ih =>
    intro lo L
    have hb : record (px lo) (py lo) L = some (L ++ [(px lo, py lo)]) := rfl
    rw [forUpTo, hb, Option.some_bind, ih, List.range_succ_eq_map, List.map_cons, List.map_map,
      List.append_assoc]
    congr 2
    simp only [List.singleton_append, Nat.cast_zero, add_zero, List.cons.injEq, true_and]
    apply List.map_congr_left
    intro i _
    simp only [Function.comp, Nat.succ_eq_add_one]
    push_cast
    rw [add_assoc, add_comm 1 (i : Int)]

/-- A list whose image under `f` is the run `a, a + s, ..., a + n s`. -/
theorem progression_facts {α : Type} (pts : List α) (f : α → Int) (a s : Int) (n : Nat)
    (hs : s = 1 ∨ s = -1)
    (hm : pts.map f = (List.range (n + 1)).map (fun i : Nat => a + (i : Int) * s)) :
    pts.length = n + 1 ∧ pts.Nodup ∧
      ∀ v, min a (a + (n : Int) * s) ≤ v → v ≤ max a (a + (n : Int) * s) →
        ∃! p, p ∈ pts ∧ f p = v := by
  have hinj : Function.Injective (fun i : Nat => a + (i : Int) * s) := by
    intro i j hij
    simp only at hij
    rcases hs with h | h <;> subst h <;> omega
  have hnd : (pts.map f).Nodup := by
    rw [hm]
    exact (List.nodup_range (n + 1)).map hinj
  refine ⟨?_, List.Nodup.of_map f hnd, ?_⟩
  · have := congrArg List.length hm
    simpa using this
  · intro v h1 h2
    have hv : v ∈ pts.map f := by
      rw [hm, List.mem_map]
      refine ⟨((v - a) * s).toNat, ?_, ?_⟩
      · rw [List.mem_range]
        rcases hs with h | h <;> subst h <;> omega
      · rcases hs with h | h <;> subst h <;> omega
    obtain ⟨p, hp, hfp⟩ := List.mem_map.mp hv
    refine ⟨p, ⟨hp, hfp⟩, ?_⟩
    rintro q ⟨hq, hfq⟩
    exact List.inj_on_of_nodup_map hnd hq hp (hfq.trans hfp.symm)

theorem lineShape_swap (pts : List (Int × Int)) (xs ys xe ye : Int)
    (h : lineShape pts xs ys xe ye) : lineShape pts xe ye xs ys := by
  obtain ⟨h1, h2, h3, h4, h5, h6, h7⟩ := h
  have ex : (xs - xe).natAbs = (xe - xs).natAbs := by omega
  have ey : (ys - ye).natAbs = (ye - ys).natAbs := by omega
  unfold lineShape
  rw [ex, ey, min_comm xe xs, max_comm xe xs, min_comm ye ys, max_comm ye ys]
  exact ⟨h1, h2, h4, h3, h5, h6, h7⟩

theorem lineShape_of_x (pts : List (Int × Int)) (xs ys xe ye : Int) (n : Nat) (s : Int)
    (hs : s = 1 ∨ s = -1) (hx : xe = xs + (n : Int) * s) (hd : (ye - ys).natAbs < n)
    (hm : pts.map Prod.fst = (List.range (n + 1)).map (fun i : Nat => xs + (i : Int) * s))
    (hh : pts.head? = some (xs, ys)) (hl : pts.getLast? = some (xe, ye))
    (hc : List.Chain' adjacent pts) : lineShape pts xs ys xe ye := by
  obtain ⟨p1, p2, p3⟩ := progression_facts pts Prod.fst xs s n hs hm
  have hn : (xe - xs).natAbs = n := by rcases hs with h | h <;> subst h <;> omega
  refine ⟨?_, p2, List.mem_of_mem_head? hh, List.mem_of_mem_getLast? hl, hc, ?_, ?_⟩
  · rw [p1, hn, max_eq_left (le_of_lt hd)]
  · intro _ v h1 h2
    exact p3 v (by rw [← hx]; exact h1) (by rw [← hx]; exact h2)
  · intro h
    omega

theorem lineShape_of_y (pts : List (Int × Int)) (xs ys xe ye : Int) (n : Nat) (s : Int)
    (hs : s = 1 ∨ s = -1) (hy : ye = ys + (n : Int) * s) (hd : (xe - xs).natAbs ≤ n)
    (hm : pts.map Prod.snd = (List.range (n + 1)).map (fun i : Nat => ys + (i : Int) * s))
    (hh : pts.head? = some (xs, ys)) (hl : pts.getLast? = some (xe, ye))
    (hc : List.Chain' adjacent pts) : lineShape pts xs ys xe ye := by
  obtain ⟨p1, p2, p3⟩ := progression_facts pts Prod.snd ys s n hs hm
  have hn : (ye - ys).natAbs = n := by rcases hs with h | h <;> subst h <;> omega
  refine ⟨?_, p2, List.mem_of_mem_head? hh, List.mem_of_mem_getLast? hl, hc, ?_, ?_⟩
  · rw [p1, hn, max_eq_right hd]
  · intro h
    omega
  · intro _ v h1 h2
    exact p3 v (by rw [← hy]; exact h1) (by rw [← hy]; exact h2)

/-- The pixels recorded by an axis-aligned `for` loop along a column. -/
theorem column_run (x lo : Int) (n : Nat) :
    lineShape ((List.range (n + 1)).map (fun i : Nat => (x, lo + (i : Int)))) x lo x
      (lo + (n : Int)) := by
  apply lineShape_of_y _ x lo x (lo + n) n 1 (Or.inl rfl) (by ring) (by simp)
  · rw [List.map_map]
    apply List.map_congr_left
    intro i _
    simp
  · simp [List.range_succ_eq_map]
  · simp [List.range_succ]
  · rw [List.chain'_map, List.chain'_range_succ]
    intro m _
    unfold adjacent
    simp only [sub_self, Int.natAbs_zero, Nat.zero_le, true_and, Nat.succ_eq_add_one]
    push_cast
    omega

/-- The pixels recorded by an axis-aligned `for` loop along a row. -/
theorem row_run (y lo : Int) (n : Nat) (hn : 0 < n) :
    lineShape ((List.range (n + 1)).map (fun i : Nat => (lo + (i : Int), y))) lo y
      (lo + (n : Int)) y := by
  apply lineShape_of_x _ lo y (lo + n) y n 1 (Or.inl rfl) (by ring) (by simpa using hn)
  · rw [List.map_map]
    apply List.map_congr_left
    intro i _
    simp
  · simp [List.range_succ_eq_map]
  · simp [List.range_succ]
  · rw [List.chain'_map, List.chain'_range_succ]
    intro m _
    unfold adjacent
    simp only [sub_self, Int.natAbs_zero, Nat.zero_le, and_true, Nat.succ_eq_add_one]
    push_cast
    omega

theorem forLoop_row (y lo hi : Int) (h : lo < hi) :
    ∃ pts, forLoop lo hi (fun j s => record j y s) [] = some pts ∧ lineShape pts lo y hi y := by
  obtain ⟨m, hm⟩ : ∃ m : Nat, hi = lo + (m : Int) := ⟨(hi - lo).toNat, by omega⟩
  have hn : (hi + 1 - lo).toNat = m + 1 := by omega
  have e := forUpTo_record (fun j => j) (fun _ => y) (m + 1) lo []
  simp only [List.nil_append] at e
  refine ⟨(List.range (m + 1)).map (fun i : Nat => (lo + (i : Int), y)), ?_, ?_⟩
  · unfold forLoop
    rw [hn]
    exact e
  · rw [hm]
    exact row_run y lo m (by omega)

theorem forLoop_col (x lo hi : Int) (h : lo ≤ hi) :
    ∃ pts, forLoop lo hi (fun j s => record x j s) [] = some pts ∧ lineShape pts x lo x hi := by
  obtain ⟨m, hm⟩ : ∃ m : Nat, hi = lo + (m : Int) := ⟨(hi - lo).toNat, by omega⟩
  have hn : (hi + 1 - lo).toNat = m + 1 := by omega
  have e := forUpTo_record (fun _ => x) (fun j => j) (m + 1) lo []
  simp only [List.nil_append] at e
  refine ⟨(List.range (m + 1)).map (fun i : Nat => (x, lo + (i : Int))), ?_, ?_⟩
  · unfold forLoop
    rw [hn]
    exact e
  · rw [hm]
    exact column_run x lo m

theorem general_X (xs ys xe ye xstep ystep dx dy : Int) (hxs : xstep = 1 ∨ xstep = -1)
    (hys : ystep = 1 ∨ ystep = -1) (hxe : xe = xs + dx * xstep) (hye : ye = ys + dy * ystep)
    (hdy : 1 ≤ dy) (hdd : dy < dx) (fuel : Nat) (hf : dx.toNat + 1 ≤ fuel) :
    ∃ pts, lineLoopX record xe xstep ystep dx dy fuel xs ys (-(dx >>> (1 : Nat))) [] = some pts ∧
      lineShape pts xs ys xe ye := by
  have hn : ((dx.toNat : Nat) : Int) = dx := by omega
  have hsh : dx >>> (1 : Nat) = dx / 2 := by
    rw [Int.shiftRight_eq_div_pow]
    rfl
  obtain ⟨pts, hp, hm, hh, hl, hc⟩ := lineLoopX_record xe xstep ystep dx dy hxs hys hdy
    (le_of_lt hdd) dx.toNat fuel xs ys (-(dx >>> (1 : Nat))) dy [] hf (by rw [hn]; exact hxe)
    (by rw [hn, hsh]; ring) (by rw [hsh]; omega) (by rw [hsh]; omega)
  rw [List.nil_append] at hp
  refine ⟨pts, hp, ?_⟩
  apply lineShape_of_x pts xs ys xe ye dx.toNat xstep hxs (by rw [hn]; exact hxe) ?_ hm hh
    (by rw [hl, hye]) hc
  rcases hys with h | h <;> subst h <;> omega

theorem general_Y (xs ys xe ye xstep ystep dx dy : Int) (hxs : xstep = 1 ∨ xstep = -1)
    (hys : ystep = 1 ∨ ystep = -1) (hxe : xe = xs + dx * xstep) (hye : ye = ys + dy * ystep)
    (hdx : 1 ≤ dx) (hdd : dx ≤ dy) (fuel : Nat) (hf : dy.toNat + 1 ≤ fuel) :
    ∃ pts, lineLoopY record ye xstep ystep dx dy fuel xs ys (-(dy >>> (1 : Nat))) [] = some pts ∧
      lineShape pts xs ys xe ye := by
  have hn : ((dy.toNat : Nat) : Int) = dy := by omega
  have hsh : dy >>> (1 : Nat) = dy / 2 := by
    rw [Int.shiftRight_eq_div_pow]
    rfl
  obtain ⟨pts, hp, hm, hh, hl, hc⟩ := lineLoopY_record ye xstep ystep dx dy hxs hys hdx
    hdd dy.toNat fuel xs ys (-(dy >>> (1 : Nat))) dx [] hf (by rw [hn]; exact hye)
    (by rw [hn, hsh]; ring) (by rw [hsh]; omega) (by rw [hsh]; omega)
  rw [List.nil_append] at hp
  refine ⟨pts, hp, ?_⟩
  apply lineShape_of_y pts xs ys xe ye dy.toNat ystep hys (by rw [hn]; exact hye) ?_ hm hh
    (by rw [hl, hxe]) hc
  rcases hxs with h | h <;> subst h <;> omega

theorem general_branch (xs ys xe ye xstep ystep dx dy : Int) (hxs : xstep = 1 ∨ xstep = -1)
    (hys : ystep = 1 ∨ ystep = -1) (hxe : xe = xs + dx * xstep) (hye : ye = ys + dy * ystep)
    (hdx : 1 ≤ dx) (hdy : 1 ≤ dy) (fuel : Nat) (hf : max dx.toNat dy.toNat + 1 ≤ fuel) :
    ∃ pts, (if dx > dy then
        lineLoopX record xe xstep ystep dx dy fuel xs ys (-(dx >>> (1 : Nat))) []
      else lineLoopY record ye xstep ystep dx dy fuel xs ys (-(dy >>> (1 : Nat))) []) = some pts ∧
      lineShape pts xs ys xe ye := by
  by_cases h : dx > dy
  · rw [if_pos h]
    exact general_X xs ys xe ye xstep ystep dx dy hxs hys hxe hye hdy h fuel
      (by have := le_max_left dx.toNat dy.toNat; omega)
  · rw [if_neg h]
    exact general_Y xs ys xe ye xstep ystep dx dy hxs hys hxe hye hdx (by omega) fuel
      (by have := le_max_right dx.toNat dy.toNat; omega)

/-- The pixels set by `Line` on an unbounded grid. -/
theorem linePixels_shape (xs ys xe ye : Int) (fuel : Nat)
    (hf : max (xe - xs).natAbs (ye - ys).natAbs + 1 ≤ fuel) :
    ∃ pts, linePixels fuel xs ys xe ye = some pts ∧ lineShape pts xs ys xe ye := by
  have t1 : (1 : Int) > 0 := by decide
  have t2 : ¬ ((1 : Int) < 0) := by decide
  have t3 : ¬ ((-1 : Int) > 0) := by decide
  have t4 : (-1 : Int) < 0 := by decide
  unfold linePixels Line
  rcases lt_trichotomy xs xe with hx | hx | hx <;> rcases lt_trichotomy ys ye with hy | hy | hy
  · have c1 : xe > xs := hx
    have c2 : ye > ys := hy
    have c3 : ¬ (xe - xs = 0 ∧ ye - ys = 0) := by omega
    have c4 : ¬ (xe - xs = 0) := by omega
    have c5 : ¬ (ye - ys = 0) := by omega
    simp only [if_pos c1, if_pos c2, if_neg c3, if_neg c4, if_neg c5]
    exact general_branch xs ys xe ye 1 1 (xe - xs) (ye - ys) (Or.inl rfl) (Or.inl rfl)
      (by ring) (by ring) (by omega) (by omega) fuel (by omega)
  · subst hy
    have c1 : xe > xs := hx
    have c2 : ¬ (ys > ys) := lt_irrefl _
    have c3 : ¬ (xe - xs = 0 ∧ ys - ys = 0) := by omega
    have c4 : ¬ (xe - xs = 0) := by omega
    have c5 : ys - ys = 0 := sub_self _
    simp only [if_pos c1, if_neg c2, if_neg c3, if_neg c4, if_pos c5, if_pos t1, if_neg t2]
    obtain ⟨pts, e, h⟩ := forLoop_row ys xs xe hx
    exact ⟨pts, by rw [e]; rfl, h⟩
  · have c1 : xe > xs := hx
    have c2 : ¬ (ye > ys) := by omega
    have c3 : ¬ (xe - xs = 0 ∧ ys - ye = 0) := by omega
    have c4 : ¬ (xe - xs = 0) := by omega
    have c5 : ¬ (ys - ye = 0) := by omega
    simp only [if_pos c1, if_neg c2, if_neg c3, if_neg c4, if_neg c5]
    exact general_branch xs ys xe ye 1 (-1) (xe - xs) (ys - ye) (Or.inl rfl) (Or.inr rfl)
      (by ring) (by ring) (by omega) (by omega) fuel (by omega)
  · subst hx
    have c1 : ¬ (xs > xs) := lt_irrefl _
    have c2 : ye > ys := hy
    have c3 : ¬ (xs - xs = 0 ∧ ye - ys = 0) := by omega
    have c4 : xs - xs = 0 := sub_self _
    simp only [if_neg c1, if_pos c2, if_neg c3, if_pos c4, if_pos t1, if_neg t2]
    obtain ⟨pts, e, h⟩ := forLoop_col xs ys ye (le_of_lt hy)
    exact ⟨pts, by rw [e]; rfl, h⟩
  · subst hx
    subst hy
    have c1 : ¬ (xs > xs) := lt_irrefl _
    have c2 : ¬ (ys > ys) := lt_irrefl _
    have c3 : xs - xs = 0 ∧ ys - ys = 0 := ⟨sub_self _, sub_self _⟩
    simp only [if_neg c1, if_neg c2, if_pos c3]
    exact ⟨[(xs, ys)], rfl, by simpa [List.range_succ] using column_run xs ys 0⟩
  · subst hx
    have c1 : ¬ (xs > xs) := lt_irrefl _
    have c2 : ¬ (ye > ys) := by omega
    have c3 : ¬ (xs - xs = 0 ∧ ys - ye = 0) := by omega
    have c4 : xs - xs = 0 := sub_self _
    simp only [if_neg c1, if_neg c2, if_neg c3, if_pos c4, if_neg t3, if_pos t4]
    obtain ⟨pts, e, h⟩ := forLoop_col xs ye ys (le_of_lt hy)
    exact ⟨pts, by rw [Option.some_bind, e], lineShape_swap _ _ _ _ _ h⟩
  · have c1 : ¬ (xe > xs) := by omega
    have c2 : ye > ys := hy
    have c3 : ¬ (xs - xe = 0 ∧ ye - ys = 0) := by omega
    have c4 : ¬ (xs - xe = 0) := by omega
    have c5 : ¬ (ye - ys = 0) := by omega
    simp only [if_neg c1, if_pos c2, if_neg c3, if_neg c4, if_neg c5]
    exact general_branch xs ys xe ye (-1) 1 (xs - xe) (ye - ys) (Or.inr rfl) (Or.inl rfl)
      (by ring) (by ring) (by omega) (by omega) fuel (by omega)
  · subst hy
    have c1 : ¬ (xe > xs) := by omega
    have c2 : ¬ (ys > ys) := lt_irrefl _
    have c3 : ¬ (xs - xe = 0 ∧ ys - ys = 0) := by omega
    have c4 : ¬ (xs - xe = 0) := by omega
    have c5 : ys - ys = 0 := sub_self _
    simp only [if_neg c1, if_neg c2, if_neg c3, if_neg c4, if_pos c5, if_neg t3, if_pos t4]
    obtain ⟨pts, e, h⟩ := forLoop_row ys xe xs hx
    exact ⟨pts, by rw [Option.some_bind, e], lineShape_swap _ _ _ _ _ h⟩
  · have c1 : ¬ (xe > xs) := by omega
    have c2 : ¬ (ye > ys) := by omega
    have c3 : ¬ (xs - xe = 0 ∧ ys - ye = 0) := by omega
    have c4 : ¬ (xs - xe = 0) := by omega
    have c5 : ¬ (ys - ye = 0) := by omega
    simp only [if_neg c1, if_neg c2, if_neg c3, if_neg c4, if_neg c5]
    exact general_branch xs ys xe ye (-1) (-1) (xs - xe) (ys - ye) (Or.inr rfl) (Or.inr rfl)
      (by ring) (by ring) (by omega) (by omega) fuel (by omega)

set_option maxRecDepth 100000 in
/-- C22, failing input: `Line` passes its coordinates to `setPixel` unchanged.
`Line (-1, 0, 5, 0, color)` sets the pixels `(-1, 0), (0, 0), ..., (5, 0)`; the
first of them is outside the arrays, so on the 320 by 180 arrays the call has
no defined result.  `Box (400, 0, 500, 10, color)` clamps only `x_max`, to 319,
and then calls `Line (400, 0, 319, 0, color)`, which runs from column 319 up to
column 400. -/
theorem C22_line_not_clipped :
    linePixels 7 (-1) 0 5 0 =
        some [(-1, 0), (0, 0), (1, 0), (2, 0), (3, 0), (4, 0), (5, 0)] ∧
      (setPixel 320 180 (-1) 0 0xFFFFFF GRAM.zero).isNone = true ∧
      (LineGRAM 320 180 7 (-1) 0 5 0 0xFFFFFF GRAM.zero).isNone = true ∧
      (linePixels 82 400 0 319 0).map List.getLast? = some (some (400, 0)) ∧
      (LineGRAM 320 180 82 400 0 319 0 0xFFFFFF GRAM.zero).isNone = true ∧
      (Box 320 180 82 400 0 500 10 0xFFFFFF GRAM.zero).isNone = true := by
  decide

/-- C27: for every pair of integer end points `Line` ends (any bound of at
least `max (|xe - xs|, |ye - ys|) + 1` rounds on its loops is enough) and, on an
unbounded grid, sets exactly `max (|xe - xs|, |ye - ys|) + 1` distinct pixels,
among them both end points; consecutive pixels differ by at most 1 in each
coordinate, and there is exactly one pixel for each coordinate value along the
major axis (`x` when `|ye - ys| < |xe - xs|`, otherwise `y`). -/
theorem C27_line_pixels (xs ys xe ye : Int) (fuel : Nat)
    (hf : max (xe - xs).natAbs (ye - ys).natAbs + 1 ≤ fuel) :
    ∃ pts, linePixels fuel xs ys xe ye = some pts ∧
      pts.length = max (xe - xs).natAbs (ye - ys).natAbs + 1 ∧ pts.Nodup ∧
      (xs, ys) ∈ pts ∧ (xe, ye) ∈ pts ∧ List.Chain' adjacent pts ∧
      ((ye - ys).natAbs < (xe - xs).natAbs →
        ∀ v, min xs xe ≤ v → v ≤ max xs xe → ∃! p, p ∈ pts ∧ p.1 = v) ∧
      ((xe - xs).natAbs ≤ (ye - ys).natAbs →
        ∀ v, min ys ye ≤ v → v ≤ max ys ye → ∃! p, p ∈ pts ∧ p.2 = v) :=
  linePixels_shape xs ys xe ye fuel hf

/-- Instance of C27: the line from `(0, 0)` to `(5, -2)`, with its pixels. -/
theorem C27_line_pixels_witness :
    linePixels 6 0 0 5 (-2) = some [(0, 0), (1, -1), (2, -1), (3, -1), (4, -2), (5, -2)] ∧
    ∃ pts, linePixels 6 0 0 5 (-2) = some pts ∧
      pts.length = max ((5 : Int) - 0).natAbs ((-2 : Int) - 0).natAbs + 1 ∧ pts.Nodup ∧
      ((0 : Int), (0 : Int)) ∈ pts ∧ ((5 : Int), (-2 : Int)) ∈ pts ∧
      List.Chain' adjacent pts ∧
      (((-2 : Int) - 0).natAbs < ((5 : Int) - 0).natAbs →
        ∀ v, min (0 : Int) 5 ≤ v → v ≤ max (0 : Int) 5 → ∃! p, p ∈ pts ∧ p.1 = v) ∧
      (((5 : Int) - 0).natAbs ≤ ((-2 : Int) - 0).natAbs →
        ∀ v, min (0 : Int) (-2) ≤ v → v ≤ max (0 : Int) (-2) → ∃! p, p ∈ pts ∧ p.2 = v) :=
  ⟨by decide, C27_line_pixels 0 0 5 (-2) 6 (by decide)⟩

end Graph

namespace Display

open Dial (GRAM)

end Display

namespace Dial

/-- The loop over all columns that paints rows 0 and 1. -/
theorem rows_fold (c : Nat × Nat × Nat) (n : Nat) : ∀ (g : GRAM) (i j : Nat),
    Graph.GRAM.pixel ((List.range n).foldl
        (fun g xg => Graph.GRAM.setRGB (Graph.GRAM.setRGB g xg 0 c) xg 1 c) g) i j =
      if i < n ∧ (j = 0 ∨ j = 1) then c else Graph.GRAM.pixel g i j := by
  induction n with
  | zero =>
    intro g i j
    rw [if_neg (by omega)]
    rfl
  | succ n ih =>
    intro g i j
    rw [List.range_succ, List.foldl_append]
    simp only [List.foldl_cons, List.foldl_nil]
    rw [Graph.pixel_setRGB, Graph.pixel_setRGB, ih]
    by_cases h1 : i = n ∧ j = 1
    · rw [if_pos h1, if_pos (by omega)]
    · rw [if_neg h1]
      by_cases h2 : i = n ∧ j = 0
      · rw [if_pos h2, if_pos (by omega)]
      · rw [if_neg h2]
        by_cases h3 : i < n ∧ (j = 0 ∨ j = 1)
        · rw [if_pos h3, if_pos (by omega)]
        · rw [if_neg h3, if_neg (by omega)]

/-- After the clearance loops every pixel of rows 0 and 1 holds the low byte of
`CL_DIAL_BG` in all three planes. -/
theorem clearance_rows (cfg : Config) (C : Nat) (g : GRAM) (i j : Nat) (hi : i < cfg.Nx)
    (hj : j = 0 ∨ j = 1) :
    Graph.GRAM.pixel (clearance cfg C g) i j = (C % 256, C % 256, C % 256) := by
  unfold clearance
  simp only
  rw [rows_fold, if_pos ⟨hi, hj⟩]

/-- C24, failing input: the clearance loops store the whole colour constant
into each plane instead of its red, green and blue bytes (which lines 825 to
827 split off as `dcR`, `dcG`, `dcB`), so each plane receives the low byte.
With `CL_DIAL_BG = 0xFF0000` (red) the pixel `(5, 0)` ends as `(0, 0, 0)` for
every prior content of the planes, while the bytes of the colour are
`(0xFF, 0, 0)`; with `CL_DIAL_BG = 0x0000FF` (blue) it ends as
`(0xFF, 0xFF, 0xFF)`. -/
theorem C24_border_low_byte (g : GRAM) :
    Graph.GRAM.pixel (clearance CUSTOM_DISP 0xFF0000 g) 5 0 = (0, 0, 0) ∧
      Graph.channels 0xFF0000 = (0xFF, 0, 0) ∧
      Graph.GRAM.pixel (clearance CUSTOM_DISP 0x0000FF g) 5 0 = (0xFF, 0xFF, 0xFF) ∧
      Graph.channels 0x0000FF = (0, 0, 0xFF) :=
  ⟨clearance_rows CUSTOM_DISP 0xFF0000 g 5 0 (by decide) (Or.inl rfl), by decide,
    clearance_rows CUSTOM_DISP 0x0000FF g 5 0 (by decide) (Or.inl rfl), by decide⟩

end Dial

/-! ## Claims on the divider registers, the two oscillator paths and the tick ranges -/

namespace Si5351

/-- C25, failing input: with the 25 MHz crystal and zero correction a request
of 1500 Hz gives `M = 1800`, `R = 7`, a VCO frequency of 345,600,000 Hz and the
feedback integer `a = 13`, below the range `15 -- 90` stated in the header
comments of `Set_Carrier_Freq` and `Set_VFO_Freq`.  For every request the
feedback integer lies in `13 .. 44` and the output divider `M` in
`{4} ∪ [6, 1800]`. -/
theorem C25_feedback_below_documented :
    (DoTheMath SiState.boot 1500).2.a = 13 ∧ (DoTheMath SiState.boot 1500).2.M = 1800 ∧
      (DoTheMath SiState.boot 1500).2.R = 7 ∧ (DoTheMath SiState.boot 1500).1 = 345600000 ∧
      ∀ freq : Nat,
        13 ≤ (DoTheMath SiState.boot freq).2.a ∧ (DoTheMath SiState.boot freq).2.a ≤ 44 ∧
        ((DoTheMath SiState.boot freq).2.M = 4 ∨
          (6 ≤ (DoTheMath SiState.boot freq).2.M ∧ (DoTheMath SiState.boot freq).2.M ≤ 1800)) := by
  refine ⟨by decide, by decide, by decide, by decide, ?_⟩
  intro freq
  obtain ⟨h1, h2⟩ := DoTheMath_vco_range SiState.boot freq
  have hx : SiState.boot.xFreq = 25000000 := rfl
  rw [DoTheMath_a, hx, DoTheMath_M]
  refine ⟨by omega, by omega, ?_⟩
  rcases selectMR_cases (clampFreq (applyCorrection SiState.boot.xtalCorr freq)) with
    h | h | h | h | h | h | h | h | h | h | h | h | h | h | h | h
  all_goals
    have hc := by first | exact h.2.2 | exact h.2
    rw [hc]
    decide

theorem regValue_cmd (r' d : Nat) (s : SiState) (r : Nat) :
    regValue (cmd_si5351 r' d s) r = if r' % 256 = r then some (d % 256) else regValue s r := by
  unfold regValue
  rw [cmd_si5351_bus, lastWrite_append]
  simp only [lastWrite]
  split_ifs <;> rfl

theorem regValue_cmds (ws : List (Nat × Nat)) (s : SiState) (r : Nat) :
    regValue (cmds ws s) r =
      (lastWrite r (ws.map fun w => (w.1 % 256, w.2 % 256))).or (regValue s r) := by
  unfold regValue
  rw [cmds_bus, lastWrite_append]
  cases lastWrite r (ws.map fun w => (w.1 % 256, w.2 % 256)) <;> rfl

theorem regValue_ite (c : Prop) [Decidable c] (s1 s2 : SiState) (r : Nat) :
    regValue (if c then s1 else s2) r = if c then regValue s1 r else regValue s2 r := by
  split_ifs <;> rfl

theorem regValue_oMc (s : SiState) (m r : Nat) : regValue { s with oMc := m } r = regValue s r :=
  rfl

theorem regValue_oMf (s : SiState) (m r : Nat) : regValue { s with oMf := m } r = regValue s r :=
  rfl

/-- The divider registers after an enabled carrier call. -/
theorem Set_Carrier_Freq_blocks (freq MODE : Nat) (dr : clk_drive) (RST : Nat) (st : SiState)
    (hM : MODE ≠ 0) :
    regBlock (Set_Carrier_Freq freq MODE dr RST st) 42 =
        (msBytes (DoTheMath st freq).2.M (DoTheMath st freq).2.R).map some ∧
      regBlock (Set_Carrier_Freq freq MODE dr RST st) 50 =
        (msBytes (DoTheMath st freq).2.M (DoTheMath st freq).2.R).map some := by
  unfold Set_Carrier_Freq regBlock msBytes
  simp only [hM, ne_eq, not_false_eq_true, if_true, DoTheMath_ite, DoTheMath_cmd, DoTheMath_cmds,
    ite_self, C_OSC_QUAD_R, C_OSC_CLK0, C_OSC_CLK1]
  generalize (DoTheMath st freq).2 = SI
  by_cases h4 : SI.M = 4
  · simp [h4, List.range_succ, regValue_cmd, regValue_cmds, regValue_ite, regValue_oMc,
      lastWrite]
  · simp [h4, List.range_succ, regValue_cmd, regValue_cmds, regValue_ite, regValue_oMc,
      lastWrite]

/-- The divider registers after a VFO call. -/
theorem Set_VFO_Freq_block (freq : Nat) (dr : clk_drive) (st : SiState) :
    regBlock (Set_VFO_Freq freq dr st) 58 =
      (msBytes (DoTheMath st freq).2.M (DoTheMath st freq).2.R).map some := by
  unfold Set_VFO_Freq regBlock regValue msBytes
  generalize (DoTheMath st freq).2 = SI
  by_cases h4 : SI.M = 4 <;> by_cases hR : (st.oMf = SI.M)
  all_goals
    try rw [h4] at hR
    simp [h4, hR, lastWrite_append, lastWrite, List.range_succ, *]

/-- The bytes sent for each row of the table of `DoTheMath`. -/
theorem msBytes_rows (f : Nat) :
    msBytes (selectMR f).1 (selectMR f).2 = dividerBytes (selectMR f).1 (selectMR f).2 ∧
      ((selectMR f).1 ≠ 4 →
        decodeDivider (dividerBytes (selectMR f).1 (selectMR f).2) =
            some (128 * (selectMR f).1 - 512, 0, 1, (selectMR f).2) ∧
          128 * (selectMR f).1 - 512 < 2 ^ 18 ∧
          (128 * (selectMR f).1 - 512 + 512) / 128 = (selectMR f).1) ∧
      ((selectMR f).1 = 4 →
        dividerBytes (selectMR f).1 (selectMR f).2 = [0, 1, 0x0C, 0, 0, 0, 0, 0]) := by
  rcases selectMR_cases f with h | h | h | h | h | h | h | h | h | h | h | h | h | h | h | h
  all_goals
    have hc := by first | exact h.2.2 | exact h.2
    rw [hc]
    decide

/-- C26: integer divider encoding.  After an enabled `Set_Carrier_Freq` the
registers 42..49 and 50..57, and after `Set_VFO_Freq` the registers 58..65,
hold the divider bytes of the multiplier `M` and exponent `R` chosen by
`DoTheMath`.  For `M ≠ 4` these encode `P3 = 1`, `P2 = 0`, `R` in bits 6..4 of
the third byte and the 18-bit value `P1 = 128 M - 512` as bits 17..16 (low two
bits of the third byte), 15..8 and 7..0, so that `R` and `M = (P1 + 512) / 128`
are read back from the bytes; for `M = 4` the third byte is `0x0C` and all
`P1` and `P2` bytes are 0. -/
theorem C26_divider_encoding (freq MODE : Nat) (dr : clk_drive) (RST : Nat) (st : SiState)
    (hM : MODE ≠ 0) :
    regBlock (Set_Carrier_Freq freq MODE dr RST st) 42 =
        (dividerBytes (DoTheMath st freq).2.M (DoTheMath st freq).2.R).map some ∧
      regBlock (Set_Carrier_Freq freq MODE dr RST st) 50 =
        (dividerBytes (DoTheMath st freq).2.M (DoTheMath st freq).2.R).map some ∧
      regBlock (Set_VFO_Freq freq dr st) 58 =
        (dividerBytes (DoTheMath st freq).2.M (DoTheMath st freq).2.R).map some ∧
      ((DoTheMath st freq).2.M ≠ 4 →
        decodeDivider (dividerBytes (DoTheMath st freq).2.M (DoTheMath st freq).2.R) =
            some (128 * (DoTheMath st freq).2.M - 512, 0, 1, (DoTheMath st freq).2.R) ∧
          128 * (DoTheMath st freq).2.M - 512 < 2 ^ 18 ∧
          (128 * (DoTheMath st freq).2.M - 512 + 512) / 128 = (DoTheMath st freq).2.M) ∧
      ((DoTheMath st freq).2.M = 4 →
        dividerBytes (DoTheMath st freq).2.M (DoTheMath st freq).2.R =
          [0, 1, 0x0C, 0, 0, 0, 0, 0]) := by
  obtain ⟨b1, b2⟩ := Set_Carrier_Freq_blocks freq MODE dr RST st hM
  have b3 := Set_VFO_Freq_block freq dr st
  obtain ⟨r1, r2, r3⟩ := msBytes_rows (clampFreq (applyCorrection st.xtalCorr freq))
  rw [← DoTheMath_M, ← DoTheMath_R] at r1 r2 r3
  rw [r1] at b1 b2 b3
  exact ⟨b1, b2, b3, r2, r3⟩

/-- Instance of C26: 7 MHz on both carrier outputs and on the VFO output from
the boot state (`M = 62`, `R = 0`, `P1 = 7424 = 0x1D00`). -/
theorem C26_divider_encoding_witness :
    C_OSC_QUAD ≠ 0 ∧
      regBlock (Set_Carrier_Freq 7000000 C_OSC_QUAD clk_drive.CLK_DRIVE_4MA 0 SiState.boot) 42 =
        [some 0, some 1, some 0, some 0x1D, some 0, some 0, some 0, some 0] ∧
      (regBlock (Set_Carrier_Freq 7000000 C_OSC_QUAD clk_drive.CLK_DRIVE_4MA 0 SiState.boot) 42 =
        (dividerBytes (DoTheMath SiState.boot 7000000).2.M
          (DoTheMath SiState.boot 7000000).2.R).map some ∧
      regBlock (Set_Carrier_Freq 7000000 C_OSC_QUAD clk_drive.CLK_DRIVE_4MA 0 SiState.boot) 50 =
        (dividerBytes (DoTheMath SiState.boot 7000000).2.M
          (DoTheMath SiState.boot 7000000).2.R).map some ∧
      regBlock (Set_VFO_Freq 7000000 clk_drive.CLK_DRIVE_4MA SiState.boot) 58 =
        (dividerBytes (DoTheMath SiState.boot 7000000).2.M
          (DoTheMath SiState.boot 7000000).2.R).map some ∧
      ((DoTheMath SiState.boot 7000000).2.M ≠ 4 →
        decodeDivider (dividerBytes (DoTheMath SiState.boot 7000000).2.M
            (DoTheMath SiState.boot 7000000).2.R) =
            some (128 * (DoTheMath SiState.boot 7000000).2.M - 512, 0, 1,
              (DoTheMath SiState.boot 7000000).2.R) ∧
          128 * (DoTheMath SiState.boot 7000000).2.M - 512 < 2 ^ 18 ∧
          (128 * (DoTheMath SiState.boot 7000000).2.M - 512 + 512) / 128 =
            (DoTheMath SiState.boot 7000000).2.M) ∧
      ((DoTheMath SiState.boot 7000000).2.M = 4 →
        dividerBytes (DoTheMath SiState.boot 7000000).2.M (DoTheMath SiState.boot 7000000).2.R =
          [0, 1, 0x0C, 0, 0, 0, 0, 0])) :=
  ⟨by decide, by decide,
    C26_divider_encoding 7000000 C_OSC_QUAD clk_drive.CLK_DRIVE_4MA 0 SiState.boot (by decide)⟩

/-- Registers and reset value of the VFO path. -/
theorem Set_VFO_Freq_frame (freq : Nat) (dr : clk_drive) (st : SiState) :
    (writesSince st (Set_VFO_Freq freq dr st)).all
      (fun w => (decide (34 ≤ w.1) && decide (w.1 ≤ 41)) ||
        (decide (58 ≤ w.1) && decide (w.1 ≤ 65)) || w == (177, 0x80)) = true := by
  unfold Set_VFO_Freq writesSince
  generalize (DoTheMath st freq).2 = SI
  by_cases hM : SI.M = 4 <;> by_cases hR : st.oMf = SI.M
  all_goals
    try rw [hM] at hR
    simp [hM, hR]

set_option maxHeartbeats 4000000 in
/-- Registers and reset value of the carrier path. -/
theorem Set_Carrier_Freq_frame (freq MODE : Nat) (dr : clk_drive) (RST : Nat) (st : SiState) :
    (writesSince st (Set_Carrier_Freq freq MODE dr RST st)).all
      (fun w => w.1 == 3 || w.1 == 16 || w.1 == 17 ||
        (decide (26 ≤ w.1) && decide (w.1 ≤ 33)) ||
        (decide (42 ≤ w.1) && decide (w.1 ≤ 57)) || w.1 == 165 || w.1 == 166 ||
        w == (177, 0x20)) = true := by
  have hmode : MODE = 0 ∨ MODE = 4 ∨ MODE = 1 ∨ MODE = 2 ∨
      (MODE ≠ 0 ∧ MODE ≠ 4 ∧ MODE ≠ 1 ∧ MODE ≠ 2) := by omega
  unfold Set_Carrier_Freq writesSince
  simp only [ne_eq, DoTheMath_ite, DoTheMath_cmd, DoTheMath_cmds,
    ite_self, C_OSC_QUAD_R, C_OSC_CLK0, C_OSC_CLK1]
  generalize (DoTheMath st freq).2 = SI
  rcases hmode with rfl | rfl | rfl | rfl | ⟨m0, m4, m1, m2⟩ <;>
    by_cases h4 : SI.M = 4 <;> by_cases hR : (st.oMc = SI.M) <;> by_cases hF : RST = 1
  all_goals
    try rw [h4] at hR
    simp [h4, hR, hF, *]

/-- C28: the two oscillator paths are independent.  `Set_VFO_Freq` writes only
registers 34..41, 58..65 and register 177 with value `0x80`, and leaves the
remembered carrier multiplier `oMc`; `Set_Carrier_Freq` writes only registers
3, 16, 17, 26..33, 42..57, 165, 166 and register 177 with value `0x20`, and
leaves the remembered VFO multiplier `oMf`; with mode off it writes only
`3 <- 0`, so it issues no reset, and changes neither multiplier;
`SetCorrection` and `SetXtalFreq` change neither multiplier.  `DoTheMath`
returns its results and stores into no file scope variable. -/
theorem C28_paths_independent :
    (∀ (freq : Nat) (dr : clk_drive) (st : SiState),
      (writesSince st (Set_VFO_Freq freq dr st)).all
          (fun w => (decide (34 ≤ w.1) && decide (w.1 ≤ 41)) ||
            (decide (58 ≤ w.1) && decide (w.1 ≤ 65)) || w == (177, 0x80)) = true ∧
        (Set_VFO_Freq freq dr st).oMc = st.oMc) ∧
    (∀ (freq MODE : Nat) (dr : clk_drive) (RST : Nat) (st : SiState),
      (writesSince st (Set_Carrier_Freq freq MODE dr RST st)).all
          (fun w => w.1 == 3 || w.1 == 16 || w.1 == 17 ||
            (decide (26 ≤ w.1) && decide (w.1 ≤ 33)) ||
            (decide (42 ≤ w.1) && decide (w.1 ≤ 57)) || w.1 == 165 || w.1 == 166 ||
            w == (177, 0x20)) = true ∧
        (Set_Carrier_Freq freq MODE dr RST st).oMf = st.oMf) ∧
    (∀ (freq : Nat) (dr : clk_drive) (RST : Nat) (st : SiState),
      writesSince st (Set_Carrier_Freq freq C_OSC_OFF dr RST st) = [(3, 0)] ∧
        (Set_Carrier_Freq freq C_OSC_OFF dr RST st).oMc = st.oMc ∧
        (Set_Carrier_Freq freq C_OSC_OFF dr RST st).oMf = st.oMf) ∧
    (∀ (freq : Nat) (st : SiState),
      (DoTheMath st freq) = (DoTheMath { st with oMf := 0, oMc := 0 } freq)) ∧
    (∀ (corr : Int) (st : SiState),
      (SetCorrection corr st).oMf = st.oMf ∧ (SetCorrection corr st).oMc = st.oMc) ∧
    ∀ (freq : Nat) (st : SiState),
      (SetXtalFreq freq st).oMf = st.oMf ∧ (SetXtalFreq freq st).oMc = st.oMc := by
  refine ⟨?_, ?_, Set_Carrier_Freq_off, fun _ _ => rfl, fun _ _ => ⟨rfl, rfl⟩,
    fun _ _ => ⟨rfl, rfl⟩⟩
  · intro freq dr st
    exact ⟨Set_VFO_Freq_frame freq dr st, (Set_VFO_Freq_step freq dr st).2.2.1⟩
  · intro freq MODE dr RST st
    refine ⟨Set_Carrier_Freq_frame freq MODE dr RST st, ?_⟩
    by_cases hM : MODE = 0
    · subst hM
      exact (Set_Carrier_Freq_off freq dr RST st).2.2
    · exact (Set_Carrier_Freq_step freq MODE dr RST st hM).2.2.1

end Si5351

namespace Dial

theorem lowerOdd_odd (n : Int) : lowerOdd n % 2 = 1 := by
  unfold lowerOdd
  generalize Int.tdiv n 2 = q
  omega

theorem mem_loopIndices (L H step i : Int) (h : i ∈ loopIndices L H step) :
    ∃ j : Nat, i = L + step * (j : Int) := by
  unfold loopIndices at h
  obtain ⟨j, _, hj⟩ := List.mem_map.mp h
  exact ⟨j, hj.symm⟩

theorem mem_ticks5 (n H i : Int) (h : i ∈ ticks5 (lowerOdd n) H) : i % 2 = 1 := by
  obtain ⟨j, rfl⟩ := mem_loopIndices _ _ _ _ h
  have := lowerOdd_odd n
  omega

theorem mem_ticks1 (L H i : Int) (h : i ∈ ticks1 L H) : i % 5 ≠ 0 := by
  unfold ticks1 at h
  have h2 := (List.mem_filter.mp h).2
  intro h0
  have hd : (5 : Int) ∣ i := Int.dvd_of_emod_eq_zero h0
  have ht : Int.tmod i 5 = 0 := Int.tmod_eq_zero_of_dvd hd
  simp [ht] at h2

/-- C29: on each scale and for every geometry the three tick densities never
coincide.  The lower bounds `L_main5` and `L_sub5` of `InitDial` are odd
whatever the arc and the pitch are, the loop index of the 5-unit ticks advances
by 2, so 5-unit ticks are drawn only at odd multiples of 5 (offsets that are
5 modulo 10); 1-unit ticks are drawn only at offsets not divisible by 5, and
10-unit ticks only at multiples of 10; no offset belongs to two of the three
kinds. -/
theorem C29_tick_densities_disjoint :
    (∀ (a : Dyadic) (pitch : Nat), lower5 a pitch % 2 = 1) ∧
    (∀ cfg : Config, lower5 (arc_main cfg) TICK_PITCH_MAIN % 2 = 1 ∧
      lower5 (arc_sub cfg) TICK_PITCH_SUB % 2 = 1) ∧
    (∀ n H : Int, (ticks5 (lowerOdd n) H).all (fun i => i % 2 == 1 && 5 * i % 10 == 5) = true) ∧
    (∀ L H : Int, (ticks1 L H).all (fun i => i % 5 != 0) = true) ∧
    (∀ L H : Int, ((ticks10 L H).map (fun i => 10 * i)).all (fun o => o % 10 == 0) = true) ∧
    ∀ (n L1 H1 H5 L10 H10 o : Int),
      ¬ (o ∈ ticks1 L1 H1 ∧ o ∈ (ticks5 (lowerOdd n) H5).map (fun i => 5 * i)) ∧
      ¬ (o ∈ ticks1 L1 H1 ∧ o ∈ (ticks10 L10 H10).map (fun i => 10 * i)) ∧
      ¬ (o ∈ (ticks5 (lowerOdd n) H5).map (fun i => 5 * i) ∧
        o ∈ (ticks10 L10 H10).map (fun i => 10 * i)) := by
  refine ⟨fun a pitch => lowerOdd_odd _, fun cfg => ⟨lowerOdd_odd _, lowerOdd_odd _⟩, ?_, ?_, ?_,
    ?_⟩
  · intro n H
    rw [List.all_eq_true]
    intro i hi
    have := mem_ticks5 n H i hi
    simp only [Bool.and_eq_true, beq_iff_eq]
    omega
  · intro L H
    rw [List.all_eq_true]
    intro i hi
    have := mem_ticks1 L H i hi
    simpa using this
  · intro L H
    rw [List.all_eq_true]
    intro o ho
    obtain ⟨i, _, rfl⟩ := List.mem_map.mp ho
    simp only [beq_iff_eq]
    omega
  · intro n L1 H1 H5 L10 H10 o
    refine ⟨?_, ?_, ?_⟩
    · rintro ⟨h1, h2⟩
      obtain ⟨i, _, rfl⟩ := List.mem_map.mp h2
      have := mem_ticks1 _ _ _ h1
      omega
    · rintro ⟨h1, h2⟩
      obtain ⟨i, _, rfl⟩ := List.mem_map.mp h2
      have := mem_ticks1 _ _ _ h1
      omega
    · rintro ⟨h1, h2⟩
      obtain ⟨i, hi, rfl⟩ := List.mem_map.mp h1
      obtain ⟨j, _, he⟩ := List.mem_map.mp h2
      have := mem_ticks5 _ _ _ hi
      omega

set_option maxRecDepth 100000 in
/-- C30: under each shipped display configuration and for either rotation
sign, every index `k = fsign * i * step + 128` that `Dial` forms in its tick
and numeral loops (for `i` between the `L` and `H` bounds of `InitDial`, with
step 1, 5 or 10, on the sub scale and on the main scale) lies in `1 .. 255`,
the part of the tables `sin_` and `cos_` filled at the start of the call.  The
bounds `(L1, H1, L5, H5, L10, H10)` are `(-25, 51, -5, 10, -2, 5)` on the main
scale and `(-21, 42, -5, 8, -2, 4)` on the sub scale for the width 160, and
`(-51, 102, -9, 20, -4, 10)` and `(-42, 85, -9, 17, -4, 8)` for the width 320. -/
theorem C30_table_index_in_range :
    ([FT7_DISP, SMALL_DISP, LARGE_DISP, CUSTOM_DISP].all fun cfg =>
      [(1 : Int), -1].all fun fsign =>
        (dialIndices cfg fsign).all fun k => decide (1 ≤ k) && decide (k ≤ 255)) = true ∧
    ([FT7_DISP, SMALL_DISP, LARGE_DISP, CUSTOM_DISP].map fun cfg =>
      (lower1 (arc_main cfg) TICK_PITCH_MAIN, upper1 (arc_main cfg) TICK_PITCH_MAIN,
        lower5 (arc_main cfg) TICK_PITCH_MAIN, upper5 (arc_main cfg) TICK_PITCH_MAIN,
        lower10 (arc_main cfg) TICK_PITCH_MAIN, upper10 (arc_main cfg) TICK_PITCH_MAIN)) =
      [(-25, 51, -5, 10, -2, 5), (-25, 51, -5, 10, -2, 5), (-51, 102, -9, 20, -4, 10),
        (-51, 102, -9, 20, -4, 10)] ∧
    ([FT7_DISP, SMALL_DISP, LARGE_DISP, CUSTOM_DISP].map fun cfg =>
      (lower1 (arc_sub cfg) TICK_PITCH_SUB, upper1 (arc_sub cfg) TICK_PITCH_SUB,
        lower5 (arc_sub cfg) TICK_PITCH_SUB, upper5 (arc_sub cfg) TICK_PITCH_SUB,
        lower10 (arc_sub cfg) TICK_PITCH_SUB, upper10 (arc_sub cfg) TICK_PITCH_SUB)) =
      [(-21, 42, -5, 8, -2, 4), (-21, 42, -5, 8, -2, 4), (-42, 85, -9, 17, -4, 8),
        (-42, 85, -9, 17, -4, 8)] := by
  refine ⟨by decide, by decide, by decide⟩

end Dial
